import Mathlib

/-!
# Departures service: model and verified properties

A shallow embedding of the departure model (`model/internal.go`,
`model/convert_local_departure_time.go`), the bus ingester
(`ingester/ingester.go`) and the rail ingester
(`rail-ingester/rail_ingester.go`), followed by theorems about them.

Conventions of the embedding:

* a Go `*string` is an `Option String`; a Go `string` is a `String`; Go's
  `<` on strings compares bytewise, which on valid UTF-8 is the
  lexicographic order of the code points, `goStringLess`;
* a function that can panic returns `Option`, `none` being the panic;
* a function that returns an `error` returns `Result`, which also has a
  constructor for a panic;
* an instant is a number of nanoseconds since the Unix epoch, carried with
  the location (zone) Go attaches to a `time.Time`;
* `time.Parse(time.RFC3339, _)` is a parameter `parse` of the functions that
  call it: the theorems hold for every parser.
-/

namespace DepServices

/-! ## Outcomes -/

/-- Outcome of a Go function that returns an `error`: a value, a returned
error, or a panic. -/
inductive Result (α : Type) where
  | ok : α → Result α
  | error : Result α
  | panic : Result α
  deriving DecidableEq, Repr

/-- Sequencing of outcomes: an error or a panic ends the computation. -/
def Result.bind {α β : Type} (r : Result α) (f : α → Result β) : Result β :=
  match r with
  | Result.ok a => f a
  | Result.error => Result.error
  | Result.panic => Result.panic

/-! ## Time -/

/-- One period of a zone: the offset from UTC in seconds that is in effect
for the Unix seconds `start ≤ s < stop`. This is what `Location.lookup`
of Go's `time` package returns. -/
structure ZoneSpan where
  offset : Int
  start : Int
  stop : Int
  deriving DecidableEq, Repr

/-- A `*time.Location`: the zone period in effect at each Unix second. -/
structure Location where
  lookup : Int → ZoneSpan

/-- A `time.Time`: an instant in nanoseconds since the Unix epoch and the
location it is presented in. -/
structure Time where
  ns : Int
  loc : Location

/-- Nanoseconds in a second, a minute and an hour (`time.Second`,
`time.Minute`, `time.Hour`). -/
def nsPerSecond : Int := 1000000000

def nsPerMinute : Int := 60 * nsPerSecond

def nsPerHour : Int := 60 * nsPerMinute

/-- `t.Before(u)`: the instant of `t` is earlier than that of `u`. -/
def Time.Before (t u : Time) : Bool := decide (t.ns < u.ns)

/-- `t.Equal(u)`: the same instant, whatever the locations. -/
def Time.Equal (t u : Time) : Bool := decide (t.ns = u.ns)

/-- The largest `time.Duration`, `1<<63 - 1` nanoseconds. -/
def maxDuration : Int := 9223372036854775807

/-- The smallest `time.Duration`, `-1 << 63` nanoseconds. -/
def minDuration : Int := -9223372036854775808

/-- `t.Sub(u)`: the duration `t - u` in nanoseconds; a difference that does
not fit a `Duration` gives the largest (or smallest) duration. -/
def Time.Sub (t u : Time) : Int :=
  let d := t.ns - u.ns
  if d > maxDuration then maxDuration
  else if d < minDuration then minDuration
  else d

/-- `t.Truncate(d)`: `t` rounded down to a multiple of `d` since the zero
time. The zero time and the Unix epoch differ by a whole number of minutes,
so for `d = time.Minute` the multiples are those of the Unix instant. -/
def Time.Truncate (t : Time) (d : Int) : Time :=
  { t with ns := t.ns - t.ns % d }

/-! ## The departure record (`model/internal.go`) -/

/-- `model.Departure`. `JourneyType` is a Go string type. -/
structure Departure where
  RecordedAtTime : String
  JourneyType : String
  JourneyRef : String
  AimedDepartureTime : String
  ExpectedDepartureTime : Option String
  DepartureStatus : Option String
  LocationAtcocode : String
  Stand : Option String
  DestinationAtcocode : String
  Destination : String
  ServiceNumber : String
  OperatorCode : String
  deriving DecidableEq, Repr

/-- Constants `model.Bus`, `model.Train`, `model.Tram`. -/
def Bus : String := "bus"

def Train : String := "train"

def Tram : String := "tram"

/-! ## Merging cached and new departures (`ingester/ingester.go`) -/

/-- A Go `map[string]model.Departure`, as a list of entries with distinct
keys. The order of the list carries no meaning: iteration order is supplied
separately. -/
abbrev DepMap := List (String × Departure)

/-- `m[k]` with the comma-ok form: the entry under `k`, if any. -/
def DepMap.get (m : DepMap) (k : String) : Option Departure :=
  match m with
  | [] => none
  | e :: es => if e.1 = k then some e.2 else DepMap.get es k

/-- `delete(m, k)`. -/
def DepMap.delete (m : DepMap) (k : String) : DepMap :=
  m.filter (fun e => decide (e.1 ≠ k))

/-- `m[k] = v`. -/
def DepMap.set (m : DepMap) (k : String) (v : Departure) : DepMap :=
  (k, v) :: DepMap.delete m k

/-- Well-formed map: distinct keys, each departure stored under its own
journey ref. -/
def DepMap.WF (m : DepMap) : Prop :=
  (m.map Prod.fst).Nodup ∧ ∀ e ∈ m, e.2.JourneyRef = e.1

/-- First loop of `combineCachedAndNewDepartures`: map the new departures by
journey ref, a later departure overwriting an earlier one of the same ref. -/
def buildNewDeps (newDepartures : List Departure) : DepMap :=
  newDepartures.foldl (fun m d => DepMap.set m d.JourneyRef d) []

/-- Second loop of `combineCachedAndNewDepartures`: walk the cached list;
an entry whose journey ref is in the map is replaced by the map's entry, and
the journey ref is deleted from the map in either case. Returns the walked
list and the map that is left. -/
def replaceExisting : List Departure → DepMap → List Departure × DepMap
  | [], m => ([], m)
  | d :: ds, m =>
    let d1 := match DepMap.get m d.JourneyRef with
      | some newDep => newDep
      | none => d
    let r := replaceExisting ds (DepMap.delete m d.JourneyRef)
    (d1 :: r.1, r.2)

/-- `Ingester.combineCachedAndNewDepartures`. The third loop appends the
entries left in the map in the order of Go's `range` over a map, which the
language leaves unspecified: `rangeOrder` is that order, any rearrangement of
the entries. -/
def combineCachedAndNewDepartures (rangeOrder : List Departure → List Departure)
    (departures newDepartures : List Departure) : List Departure :=
  let newDeps := buildNewDeps newDepartures
  let r := replaceExisting departures newDeps
  r.1 ++ rangeOrder (r.2.map Prod.snd)

/-- The entry of the new departures `N` for journey ref `k`: the last
departure of `N` with that ref, none if there is none. -/
def newEntryFor : List Departure → String → Option Departure
  | [], _ => none
  | d :: ds, k =>
    match newEntryFor ds k with
    | some e => some e
    | none => if d.JourneyRef = k then some d else none

/-- The cached list with every entry whose journey ref occurs in `N`
replaced in place by the entry of `N` for it. -/
def replacedInPlace (C N : List Departure) : List Departure :=
  C.map (fun c => (newEntryFor N c.JourneyRef).getD c)

/-! ## Sample departures used by the concrete evaluations -/

/-- A bus departure with the given journey ref, aimed time, service number
and destination, at stop 1800BNIN0C1. -/
def sampleBus (journeyRef aimed serviceNumber destination : String) : Departure :=
  { RecordedAtTime := "2019-05-20T12:00:00+01:00"
    JourneyType := Bus
    JourneyRef := journeyRef
    AimedDepartureTime := aimed
    ExpectedDepartureTime := none
    DepartureStatus := none
    LocationAtcocode := "1800BNIN0C1"
    Stand := none
    DestinationAtcocode := "1800WA12481"
    Destination := destination
    ServiceNumber := serviceNumber
    OperatorCode := "ANWE" }

/-- A cached list in which journey ref J1 occurs twice. -/
def cachedWithDuplicate : List Departure :=
  [sampleBus "J1" "2019-05-20T12:10:00+01:00" "12" "Old first",
   sampleBus "J1" "2019-05-20T12:20:00+01:00" "12" "Old second"]

/-- New departures with one entry for journey ref J1. -/
def newForJ1 : List Departure :=
  [sampleBus "J1" "2019-05-20T12:15:00+01:00" "12" "New"]

/-- A cached list with distinct journey refs. -/
def cachedDistinct : List Departure :=
  [sampleBus "J1" "2019-05-20T12:10:00+01:00" "12" "Old first",
   sampleBus "J2" "2019-05-20T12:20:00+01:00" "12" "Old second"]

/-! ## Calendar arithmetic of Go's `time` package -/

/-- Days from 1970-01-01 to day `d` of month `m` (1 to 12) of year `y` in the
proleptic Gregorian calendar. It is linear in `d`, so a day before the first
or after the last of the month lands in the neighbouring month, as the
normalisation of `time.Date` does. -/
def daysFromCivil (y m d : Int) : Int :=
  let y1 := if m ≤ 2 then y - 1 else y
  let era := y1 / 400
  let yoe := y1 - era * 400
  let mp := if m > 2 then m - 3 else m + 9
  let doy := (153 * mp + 2) / 5 + d - 1
  let doe := yoe * 365 + yoe / 4 - yoe / 100 + doy
  era * 146097 + doe - 719468

/-- Year, month and day of the day that lies `z` days after 1970-01-01. -/
def civilFromDays (z0 : Int) : Int × Int × Int :=
  let z := z0 + 719468
  let era := z / 146097
  let doe := z - era * 146097
  let yoe := (doe - doe / 1460 + doe / 36524 - doe / 146096) / 365
  let doy := doe - (365 * yoe + yoe / 4 - yoe / 100)
  let mp := (5 * doy + 2) / 153
  let d := doy - (153 * mp + 2) / 5 + 1
  let m := if mp < 10 then mp + 3 else mp - 9
  let y := yoe + era * 400
  (if m ≤ 2 then y + 1 else y, m, d)

/-- Unix second of an instant. -/
def Time.unix (t : Time) : Int := t.ns / nsPerSecond

/-- `(t.Year(), t.Month(), t.Day())`: the calendar date of `t` in its own
location. -/
def Time.date (t : Time) : Int × Int × Int :=
  civilFromDays ((t.unix + (t.loc.lookup t.unix).offset) / 86400)

/-- `time.Date(year, month, day, hour, min, 0, 0, loc)`: the instant whose
wall clock in `loc` shows the given date and time. The wall clock is first
read as UTC, then the zone offset found there is subtracted, looked up a second
time when the result leaves the zone period that was found. -/
def goDate (year month day hour min : Int) (loc : Location) : Time :=
  let unix := daysFromCivil year month day * 86400 + hour * 3600 + min * 60
  let span := loc.lookup unix
  let unix1 :=
    if span.offset ≠ 0 then
      let utc := unix - span.offset
      let offset :=
        if utc < span.start ∨ utc ≥ span.stop then (loc.lookup utc).offset else span.offset
      unix - offset
    else unix
  { ns := unix1 * nsPerSecond, loc := loc }

/-- The offset that `time.Date` takes for the wall clock reading `unix`
(seconds, read as UTC) in `loc`: the look-up of `goDate` on its own. -/
def dateOffset (loc : Location) (unix : Int) : Int :=
  let span := loc.lookup unix
  if span.offset ≠ 0 then
    let utc := unix - span.offset
    if utc < span.start ∨ utc ≥ span.stop then (loc.lookup utc).offset else span.offset
  else 0

/-! ## Wall clock to instant (`model/convert_local_departure_time.go`) -/

/-- The class `[0-9]` of the regular expressions. -/
def isDigit09 (c : Char) : Bool := decide ('0' ≤ c ∧ c ≤ '9')

/-- The class `[A-Z]` of the regular expressions. -/
def isUpperAZ (c : Char) : Bool := decide ('A' ≤ c ∧ c ≤ 'Z')

/-- Value of a decimal digit. -/
def digitValue (c : Char) : Nat := c.toNat - '0'.toNat

/-- `strconv.Atoi` on a string of decimal digits. -/
def atoiDigits (cs : List Char) : Nat :=
  cs.foldl (fun n c => 10 * n + digitValue c) 0

/-- Whether `s` matches `^[0-9]{2}:[0-9]{2}$`. -/
def matchesHHMM (s : String) : Bool :=
  match s.data with
  | [a, b, c, d, e] => isDigit09 a && isDigit09 b && (c == ':') && isDigit09 d && isDigit09 e
  | _ => false

/-- The two numbers of a string that matches `^[0-9]{2}:[0-9]{2}$`
(`strings.Split` on the colon, then `strconv.Atoi` on each part). -/
def splitHHMM (s : String) : Nat × Nat :=
  match s.data with
  | [a, b, _, d, e] => (atoiDigits [a, b], atoiDigits [d, e])
  | _ => (0, 0)

/-- `model.ConvertDepartureTime`. `now` is a pointer in the source, so it may
be absent. -/
def ConvertDepartureTime (now : Option Time) (localLocation : Location)
    (localTime : String) : Result Time :=
  match now with
  | none => Result.error
  | some now =>
    if ¬ matchesHHMM localTime then Result.error
    else
      let hours : Int := (splitHHMM localTime).1
      let mins : Int := (splitHHMM localTime).2
      let ymd := now.date
      let departingToday := goDate ymd.1 ymd.2.1 ymd.2.2 hours mins localLocation
      if now.Sub departingToday > 2 * nsPerHour then
        Result.ok (goDate ymd.1 ymd.2.1 (ymd.2.2 + 1) hours mins localLocation)
      else if departingToday.Sub now > 2 * nsPerHour then
        Result.ok (goDate ymd.1 ymd.2.1 (ymd.2.2 - 1) hours mins localLocation)
      else Result.ok departingToday

/-! ## Departure time and expiry (`model/internal.go`) -/

/-- `Departure.DepartureTime`: the expected time when it is set, else the
aimed time, with the flag that tells which; `none` is a returned parse
error. -/
def Departure.DepartureTime (parse : String → Option Time) (d : Departure) :
    Option (Time × Bool) :=
  match d.ExpectedDepartureTime with
  | some e => (parse e).map (fun t => (t, true))
  | none => (parse d.AimedDepartureTime).map (fun t => (t, false))

/-- `Departure.IsExpired`; `none` is a panic: an unparseable time, or the
dereference of an absent `DepartureStatus` of a train departure. -/
def Departure.IsExpired (parse : String → Option Time) (d : Departure) (now : Time) :
    Option Bool :=
  match d.DepartureTime parse with
  | none => none
  | some (depTime, _) =>
    if d.JourneyType = Train then
      match d.DepartureStatus with
      | none => none
      | some status =>
        if status = "Delayed" then some false
        else if matchesHHMM status then
          match ConvertDepartureTime (some now) depTime.loc status with
          | Result.ok expectedDepartureTime =>
            some (expectedDepartureTime.Before (now.Truncate nsPerMinute))
          | _ => none
        else some (depTime.Before (now.Truncate nsPerMinute))
    else some (depTime.Before now)

/-! ## Service numbers and the sort orders (`model/internal.go`) -/

/-- Lexicographic order on lists of characters, by code point. -/
def lexLess : List Char → List Char → Bool
  | [], [] => false
  | [], _ :: _ => true
  | _ :: _, [] => false
  | a :: as, b :: bs => decide (a.toNat < b.toNat) || (decide (a = b) && lexLess as bs)

/-- Go's `<` on strings. -/
def goStringLess (a b : String) : Bool := lexLess a.data b.data

/-- `strings.ToUpper` on one character, as far as the service-number
expression can tell: ASCII lower case letters go to upper case, and so do the
only two other characters whose upper case is an ASCII letter (dotless i,
U+0131, and long s, U+017F). Any other character has an upper case outside
`[A-Z0-9]` and is left as it is. -/
def goToUpper (c : Char) : Char :=
  if c = Char.ofNat 0x131 then 'I'
  else if c = Char.ofNat 0x17F then 'S'
  else c.toUpper

/-- `Departure.GetServiceNumberParts`: prefix, digits and suffix of the
upper-cased service number under `^([A-Z]+)?(([\d]{1,3})?([A-Z])?)?$`;
`none` is the panic on a service number that does not match.

The expression is matched greedily, which decides the groups: the prefix is
the longest run of letters at the start, the digits are the next one to three
digits, the suffix is one letter after them, and the match needs the string
to end there. No shorter choice can succeed where the greedy one fails. -/
def Departure.GetServiceNumberParts (d : Departure) :
    Option (Option String × Option Nat × Option String) :=
  let s := d.ServiceNumber.data.map goToUpper
  let pre := s.takeWhile isUpperAZ
  let r1 := s.dropWhile isUpperAZ
  let digs := (r1.takeWhile isDigit09).take 3
  let r2 := r1.drop digs.length
  let pfx : Option String := if pre = [] then none else some (String.mk pre)
  let dig : Option Nat := if digs = [] then none else some (atoiDigits digs)
  match r2 with
  | [] => some (pfx, dig, none)
  | [c] => if isUpperAZ c then some (pfx, dig, some (String.mk [c])) else none
  | _ => none

/-- `lessByServiceNumber`. The outer `none` is a panic of
`GetServiceNumberParts`, the inner `none` is the nil result for equal service
numbers. -/
def lessByServiceNumber (a b : Departure) : Option (Option Bool) :=
  if a.ServiceNumber = b.ServiceNumber then some none
  else
    match a.GetServiceNumberParts with
    | none => none
    | some (iPrefix, iDigits, iSuffix) =>
      match b.GetServiceNumberParts with
      | none => none
      | some (jPrefix, jDigits, jSuffix) =>
        if (iPrefix = none ∧ jPrefix = none) ∨
            (iPrefix ≠ none ∧ jPrefix ≠ none ∧ iPrefix = jPrefix) then
          match iDigits, jDigits with
          | some x, some y =>
            if x = y then
              match iSuffix, jSuffix with
              | some p, some q => some (some (goStringLess p q))
              | _, _ => some (some (iSuffix.isNone))
            else some (some (decide (x < y)))
          | _, _ => some (some (jDigits.isNone))
        else
          match iPrefix, jPrefix with
          | none, _ => some (some true)
          | _, none => some (some false)
          | some p, some q => some (some (goStringLess p q))

/-- `ByDepartureTime.Less` on the two elements it is called for; `none` is a
panic. -/
def ByDepartureTime.Less (parse : String → Option Time) (a b : Departure) : Option Bool :=
  match a.DepartureTime parse with
  | none => none
  | some (iDepartureTime, _) =>
    match b.DepartureTime parse with
    | none => none
    | some (jDepartureTime, _) =>
      if iDepartureTime.Equal jDepartureTime then
        match lessByServiceNumber a b with
        | none => none
        | some none => some (goStringLess a.JourneyRef b.JourneyRef)
        | some (some result) => some result
      else some (iDepartureTime.Before jDepartureTime)

/-- `ByServiceNumber.Less` on the two elements it is called for; `none` is a
panic. -/
def ByServiceNumber.Less (parse : String → Option Time) (a b : Departure) : Option Bool :=
  match lessByServiceNumber a b with
  | none => none
  | some none =>
    match a.DepartureTime parse with
    | none => none
    | some (iDepartureTime, _) =>
      match b.DepartureTime parse with
      | none => none
      | some (jDepartureTime, _) =>
        if iDepartureTime.Equal jDepartureTime then
          some (goStringLess a.JourneyRef b.JourneyRef)
        else some (iDepartureTime.Before jDepartureTime)
  | some (some result) => some result

/-! ## `sort.Sort` -/

/-- Inner loop of the insertion sort of Go's `sort` package, on the sorted
part held in reverse (nearest element first): `x` moves left while it is less
than its left neighbour. Returns the sorted part with `x` in place, still in
reverse; `none` when a comparison panics. -/
def insertLeft (less : Departure → Departure → Option Bool) (x : Departure) :
    List Departure → Option (List Departure)
  | [] => some [x]
  | y :: ys =>
    match less x y with
    | none => none
    | some true => (insertLeft less x ys).map (fun r => y :: r)
    | some false => some (x :: y :: ys)

/-- Outer loop of the insertion sort: `done` is the sorted part in reverse,
the list is what is still to insert. -/
def insertionSortLoop (less : Departure → Departure → Option Bool) :
    List Departure → List Departure → Option (List Departure)
  | done, [] => some done.reverse
  | done, x :: xs =>
    match insertLeft less x done with
    | none => none
    | some done1 => insertionSortLoop less done1 xs

/-- `sort.Sort` with the given `Less`, as the insertion sort that the
library runs on slices of fewer than twelve elements; `none` when a comparison
panics. -/
def sortSort (less : Departure → Departure → Option Bool) (l : List Departure) :
    Option (List Departure) :=
  insertionSortLoop less [] l

/-! ## Notions of the specification -/

/-- The effective departure time of the specification, as the text the
record holds: the expected time if present, else the aimed time. -/
def effectiveTime (d : Departure) : String :=
  match d.ExpectedDepartureTime with
  | some e => e
  | none => d.AimedDepartureTime

/-- The service number matches the grammar: `GetServiceNumberParts` returns
its parts. -/
def grammarMatching (d : Departure) : Prop := d.GetServiceNumberParts.isSome = true

instance (d : Departure) : Decidable (grammarMatching d) :=
  inferInstanceAs (Decidable (d.GetServiceNumberParts.isSome = true))

/-- The comparison `lessByServiceNumber a b` answers true. -/
def precedesByServiceNumber (a b : Departure) : Prop :=
  lessByServiceNumber a b = some (some true)

/-- A parser for the sample times: whole minutes of 2019-05-20 between
12:00 and 12:59 British Summer Time, and nothing else. -/
def sampleParse (s : String) : Option Time :=
  match s.data with
  | ['2','0','1','9','-','0','5','-','2','0','T','1','2',':', m1, m2, ':','0','0','+','0','1',':','0','0'] =>
    if isDigit09 m1 && isDigit09 m2 && decide (atoiDigits [m1, m2] < 60) then
      some { ns := (1558350000 + 60 * (atoiDigits [m1, m2] : Int)) * nsPerSecond
             loc := { lookup := fun _ => { offset := 3600, start := 1553994000, stop := 1572138000 } } }
    else none
  | _ => none

/-- One level of the service-number order of the specification: an absent
component sorts before any present one, two present ones compare by `lt`. -/
def specLevelLess {α : Type} (lt : α → α → Bool) : Option α → Option α → Bool
  | none, some _ => true
  | some x, some y => lt x y
  | _, none => false

/-- The service-number order as the specification words it: three-level
lexicographic on (prefix, digits, suffix), prefixes and suffixes compared as
strings, digits numerically, an absent component first at each level. -/
def specServiceNumberLess (x y : Option String × Option Nat × Option String) : Bool :=
  specLevelLess goStringLess x.1 y.1
    || (decide (x.1 = y.1)
        && (specLevelLess (fun m n => decide (m < n)) x.2.1 y.2.1
            || (decide (x.2.1 = y.2.1)
                && specLevelLess goStringLess x.2.2 y.2.2)))

/-- Now truncated to the whole minute, on Unix nanoseconds. -/
def truncMinute (ns : Int) : Int := ns - ns % nsPerMinute

/-- The instant `ns` lies inside minute number `m` (counted from the Unix
epoch). -/
def inMinute (m ns : Int) : Prop := m * nsPerMinute ≤ ns ∧ ns < (m + 1) * nsPerMinute

/-- A train departure at station 9100MNCRPIC with the given aimed time and
departure status. -/
def sampleTrain (journeyRef aimed : String) (status : Option String) : Departure :=
  { RecordedAtTime := "2019-05-20T12:00:00+01:00"
    JourneyType := Train
    JourneyRef := journeyRef
    AimedDepartureTime := aimed
    ExpectedDepartureTime := none
    DepartureStatus := status
    LocationAtcocode := "9100MNCRPIC"
    Stand := none
    DestinationAtcocode := ""
    Destination := "London Euston"
    ServiceNumber := ""
    OperatorCode := "VT" }

/-- British Summer Time of 2019, the location of the sample times. -/
def sampleZone : Location :=
  { lookup := fun _ => { offset := 3600, start := 1553994000, stop := 1572138000 } }

/-- The instant 2019-05-20 12:00 BST plus the given number of seconds. -/
def sampleNow (seconds : Int) : Time :=
  { ns := (1558350000 + seconds) * nsPerSecond, loc := sampleZone }

/-! ## Bus ingester: expiry, ingest of one location (`ingester/ingester.go`) -/

/-- `Ingester.removeExpiredDepartures`: keeps, in order, the departures whose
expected time (aimed time when no expected time is set) is not before `now`;
a time that does not parse is a returned error. -/
def Ingester.removeExpiredDepartures (parse : String → Option Time) (now : Time) :
    List Departure → Result (List Departure)
  | [] => Result.ok []
  | departure :: rest =>
    match departure.ExpectedDepartureTime with
    | some expected =>
      match parse expected with
      | none => Result.error
      | some expectedDepartureTime =>
        (Ingester.removeExpiredDepartures parse now rest).bind (fun kept =>
          if ¬ expectedDepartureTime.Before now = true then Result.ok (departure :: kept)
          else Result.ok kept)
    | none =>
      match parse departure.AimedDepartureTime with
      | none => Result.error
      | some aimedDepartureTime =>
        (Ingester.removeExpiredDepartures parse now rest).bind (fun kept =>
          if ¬ aimedDepartureTime.Before now = true then Result.ok (departure :: kept)
          else Result.ok kept)

/-- `Ingester.ingestLocation` between the read of the cached list and the
write: merge, drop the expired, sort. The result is the list handed to
`updateCachedData`, which writes it under the location key in one
transaction. `cached` is the list decoded from the cache, `now` the reading of
the clock. A panic of the sort comparison is a panic. -/
def Ingester.ingestLocation (parse : String → Option Time)
    (rangeOrder : List Departure → List Departure) (now : Time)
    (cached newDepartures : List Departure) : Result (List Departure) :=
  let departures := combineCachedAndNewDepartures rangeOrder cached newDepartures
  (Ingester.removeExpiredDepartures parse now departures).bind (fun kept =>
    match sortSort (ByDepartureTime.Less parse) kept with
    | some sorted => Result.ok sorted
    | none => Result.panic)

/-! ## Rail ingester (`rail-ingester/rail_ingester.go`) -/

/-- `nationalrail.ServiceLocation`, the fields the ingester reads. -/
structure ServiceLocation where
  LocationName : Option String
  Via : String
  deriving DecidableEq, Repr

/-- `nationalrail.ServiceItem`, the fields the ingester reads. -/
structure ServiceItem where
  Std : Option String
  Etd : Option String
  Platform : Option String
  OperatorCode : Option String
  ServiceID : Option String
  Destination : Option (List ServiceLocation)
  deriving DecidableEq, Repr

/-- `nationalrail.StationBoard`, the fields the ingester reads. Services and
locations are held by value: a null element of the list is not modelled. -/
structure StationBoard where
  GeneratedAt : Time
  Crs : Option String
  PlatformAvailable : Bool
  TrainServices : Option (List ServiceItem)

/-- The loop of `convertDestination`: the text of each location, its name
followed by a space and its via text when that is not empty; a location
without a name is a returned error. -/
def RailIngester.destinationTexts : List ServiceLocation → Result (List String)
  | [] => Result.ok []
  | location :: rest =>
    match location.LocationName with
    | none => Result.error
    | some name =>
      let destination := if location.Via ≠ "" then name ++ " " ++ location.Via else name
      (RailIngester.destinationTexts rest).bind (fun ds => Result.ok (destination :: ds))

/-- `RailIngester.convertDestination`: the texts of the locations joined with
" + ". -/
def RailIngester.convertDestination (locations : List ServiceLocation) : Result String :=
  (RailIngester.destinationTexts locations).bind (fun ds =>
    Result.ok (String.intercalate " + " ds))

/-- Body of the loop of `transformToInternalModel` for one service. `format`
is `Time.Format(time.RFC3339)`. -/
def RailIngester.transformService (format : Time → String) (now : Time)
    (localLocation : Location) (generatedAt : Time) (platformAvailable : Bool)
    (locationAtcocode : String) (service : ServiceItem) : Result Departure :=
  match service.ServiceID with
  | none => Result.error
  | some serviceID =>
    match service.Std with
    | none => Result.error
    | some std =>
      match service.Etd with
      | none => Result.error
      | some etd =>
        match service.Destination with
        | none => Result.error
        | some locations =>
          match service.OperatorCode with
          | none => Result.error
          | some operatorCode =>
            (ConvertDepartureTime (some now) localLocation std).bind (fun aimedDepartureTime =>
              (RailIngester.convertDestination locations).bind (fun destination =>
                Result.ok
                  { RecordedAtTime := format generatedAt
                    JourneyType := Train
                    JourneyRef := serviceID
                    AimedDepartureTime := format aimedDepartureTime
                    ExpectedDepartureTime := none
                    DepartureStatus := some etd
                    LocationAtcocode := locationAtcocode
                    Stand := if platformAvailable then service.Platform else none
                    DestinationAtcocode := ""
                    Destination := destination
                    ServiceNumber := ""
                    OperatorCode := operatorCode }))

/-- The loop of `transformToInternalModel` over the services. -/
def RailIngester.transformServices (format : Time → String) (now : Time)
    (localLocation : Location) (generatedAt : Time) (platformAvailable : Bool)
    (locationAtcocode : String) : List ServiceItem → Result (List Departure)
  | [] => Result.ok []
  | service :: rest =>
    (RailIngester.transformService format now localLocation generatedAt platformAvailable
      locationAtcocode service).bind (fun departure =>
      (RailIngester.transformServices format now localLocation generatedAt platformAvailable
        locationAtcocode rest).bind (fun departures => Result.ok (departure :: departures)))

/-- `RailIngester.transformToInternalModel`. -/
def RailIngester.transformToInternalModel (format : Time → String) (now : Time)
    (localLocation : Location) (stationBoard : StationBoard) (locationAtcocode : String) :
    Result (List Departure) :=
  match stationBoard.TrainServices with
  | none => Result.ok []
  | some services =>
    RailIngester.transformServices format now localLocation stationBoard.GeneratedAt
      stationBoard.PlatformAvailable locationAtcocode services

/-- `RailIngester.removeExpiredDepartures`: keeps, in order, the departures
for which `IsExpired(now)` is false; a panic of `IsExpired` is a panic. -/
def RailIngester.removeExpiredDepartures (parse : String → Option Time) (now : Time) :
    List Departure → Result (List Departure)
  | [] => Result.ok []
  | departure :: rest =>
    match departure.IsExpired parse now with
    | none => Result.panic
    | some expired =>
      (RailIngester.removeExpiredDepartures parse now rest).bind (fun kept =>
        if expired then Result.ok kept else Result.ok (departure :: kept))

/-- `RailIngester.processRecords` from the decoded station board to the
write: the location key and the list handed to `updateCachedData`.
`getAtcoCode` is the table of `nationalrail.GetAtcoCode`; `now1` and `now2`
are the two readings of the clock, for the transformation and for the
expiry. -/
def RailIngester.processRecords (parse : String → Option Time) (format : Time → String)
    (getAtcoCode : String → Option String) (timeLocation : Location) (now1 now2 : Time)
    (stationBoard : StationBoard) : Result (String × List Departure) :=
  match stationBoard.Crs with
  | none => Result.error
  | some crs =>
    match getAtcoCode crs with
    | none => Result.error
    | some atcocode =>
      (RailIngester.transformToInternalModel format now1 timeLocation stationBoard
        atcocode).bind (fun departures =>
        (RailIngester.removeExpiredDepartures parse now2 departures).bind (fun kept =>
          Result.ok (atcocode, kept)))

/-! ## Sample rail data -/

/-- A formatter for the sample times: the inverse of `sampleParse` on whole
minutes of 2019-05-20 between 12:00 and 12:59 British Summer Time. -/
def sampleFormat (t : Time) : String :=
  let minute := ((t.ns / nsPerSecond - 1558350000) / 60).toNat
  String.mk (['2','0','1','9','-','0','5','-','2','0','T','1','2',':',
    Char.ofNat (48 + minute / 10), Char.ofNat (48 + minute % 10),
    ':','0','0','+','0','1',':','0','0'])

/-- A train service of the sample board, to London Euston, on time. -/
def sampleService (serviceID std : String) : ServiceItem :=
  { Std := some std
    Etd := some "On time"
    Platform := none
    OperatorCode := some "VT"
    ServiceID := some serviceID
    Destination := some [{ LocationName := some "London Euston", Via := "" }] }

/-- A station board for Manchester Piccadilly with the given services. -/
def sampleBoard (services : List ServiceItem) : StationBoard :=
  { GeneratedAt := sampleNow 0
    Crs := some "MAN"
    PlatformAvailable := true
    TrainServices := some services }

/-- The one entry of the CRS table that the sample board needs. -/
def sampleAtcoCode (crs : String) : Option String :=
  if crs = "MAN" then some "9100MNCRPIC" else none

/-- The list is sorted ascending by `less`: for no two adjacent entries
`x`, `y` does `less y x` hold. -/
def SortedBy (less : Departure → Departure → Option Bool) (l : List Departure) : Prop :=
  l.Chain' (fun x y => less y x ≠ some true)

/-- No two departures of the list are each less than the other. -/
def AsymmetricOn (less : Departure → Departure → Option Bool) (l : List Departure) : Prop :=
  ∀ u ∈ l, ∀ v ∈ l, ¬ (less u v = some true ∧ less v u = some true)

/-- Service numbers of the list that decompose into the same prefix, digits
and suffix are the same text (so the list does not hold, say, both 012 and 12,
or both a and A). -/
def PartsDetermineServiceNumber (l : List Departure) : Prop :=
  ∀ a ∈ l, ∀ b ∈ l,
    a.GetServiceNumberParts = b.GetServiceNumberParts → a.ServiceNumber = b.ServiceNumber

instance (l : List Departure) : Decidable (PartsDetermineServiceNumber l) :=
  inferInstanceAs (Decidable (∀ a ∈ l, ∀ b ∈ l,
    a.GetServiceNumberParts = b.GetServiceNumberParts → a.ServiceNumber = b.ServiceNumber))

/-- The departures of the list that `IsExpired(now)` reports as not expired,
in their order. -/
def notExpired (parse : String → Option Time) (now : Time) (l : List Departure) :
    List Departure :=
  l.filter (fun d => decide (d.IsExpired parse now = some false))

/-- A board with a later service listed before an earlier one. -/
def boardOutOfOrder : StationBoard :=
  sampleBoard [sampleService "S1" "12:30", sampleService "S2" "12:10"]

/-- A train due 12:10 whose status is Delayed. -/
def delayedTrain : Departure :=
  sampleTrain "S1" "2019-05-20T12:10:00+01:00" (some "Delayed")

/-- The service IDs of the train services of a board, in board order. -/
def boardServiceIDs (stationBoard : StationBoard) : List (Option String) :=
  match stationBoard.TrainServices with
  | none => []
  | some services => services.map (fun s => s.ServiceID)

/-- A board that lists service S1 twice. -/
def boardWithRepeatedService : StationBoard :=
  sampleBoard [sampleService "S1" "12:30", sampleService "S1" "12:40"]

/-! ## Bus ingester: destinations and stop areas (`ingester/ingester.go`) -/

/-- Reply of the key/value store to `GET key`, as `redis.String` reads it: a
value, no value (`redis.ErrNil`), or a failure of the connection. -/
inductive RedisReply where
  | value : String → RedisReply
  | nil : RedisReply
  | failure : RedisReply
  deriving DecidableEq, Repr

/-- A Go `map[string]*string`, the local cache of one reference-data store. An
entry with value `none` records that the store has no value for the key. A key
is looked up from the front, so a later `set` shadows an earlier one. -/
abbrev Memo := List (String × Option String)

/-- `m[k]` with the comma-ok form. -/
def Memo.get (m : Memo) (k : String) : Option (Option String) :=
  match m with
  | [] => none
  | e :: es => if e.1 = k then some e.2 else Memo.get es k

/-- `m[k] = v`. -/
def Memo.set (m : Memo) (k : String) (v : Option String) : Memo := (k, v) :: m

/-- The three local caches of an `Ingester`. -/
structure IngesterMemos where
  circularServices : Memo
  localityNames : Memo
  stopsInArea : Memo
  deriving DecidableEq, Repr

/-- `Ingester.getCircularServiceDestination`: the local cache first, then the
store, whose answer (a value or none) is recorded in the local cache. Returns
the destination and the local cache after the call. -/
def Ingester.getCircularServiceDestination (circularServices : Memo)
    (store : String → RedisReply) (operatorCode serviceNumber : String) :
    Result (Option String × Memo) :=
  let key := operatorCode ++ serviceNumber
  match Memo.get circularServices key with
  | some val => Result.ok (val, circularServices)
  | none =>
    match store key with
    | RedisReply.nil => Result.ok (none, Memo.set circularServices key none)
    | RedisReply.failure => Result.error
    | RedisReply.value circularServiceDestination =>
      Result.ok (some circularServiceDestination,
        Memo.set circularServices key (some circularServiceDestination))

/-- `Ingester.getLocalityName`. -/
def Ingester.getLocalityName (localityNames : Memo) (store : String → RedisReply)
    (atcocode : String) : Result (Option String × Memo) :=
  match Memo.get localityNames atcocode with
  | some val => Result.ok (val, localityNames)
  | none =>
    match store atcocode with
    | RedisReply.nil => Result.ok (none, Memo.set localityNames atcocode none)
    | RedisReply.failure => Result.error
    | RedisReply.value localityName =>
      Result.ok (some localityName, Memo.set localityNames atcocode (some localityName))

/-- `Ingester.updateDestinationNames`: the departures with their destinations
rewritten, and the local caches after the call. -/
def Ingester.updateDestinationNames (circularStore localityStore : String → RedisReply) :
    IngesterMemos → List Departure → Result (List Departure × IngesterMemos)
  | memos, [] => Result.ok ([], memos)
  | memos, departure :: rest =>
    (Ingester.getCircularServiceDestination memos.circularServices circularStore
      departure.OperatorCode departure.ServiceNumber).bind (fun r =>
      match r.1 with
      | some circularServiceDestination =>
        (Ingester.updateDestinationNames circularStore localityStore
          { memos with circularServices := r.2 } rest).bind (fun out =>
          Result.ok ({ departure with Destination := circularServiceDestination } :: out.1,
            out.2))
      | none =>
        (Ingester.getLocalityName memos.localityNames localityStore
          departure.DestinationAtcocode).bind (fun q =>
          match q.1 with
          | some localityName =>
            (Ingester.updateDestinationNames circularStore localityStore
              { memos with circularServices := r.2, localityNames := q.2 } rest).bind
              (fun out =>
                Result.ok ({ departure with Destination := localityName } :: out.1, out.2))
          | none =>
            (Ingester.updateDestinationNames circularStore localityStore
              { memos with circularServices := r.2, localityNames := q.2 } rest).bind
              (fun out => Result.ok (departure :: out.1, out.2))))

/-- `Ingester.getStopArea`. On a hit in the local cache the source passes
`*val` to the debug logger, which dereferences a nil pointer when the cached
entry records that the stop has no area: that is the panic. -/
def Ingester.getStopArea (stopsInArea : Memo) (store : String → RedisReply)
    (atcocode : String) : Result (Option String × Memo) :=
  match Memo.get stopsInArea atcocode with
  | some (some val) => Result.ok (some val, stopsInArea)
  | some none => Result.panic
  | none =>
    match store atcocode with
    | RedisReply.nil => Result.ok (none, Memo.set stopsInArea atcocode none)
    | RedisReply.failure => Result.error
    | RedisReply.value stopArea =>
      Result.ok (some stopArea, Memo.set stopsInArea atcocode (some stopArea))

/-- A Go `map[string][]model.Departure`: the departures grouped under each
key. -/
abbrev Grouped := List (String × List Departure)

/-- `m[k]`: the departures under `k`, none when the key is absent. -/
def Grouped.get (m : Grouped) (k : String) : List Departure :=
  match m with
  | [] => []
  | e :: es => if e.1 = k then e.2 else Grouped.get es k

/-- `m[k] = append(m[k], d)`. -/
def Grouped.append (m : Grouped) (k : String) (d : Departure) : Grouped :=
  match m with
  | [] => [(k, [d])]
  | e :: es => if e.1 = k then (e.1, e.2 ++ [d]) :: es else e :: Grouped.append es k d

/-- `Ingester.appendDepartureToStopArea`. -/
def Ingester.appendDepartureToStopArea (stopsInArea : Memo) (store : String → RedisReply)
    (groupedByStopArea : Grouped) (departure : Departure) : Result (Grouped × Memo) :=
  (Ingester.getStopArea stopsInArea store departure.LocationAtcocode).bind (fun r =>
    match r.1 with
    | none => Result.ok (groupedByStopArea, r.2)
    | some stopArea => Result.ok (Grouped.append groupedByStopArea stopArea departure, r.2))

/-- The loop of `groupByStopArea`. -/
def Ingester.groupByStopAreaLoop (store : String → RedisReply) :
    Memo → Grouped → List Departure → Result (Grouped × Memo)
  | stopsInArea, grouped, [] => Result.ok (grouped, stopsInArea)
  | stopsInArea, grouped, departure :: rest =>
    (Ingester.appendDepartureToStopArea stopsInArea store grouped departure).bind (fun r =>
      Ingester.groupByStopAreaLoop store r.2 r.1 rest)

/-- `Ingester.groupByStopArea`: the departures of the event grouped by the
parent area of their stop, and the local cache after the call. -/
def Ingester.groupByStopArea (stopsInArea : Memo) (store : String → RedisReply)
    (departures : List Departure) : Result (Grouped × Memo) :=
  Ingester.groupByStopAreaLoop store stopsInArea [] departures

/-! ## Notions of the specification for the destinations -/

/-- Every entry of the local cache agrees with the store: it records the
value the store holds, or that the store holds none. An empty cache, as made
at start-up, does. -/
def MemoConsistent (m : Memo) (store : String → RedisReply) : Prop :=
  ∀ k v, Memo.get m k = some v →
    store k = (match v with
      | some s => RedisReply.value s
      | none => RedisReply.nil)

/-- The destination rewrite of the specification for one departure: the
circular-services entry for operator code plus service number when present,
else the locality name of the destination ATCO code when present, else the
departure as received. Only `Destination` changes. -/
def rewriteDestination (circularStore localityStore : String → RedisReply)
    (d : Departure) : Departure :=
  match circularStore (d.OperatorCode ++ d.ServiceNumber) with
  | RedisReply.value text => { d with Destination := text }
  | _ =>
    match localityStore d.DestinationAtcocode with
    | RedisReply.value name => { d with Destination := name }
    | _ => d

/-- The circular-services store of scenario A. -/
def sampleCircular (k : String) : RedisReply :=
  if k = "VISB525" then RedisReply.value "Mordor circular" else RedisReply.nil

/-- The locality-names store of scenario A. -/
def sampleLocality (k : String) : RedisReply :=
  if k = "1800WA12481" then RedisReply.value "Hobbiton" else RedisReply.nil

/-- The two departures of scenario A at stop 1800BNIN0C1. -/
def scenarioA : List Departure :=
  [{ sampleBus "534_1" "2019-05-20T12:10:00+01:00" "534" "Turning Circle" with
       OperatorCode := "ANWE", DestinationAtcocode := "1800WA12481" },
   { sampleBus "525_1" "2019-05-20T12:20:00+01:00" "525" "Hobbiton Interchange" with
       OperatorCode := "VISB", DestinationAtcocode := "1800BNIN0C1" }]

/-- The circular-services store before the circular services are loaded: no
entry for any key. -/
def earlierCircular (_ : String) : RedisReply := RedisReply.nil

/-- The local caches after scenario A has been handled, from empty caches,
against `earlierCircular`: both services are recorded as not circular. -/
def memosAfterEarlier : IngesterMemos :=
  { circularServices := [("VISB525", none), ("ANWE534", none)]
    localityNames := [("1800BNIN0C1", none), ("1800WA12481", some "Hobbiton")]
    stopsInArea := [] }

/-- A stops-in-area store that holds no parent area for any stop. -/
def noStopAreas (_ : String) : RedisReply := RedisReply.nil

/-- Local caches as made at start-up: all empty. -/
def emptyMemos : IngesterMemos :=
  { circularServices := [], localityNames := [], stopsInArea := [] }

/-- The twelve departures of scenario D, all at 12:10, in the order the test
of the sort supplies them. -/
def scenarioD : List Departure :=
  ["B12A", "123", "A12", "12", "A12B", "A12A", "B12B", "B12", "12B", "123B", "12A", "123A"].map
    (fun s => sampleBus s "2019-05-20T12:10:00+01:00" s "D")

/-- `Ingester.groupByStop`: the departures of the event grouped by their
location code. -/
def Ingester.groupByStop (departures : List Departure) : Grouped :=
  departures.foldl (fun grouped d => Grouped.append grouped d.LocationAtcocode d) []

/-- A stops-in-area store in which stop 1800BNIN0C1 has parent area
1800BNIN, as in scenario A. -/
def sampleStopAreas (k : String) : RedisReply :=
  if k = "1800BNIN0C1" then RedisReply.value "1800BNIN" else RedisReply.nil

/-- A stops-in-area store after a reload of the reference data in which stop
1800BNIN0C1 has moved to the parent area 1800NEW. -/
def reloadedStopAreas (k : String) : RedisReply :=
  if k = "1800BNIN0C1" then RedisReply.value "1800NEW" else RedisReply.nil

/-- Two new departures at 12:10 whose service numbers, 012 and 12, differ as
text and decompose into the same parts (no prefix, digits 12, no suffix). -/
def newWithLeadingZero : List Departure :=
  [sampleBus "J1" "2019-05-20T12:10:00+01:00" "012" "D",
   sampleBus "J2" "2019-05-20T12:10:00+01:00" "12" "D"]

/-! ## Presenter (`presenter/*.go`, `model/journey_type.go`, `model/output.go`) -/

/-- `LRANGE key start stop` of the key/value store on the list `l`: the
elements from index `start` to index `stop`, both included; a negative index
counts from the end, and the range is clipped to the list. -/
def redisLRange {α : Type} (l : List α) (start stop : Int) : List α :=
  let llen : Int := l.length
  let start1 := if start < 0 then llen + start else start
  let stop1 := if stop < 0 then llen + stop else stop
  let start2 := if start1 < 0 then 0 else start1
  if start2 > stop1 ∨ start2 ≥ llen then []
  else
    let stop2 := if stop1 ≥ llen then llen - 1 else stop1
    (l.drop start2.toNat).take (stop2 - start2 + 1).toNat

/-- `model.GetJourneyType`: the mode from the first three characters of the
ATCO code; `none` is the panic of the slice expression on a shorter code. -/
def GetJourneyType (atcocode : String) : Option String :=
  if atcocode.data.length < 3 then none
  else if atcocode.data.take 3 = ['9', '1', '0'] then some Train
  else if atcocode.data.take 3 = ['9', '4', '0'] then some Tram
  else some Bus

/-- `Presenter.validateAtcocode`: the upper-cased code matches
`^[A-Z0-9]{8,12}$`. -/
def Presenter.validateAtcocode (atcocode : String) : Bool :=
  let cs := atcocode.data.map goToUpper
  decide (8 ≤ cs.length) && decide (cs.length ≤ 12)
    && cs.all (fun c => isUpperAZ c || isDigit09 c)

/-- Modelled from the spec: `Presenter.validateTop`, whose source file is not
part of the repository snapshot (its test is): `top > 0`. -/
def Presenter.validateTop (top : Int) : Bool := decide (top > 0)

/-- `Presenter.assignNextDepartures`: appends the window `start .. end - 1` of
the cached list to the departures held. -/
def Presenter.assignNextDepartures (cached departures : List Departure) (start stop : Int) :
    List Departure :=
  departures ++ redisLRange cached start (stop - 1)

/-- `Presenter.removeExpiredDepartures`: drops the expired departures at the
head of the list, up to the first that is not expired, and returns how many
were dropped with the rest; `none` is a panic of `IsExpired`. -/
def Presenter.removeExpiredDepartures (parse : String → Option Time) (now : Time) :
    List Departure → Option (Nat × List Departure)
  | [] => some (0, [])
  | dep :: rest =>
    match dep.IsExpired parse now with
    | none => none
    | some true =>
      (Presenter.removeExpiredDepartures parse now rest).map (fun r => (r.1 + 1, r.2))
    | some false => some (0, dep :: rest)

/-- The backfill loop of `Presenter.Handler`: read the window, drop the
expired head, stop when nothing was dropped or `top` departures are held, else
move the window. `fuel` bounds the number of iterations; the outer `none` is
running out of it. -/
def Presenter.backfill (parse : String → Option Time) (now : Time)
    (cached : List Departure) (top : Int) :
    Nat → List Departure → Int → Int → Option (Result (List Departure))
  | 0, _, _, _ => none
  | fuel + 1, deps, start, stop =>
    let deps1 := Presenter.assignNextDepartures cached deps start stop
    match Presenter.removeExpiredDepartures parse now deps1 with
    | none => some Result.panic
    | some (removed, deps2) =>
      if removed = 0 ∨ (deps2.length : Int) = top then some (Result.ok deps2)
      else Presenter.backfill parse now cached top fuel deps2 (start + top) (stop + removed)

/-- Two decimal digits of a number below 100. -/
def twoDigits (n : Nat) : List Char :=
  [Char.ofNat (48 + n / 10), Char.ofNat (48 + n % 10)]

/-- `t.Format("15:04")`: hour and minute of the wall clock of `t` in its own
location. -/
def formatHHMM (t : Time) : String :=
  let secondOfDay := ((t.unix + (t.loc.lookup t.unix).offset) % 86400).toNat
  String.mk (twoDigits (secondOfDay / 3600) ++ [':'] ++ twoDigits (secondOfDay % 3600 / 60))

/-- `strconv.Itoa`. -/
def goItoa (n : Int) : String := toString n

/-- `Presenter.transformDepartureTime`. The wait is the duration from `now` to
the departure, rounded toward zero to whole minutes
(`Sub(now).Truncate(time.Minute).Minutes()`, a whole number, converted to
`int`). -/
def Presenter.transformDepartureTime (parse : String → Option Time) (now : Time)
    (dep : Departure) : Result String :=
  match dep.DepartureTime parse with
  | none => Result.error
  | some (depTime, isRealTime) =>
    if isRealTime then
      let wait := Int.tdiv (depTime.Sub now) nsPerMinute
      if wait = 0 then Result.ok "Approaching"
      else
        let mins := if wait ≠ 1 then "min" ++ "s" else "min"
        Result.ok (goItoa wait ++ " " ++ mins)
    else Result.ok (formatHHMM depTime)

/-- `model.DepartureDisplay`. -/
structure DepartureDisplay where
  DepartureTime : String
  Stand : Option String
  ServiceNumber : String
  Destination : String
  DepartureStatus : Option String
  deriving DecidableEq, Repr

/-- `model.Output`. -/
structure Output where
  JourneyType : String
  Departures : List DepartureDisplay
  deriving DecidableEq, Repr

/-- The display loop of `Presenter.Handler`: one display per departure held,
an error at the first departure time that cannot be transformed. -/
def Presenter.displays (parse : String → Option Time) (now : Time) :
    List Departure → Result (List DepartureDisplay)
  | [] => Result.ok []
  | dep :: rest =>
    (Presenter.transformDepartureTime parse now dep).bind (fun depTime =>
      (Presenter.displays parse now rest).bind (fun out =>
        Result.ok ({ DepartureTime := depTime
                     Stand := dep.Stand
                     ServiceNumber := dep.ServiceNumber
                     Destination := dep.Destination
                     DepartureStatus := dep.DepartureStatus } :: out)))

/-- `Presenter.Handler` from the request parameters `atcocode` and `top` to
the output that is marshalled into the response; `cached` is the list under
the key `atcocode`, `now` the reading of the clock. `fuel` bounds the
iterations of the backfill loop. -/
def Presenter.Handler (parse : String → Option Time) (now : Time) (cached : List Departure)
    (atcocode : String) (top : Int) (fuel : Nat) : Option (Result Output) :=
  if ¬ Presenter.validateAtcocode atcocode = true then some Result.error
  else if ¬ Presenter.validateTop top = true then some Result.error
  else
    match Presenter.backfill parse now cached top fuel [] 0 top with
    | none => none
    | some (Result.ok deps) =>
      match GetJourneyType atcocode with
      | none => some Result.panic
      | some journeyType =>
        some ((Presenter.displays parse now deps).bind (fun out =>
          Result.ok { JourneyType := journeyType, Departures := out }))
    | some Result.error => some Result.error
    | some Result.panic => some Result.panic

/-- A cached rail list, sorted by time: a train due 12:10 that is Delayed,
then a train due 12:15 that is on time. -/
def delayedThenOnTime : List Departure :=
  [sampleTrain "S1" "2019-05-20T12:10:00+01:00" (some "Delayed"),
   sampleTrain "S2" "2019-05-20T12:15:00+01:00" (some "On time")]


/-- `time.LoadLocation("Europe/London")` around 2019: GMT until 2019-03-31
01:00 UTC, British Summer Time until 2019-10-27 01:00 UTC, GMT until
2020-03-29 01:00 UTC. -/
def londonZone : Location :=
  { lookup := fun u =>
      if u < 1553994000 then { offset := 0, start := 1540688400, stop := 1553994000 }
      else if u < 1572138000 then { offset := 3600, start := 1553994000, stop := 1572138000 }
      else { offset := 0, start := 1572138000, stop := 1585443600 } }

/-- `t.In(loc)`: the same instant presented in `loc`. -/
def Time.In (t : Time) (loc : Location) : Time := { ns := t.ns, loc := loc }


/-- The re-assembled service number of the specification: prefix, digits (in
decimal, as `strconv.Itoa` prints them) and suffix concatenated, an absent
part adding nothing. -/
def reassemble (parts : Option String × Option Nat × Option String) : String :=
  parts.1.getD "" ++ (parts.2.1.map (fun n => goItoa (n : Int))).getD "" ++ parts.2.2.getD ""

/-- Whether the digits that follow the leading letters of `s` are written
without a leading zero: a first digit `0` is not followed by another digit. -/
def noLeadingZero (s : List Char) : Bool :=
  match s.dropWhile isUpperAZ with
  | '0' :: c :: _ => !isDigit09 c
  | _ => true


/-! ## SIRI proxy: service deliveries (`siri-proxy/siri_proxy.go`)

The request body is a byte slice; the model writes its bytes as characters
(the texts of the expressions are ASCII). -/

/-- The alternatives `EstimatedTimetable|ProductionTimetable|StopMonitoring|
StopTimetable|VehicleMonitoring` of the two boundary expressions. -/
def deliveryNames : List (List Char) :=
  ["EstimatedTimetable".data, "ProductionTimetable".data, "StopMonitoring".data,
   "StopTimetable".data, "VehicleMonitoring".data]

/-- The class `\w` of the regular expressions. -/
def isWordChar (c : Char) : Bool :=
  isDigit09 c || isUpperAZ c || decide ('a' ≤ c ∧ c ≤ 'z') || (c == '_')

/-- The rest of `s` after the text `pre` when `s` starts with it. -/
def dropLeading : List Char → List Char → Option (List Char)
  | [], s => some s
  | _ :: _, [] => none
  | p :: ps, c :: cs => if p = c then dropLeading ps cs else none

/-- The rest of `s` after `(EstimatedTimetable|…|VehicleMonitoring)Delivery`.
No alternative is the start of another, so at most one applies. -/
def dropDeliveryName (s : List Char) : Option (List Char) :=
  deliveryNames.findSome? (fun n => dropLeading (n ++ "Delivery".data) s)

/-- Length of the match of
`[ \t]*<(EstimatedTimetable|…|VehicleMonitoring)Delivery(\b|>)` that starts
at the head of `s`. After `Delivery` the word boundary is tried first and
is what matches: the next character is not a word character, or the text
ends. -/
def matchOpening (s : List Char) : Option Nat :=
  let ws := s.takeWhile (fun c => c == ' ' || c == '\t')
  match s.drop ws.length with
  | '<' :: rest =>
    match dropDeliveryName rest with
    | some [] => some s.length
    | some (c :: after) =>
      if isWordChar c then none else some (s.length - (c :: after).length)
    | none => none
  | _ => none

/-- Length of the match of
`</(EstimatedTimetable|…|VehicleMonitoring)Delivery>[\n\r]*` that starts at
the head of `s`. -/
def matchClosing (s : List Char) : Option Nat :=
  match s with
  | '<' :: '/' :: rest =>
    match dropDeliveryName rest with
    | some ('>' :: after) =>
      some (s.length - (after.dropWhile (fun c => c == '\n' || c == '\r')).length)
    | _ => none
  | _ => none

/-- The scan of `re.FindAllIndex(rb, -1)` for an expression whose matches are
not empty: the matches `(start, end)` from left to right, each search starting
where the last match ended. `skip` counts the characters still covered by the
last match, `pos` is the index of the head of the text. -/
def findAllIndexFrom (matchAt : List Char → Option Nat) : Nat → Nat → List Char →
    List (Nat × Nat)
  | _, _, [] => []
  | skip + 1, pos, _ :: cs => findAllIndexFrom matchAt skip (pos + 1) cs
  | 0, pos, c :: cs =>
    match matchAt (c :: cs) with
    | some len => (pos, pos + len) :: findAllIndexFrom matchAt (len - 1) (pos + 1) cs
    | none => findAllIndexFrom matchAt 0 (pos + 1) cs

/-- `re.FindAllIndex(rb, -1)`. -/
def findAllIndex (matchAt : List Char → Option Nat) (rb : List Char) : List (Nat × Nat) :=
  findAllIndexFrom matchAt 0 0 rb

/-- A byte slice held by the handler: a window `off .. off + len` of the array
under the request body, or an array of its own. -/
inductive Slice where
  | view (off len : Nat) : Slice
  | own (bytes : List Char) : Slice
  deriving DecidableEq, Repr

/-- The bytes a slice shows, given the array under the request body. -/
def Slice.read (arr : List Char) : Slice → List Char
  | Slice.view off len => (arr.drop off).take len
  | Slice.own bytes => bytes

/-- The array with `bytes` copied to the indices from `off` on. -/
def writeAt (arr : List Char) (off : Nat) (bytes : List Char) : List Char :=
  arr.take off ++ bytes ++ arr.drop (off + bytes.length)

/-- `append(s, p...)`: when the capacity of `s` holds the result, the bytes
of `p` are copied into the array right behind `s` and the result is the
longer window on the same array; else the result is a new array. The
capacity of a window on the array under the request body reaches to the end of
that array. -/
def goAppend (arr : List Char) (s : Slice) (p : List Char) : List Char × Slice :=
  match s with
  | Slice.view off len =>
    if off + len + p.length ≤ arr.length then
      (writeAt arr (off + len) p, Slice.view off (len + p.length))
    else (arr, Slice.own ((arr.drop off).take len ++ p))
  | Slice.own bytes => (arr, Slice.own (bytes ++ p))

/-- `SiriServiceDelivery`. -/
structure SiriServiceDelivery where
  SubscriberRef : String
  SubscriptionRef : String
  Header : Slice
  Payload : Slice
  Footer : Slice
  deriving DecidableEq, Repr

/-- The inner loop over `deliveries`: the payload `p` is appended to the
payload of the first delivery with the references of `sd`; `none` when there
is none (`appended` stays false). -/
def appendToDelivery (sd : String × String) (p : List Char) (arr : List Char) :
    List SiriServiceDelivery → Option (List Char × List SiriServiceDelivery)
  | [] => none
  | d :: ds =>
    if sd.2 = d.SubscriptionRef ∧ sd.1 = d.SubscriberRef then
      some ((goAppend arr d.Payload p).1, { d with Payload := (goAppend arr d.Payload p).2 } :: ds)
    else
      (appendToDelivery sd p arr ds).map (fun r => (r.1, d :: r.2))

/-- The loop over the payloads of `handleServiceDeliveryPublication`.
`unmarshal` is `xml.Unmarshal` into a `SiriServiceDelivery`, giving
`(SubscriberRef, SubscriptionRef)`. Each payload is the window
`rb[payloadStarts[i][0]:payloadEnds[i][1]]`, read at the time of its turn;
a start behind the end is the panic of the slice expression. -/
def deliveryLoop (unmarshal : List Char → Option (String × String)) (header footer : Slice) :
    List ((Nat × Nat) × (Nat × Nat)) → List Char → List SiriServiceDelivery →
    Result (List Char × List SiriServiceDelivery)
  | [], arr, deliveries => Result.ok (arr, deliveries)
  | (st, en) :: rest, arr, deliveries =>
    if st.1 > en.2 then Result.panic
    else
      let p := Slice.view st.1 (en.2 - st.1)
      match unmarshal (p.read arr) with
      | none => Result.error
      | some sd =>
        match appendToDelivery sd (p.read arr) arr deliveries with
        | some (arr1, deliveries1) => deliveryLoop unmarshal header footer rest arr1 deliveries1
        | none =>
          deliveryLoop unmarshal header footer rest arr
            (deliveries ++ [{ SubscriberRef := sd.1, SubscriptionRef := sd.2,
                              Header := header, Payload := p, Footer := footer }])

/-- `handleServiceDeliveryPublication` from the point where the envelope has
been unmarshalled and holds a service delivery: the deliveries are cut out of
the body `rb`, grouped by `(SubscriberRef, SubscriptionRef)`, and for each
group the body `Header + Payload + Footer` is built, which is posted to the
consumer address of every stored subscription with these references. The
result lists the groups with their bodies; an error is a response with status
500. `spare` is the part of the array under `rb` behind its length. -/
def SiriProxy.handleServiceDeliveryPublication
    (unmarshal : List Char → Option (String × String)) (rb spare : List Char) :
    Result (List (String × String × List Char)) :=
  let payloadStarts := findAllIndex matchOpening rb
  match payloadStarts.head? with
  | none => Result.error
  | some headerEnd =>
    let header := Slice.view 0 headerEnd.1
    let payloadEnds := findAllIndex matchClosing rb
    match payloadEnds.getLast? with
    | none => Result.error
    | some lastEnd =>
      if payloadStarts.length ≠ payloadEnds.length then Result.error
      else
        let footer := Slice.view lastEnd.2 (rb.length - lastEnd.2)
        (deliveryLoop unmarshal header footer (payloadStarts.zip payloadEnds)
            (rb ++ spare) []).bind
          (fun r => Result.ok (r.2.map (fun d =>
            (d.SubscriberRef, d.SubscriptionRef,
              d.Header.read r.1 ++ d.Payload.read r.1 ++ d.Footer.read r.1))))

/-- The text of the first element with the opening tag `tag` in `s`, up to
the next `<`; empty when there is no such element. -/
def textOf (tag : List Char) : List Char → List Char
  | [] => []
  | c :: cs =>
    match dropLeading tag (c :: cs) with
    | some rest => rest.takeWhile (fun x => x != '<')
    | none => textOf tag cs

/-- A decoder that stands for `xml.Unmarshal` on the sample deliveries: the
texts of the elements `SubscriberRef` and `SubscriptionRef`. -/
def sampleUnmarshal (p : List Char) : Option (String × String) :=
  some (String.mk (textOf "<SubscriberRef>".data p), String.mk (textOf "<SubscriptionRef>".data p))

/-- A sample delivery of a subscriber and subscription with one value. -/
def sampleDelivery (subscriber subscription value : String) : List Char :=
  "<StopMonitoringDelivery><SubscriberRef>".data ++ subscriber.data
    ++ "</SubscriberRef><SubscriptionRef>".data ++ subscription.data
    ++ "</SubscriptionRef><V>".data ++ value.data ++ "</V></StopMonitoringDelivery>".data

/-- The part of the sample envelopes before the deliveries. -/
def sampleHeader : List Char := "<Siri><ServiceDelivery>".data

/-- The part of the sample envelopes after the deliveries. -/
def sampleFooter : List Char := "</ServiceDelivery></Siri>".data

/-- An envelope with the deliveries of two subscriptions interleaved:
A1, B1, A2, B2. -/
def interleavedEnvelope : List Char :=
  sampleHeader ++ sampleDelivery "A" "1" "a1" ++ sampleDelivery "B" "2" "b1"
    ++ sampleDelivery "A" "1" "a2" ++ sampleDelivery "B" "2" "b2" ++ sampleFooter

/-- An envelope with the deliveries of each subscription next to each other:
A1, A2, B1, B2. -/
def groupedEnvelope : List Char :=
  sampleHeader ++ sampleDelivery "A" "1" "a1" ++ sampleDelivery "A" "1" "a2"
    ++ sampleDelivery "B" "2" "b1" ++ sampleDelivery "B" "2" "b2" ++ sampleFooter


/-! ## SIRI proxy: subscription requests (`siri-proxy/siri_proxy.go`) -/

/-- The opening tag of the expression `<ConsumerAddress>(.+)</ConsumerAddress>`. -/
def consumerAddressOpen : List Char := "<ConsumerAddress>".data

/-- The closing tag of the expression `<ConsumerAddress>(.+)</ConsumerAddress>`. -/
def consumerAddressClose : List Char := "</ConsumerAddress>".data

/-- Whether `</ConsumerAddress>` starts at the head of `s` or after
characters of `s` none of which is a line feed (what `.` does not match). -/
def closesOnLine : List Char → Bool
  | [] => false
  | c :: cs =>
    if (dropLeading consumerAddressClose (c :: cs)).isSome then true
    else if c = '\n' then false
    else closesOnLine cs

/-- Whether `<ConsumerAddress>(.+)</ConsumerAddress>` matches at the head of
`s`. -/
def matchConsumerAddressAt (s : List Char) : Bool :=
  match dropLeading consumerAddressOpen s with
  | some (c :: rest) => (c != '\n') && closesOnLine rest
  | _ => false

/-- Whether `<ConsumerAddress>(.+)</ConsumerAddress>` matches somewhere in
`s` (`FindSubmatch` is not nil). -/
def matchesConsumerAddress : List Char → Bool
  | [] => false
  | c :: cs => matchConsumerAddressAt (c :: cs) || matchesConsumerAddress cs

/-- `bytes.Replace(s, old, new, 1)`: `s` with the first occurrence of `old`
replaced by `new`; an empty `old` matches at the start. -/
def bytesReplaceFirst (old new : List Char) : List Char → List Char
  | [] => if old = [] then new else []
  | c :: cs =>
    match dropLeading old (c :: cs) with
    | some rest => new ++ rest
    | none => c :: bytesReplaceFirst old new cs

/-- The body that `handleSubscriptionRequestResponse` posts to the target,
for a request that has passed the checks of its fields: `rb` is the body
received, `consumerAddress` the text of `SubscriptionRequest.ConsumerAddress`
as unmarshalled from it, `serverURL` the address of the proxy. An error is the
response with status 400. -/
def SiriProxy.forwardedBody (rb consumerAddress serverURL : List Char) : Result (List Char) :=
  if matchesConsumerAddress rb then
    Result.ok (bytesReplaceFirst consumerAddress serverURL rb)
  else Result.error

/-- A subscription request whose `Address` element holds the same text as its
`ConsumerAddress` element. -/
def requestWithAddress : List Char :=
  ("<SubscriptionRequest><Address>http://c</Address>"
    ++ "<ConsumerAddress>http://c</ConsumerAddress></SubscriptionRequest>").data


/-- `SiriSubscription`. The pointer fields other than `HeartbeatInterval` are
set from values the handler has checked to be present. Times and durations
are whole numbers. -/
structure SiriSubscription where
  ConsumerAddress : String
  HeartbeatInterval : Option Int
  RequestorRef : String
  InitialTerminationTime : Int
  SubscriptionRef : String
  deriving DecidableEq, Repr

/-- The fields of `siri.BaseSubscriptionRequest` the handler reads. -/
structure BaseSubscriptionRequest where
  SubscriptionIdentifier : Option String
  InitialTerminationTime : Option Int
  deriving DecidableEq, Repr

/-- The fields of `siri.ResponseStatus` the handler reads. -/
structure ResponseStatus where
  SubscriptionRef : Option String
  Status : Option Bool
  deriving DecidableEq, Repr

/-- The loop over `subscriptionsInRequest` of
`handleSubscriptionRequestResponse`: one subscription to store for each
subscription of the request; an absent identifier or termination time is the
response with status 400. -/
def SiriProxy.subscriptionsToStore (consumerAddress requestorRef : String)
    (heartbeatInterval : Option Int) :
    List BaseSubscriptionRequest → Result (List SiriSubscription)
  | [] => Result.ok []
  | subs :: rest =>
    match subs.SubscriptionIdentifier, subs.InitialTerminationTime with
    | some ident, some term =>
      (SiriProxy.subscriptionsToStore consumerAddress requestorRef heartbeatInterval rest).bind
        (fun l => Result.ok ({ ConsumerAddress := consumerAddress
                               HeartbeatInterval := heartbeatInterval
                               RequestorRef := requestorRef
                               InitialTerminationTime := term
                               SubscriptionRef := ident } :: l))
    | _, _ => Result.error

/-- The loop over the response statuses: for each status in turn, every
subscription to store with its reference is kept when the status is true; an
absent reference or status is the response with status 500. -/
def SiriProxy.successfulSubscriptions (toStore : List SiriSubscription) :
    List ResponseStatus → Result (List SiriSubscription)
  | [] => Result.ok []
  | responseStatus :: rest =>
    match responseStatus.SubscriptionRef, responseStatus.Status with
    | some ref, some status =>
      (SiriProxy.successfulSubscriptions toStore rest).bind
        (fun l => Result.ok
          (toStore.filter (fun sub => decide (sub.SubscriptionRef = ref) && status) ++ l))
    | _, _ => Result.error

/-- The stored subscriptions without those that a subscription to store
replaces: equal `RequestorRef` and `SubscriptionRef`. -/
def SiriProxy.removeUpdated (stored toStore : List SiriSubscription) : List SiriSubscription :=
  stored.filter (fun sub =>
    !toStore.any (fun t =>
      decide (sub.RequestorRef = t.RequestorRef) && decide (sub.SubscriptionRef = t.SubscriptionRef)))

/-- The loop that drops duplicates from the subscriptions to store: a
subscription is kept when its key `RequestorRef + SubscriptionRef` has not
been seen. -/
def SiriProxy.removeDuplicates : List String → List SiriSubscription → List SiriSubscription
  | _, [] => []
  | seen, sub :: rest =>
    if sub.RequestorRef ++ sub.SubscriptionRef ∈ seen then SiriProxy.removeDuplicates seen rest
    else sub :: SiriProxy.removeDuplicates ((sub.RequestorRef ++ sub.SubscriptionRef) :: seen) rest

/-- The subscriptions stored by `handleSubscriptionRequestResponse` after the
exchange: `stored` are the subscriptions held before, `subscriptionsInRequest`
the subscriptions of the request, `responseStatuses` the statuses of the
response of the target. An error leaves the store as it was. -/
def SiriProxy.storeSubscriptions (stored : List SiriSubscription)
    (consumerAddress requestorRef : String) (heartbeatInterval : Option Int)
    (subscriptionsInRequest : List BaseSubscriptionRequest)
    (responseStatuses : List ResponseStatus) : Result (List SiriSubscription) :=
  (SiriProxy.subscriptionsToStore consumerAddress requestorRef heartbeatInterval
      subscriptionsInRequest).bind (fun toStore =>
    (SiriProxy.successfulSubscriptions toStore responseStatuses).bind (fun successful =>
      Result.ok (SiriProxy.removeUpdated stored successful
        ++ SiriProxy.removeDuplicates [] successful)))

/-- Whether `ident` is a subscription identifier of the request for which the
response holds a status that is true. -/
def isConfirmed (subscriptionsInRequest : List BaseSubscriptionRequest)
    (responseStatuses : List ResponseStatus) (ident : String) : Bool :=
  subscriptionsInRequest.any (fun r => decide (r.SubscriptionIdentifier = some ident))
    && responseStatuses.any (fun st =>
      decide (st.SubscriptionRef = some ident) && decide (st.Status = some true))

/-- Two stored subscriptions: subscription 1 of requestor R1 and subscription
1 of requestor R2. -/
def sampleStored : List SiriSubscription :=
  [{ ConsumerAddress := "http://old", HeartbeatInterval := none, RequestorRef := "R1",
     InitialTerminationTime := 10, SubscriptionRef := "1" },
   { ConsumerAddress := "http://other", HeartbeatInterval := none, RequestorRef := "R2",
     InitialTerminationTime := 10, SubscriptionRef := "1" }]

/-- A request for the subscriptions 1, 2 and 3. -/
def sampleRequests : List BaseSubscriptionRequest :=
  [{ SubscriptionIdentifier := some "1", InitialTerminationTime := some 20 },
   { SubscriptionIdentifier := some "2", InitialTerminationTime := some 20 },
   { SubscriptionIdentifier := some "3", InitialTerminationTime := some 20 }]

/-- A response that accepts the subscriptions 1 and 3 and refuses 2. -/
def sampleStatuses : List ResponseStatus :=
  [{ SubscriptionRef := some "1", Status := some true },
   { SubscriptionRef := some "2", Status := some false },
   { SubscriptionRef := some "3", Status := some true }]


/-! ## SIRI proxy: heartbeats and termination (`siri-proxy/siri_proxy.go`) -/

/-- `SiriHeartbeatSubscription`, the fields that are data: the interval as
the duration `Interval.ToDuration()` and the termination time as an instant.
An entry is only stored after `time.NewTicker` has accepted the interval. -/
structure SiriHeartbeatSubscription where
  Interval : Int
  TerminationTime : Int
  deriving DecidableEq, Repr

/-- The map `HeartbeatSubscriptions` from consumer address to heartbeat
entry, as a list of entries with distinct keys. -/
abbrev HeartbeatMap := List (String × SiriHeartbeatSubscription)

/-- `m[k]`: the entry under `k`, if any. -/
def HeartbeatMap.get (m : HeartbeatMap) (k : String) : Option SiriHeartbeatSubscription :=
  match m with
  | [] => none
  | e :: es => if e.1 = k then some e.2 else HeartbeatMap.get es k

/-- `delete(m, k)`. -/
def HeartbeatMap.delete (m : HeartbeatMap) (k : String) : HeartbeatMap :=
  m.filter (fun e => decide (e.1 ≠ k))

/-- `m[k] = v`. -/
def HeartbeatMap.set (m : HeartbeatMap) (k : String) (v : SiriHeartbeatSubscription) :
    HeartbeatMap :=
  (k, v) :: HeartbeatMap.delete m k

/-- The state of a `SiriProxy` that the subscription handlers change. -/
structure ProxyState where
  Subscriptions : List SiriSubscription
  HeartbeatSubscriptions : HeartbeatMap
  deriving DecidableEq, Repr

/-- The loop of `initialiseHeartbeatNotifications` over the stored
subscriptions: `latest` and `minFreq` are `latestTerminationTime` and
`minimumFrequency`, absent while nil. `none` is the panic of `ToDuration` on a
subscription without heartbeat interval. -/
def heartbeatParameters (consumerAddress : String) :
    List SiriSubscription → Option Int → Option Int → Option (Option Int × Option Int)
  | [], latest, minFreq => some (latest, minFreq)
  | sub :: rest, latest, minFreq =>
    if sub.ConsumerAddress ≠ consumerAddress then
      heartbeatParameters consumerAddress rest latest minFreq
    else
      let latest1 :=
        match latest with
        | none => some sub.InitialTerminationTime
        | some l => if sub.InitialTerminationTime > l then some sub.InitialTerminationTime
                    else some l
      match minFreq with
      | none => heartbeatParameters consumerAddress rest latest1 sub.HeartbeatInterval
      | some m =>
        match sub.HeartbeatInterval with
        | none => none
        | some h =>
          heartbeatParameters consumerAddress rest latest1 (if h < m then some h else some m)

/-- `initialiseHeartbeatNotifications(consumerAddress)`: the state after the
call and whether the call completed. `defaultInterval` is
`DefaultHeartbeatNotificationInterval`, `now` the reading of the clock. The
call panics, after the old entry has been deleted, when there is no interval
to take or `time.NewTicker` gets an interval that is not positive. -/
def SiriProxy.initialiseHeartbeatNotifications (defaultInterval : Option Int) (now : Int)
    (s : ProxyState) (consumerAddress : String) : ProxyState × Bool :=
  match heartbeatParameters consumerAddress s.Subscriptions none none with
  | none => (s, false)
  | some (latest, minFreq) =>
    let latestTerminationTime := latest.getD now
    let minimumFrequency :=
      match minFreq with
      | none => defaultInterval
      | some m => some m
    let deleted := HeartbeatMap.delete s.HeartbeatSubscriptions consumerAddress
    match minimumFrequency with
    | none => ({ s with HeartbeatSubscriptions := deleted }, false)
    | some d =>
      if d ≤ 0 then ({ s with HeartbeatSubscriptions := deleted }, false)
      else
        let heartbeatSubscription : SiriHeartbeatSubscription :=
          { Interval := d, TerminationTime := latestTerminationTime }
        ({ s with HeartbeatSubscriptions :=
            HeartbeatMap.set deleted consumerAddress heartbeatSubscription }, true)

/-- The loop of `removeSubscription` over the listed subscription references:
each reference removes the subscriptions of the requestor with it; `false`
when a reference is nil (the error returned at that point). -/
def removeListed (requestorRef : String) :
    List (Option String) → List SiriSubscription → List SiriSubscription × Bool
  | [], subs => (subs, true)
  | none :: _, subs => (subs, false)
  | some subscriptionRef :: rest, subs =>
    removeListed requestorRef rest
      (subs.filter (fun sub =>
        decide (sub.RequestorRef ≠ requestorRef)
          || (decide (sub.RequestorRef = requestorRef)
              && decide (sub.SubscriptionRef ≠ subscriptionRef))))

/-- The loop of `removeSubscription` over the heartbeat entries, visited in
the order `visit`: an entry whose consumer address has no stored
subscription is deleted. `false` is the panic of `ToDuration` on a found
subscription without heartbeat interval. -/
def removeRedundantHeartbeats (subs : List SiriSubscription) :
    List (String × SiriHeartbeatSubscription) → HeartbeatMap → HeartbeatMap × Bool
  | [], hm => (hm, true)
  | (consumerAddress, _) :: rest, hm =>
    match subs.find? (fun sub => decide (consumerAddress = sub.ConsumerAddress)) with
    | none => removeRedundantHeartbeats subs rest (HeartbeatMap.delete hm consumerAddress)
    | some found =>
      match found.HeartbeatInterval with
      | none => (hm, false)
      | some _ => removeRedundantHeartbeats subs rest hm

/-- `removeSubscription` on the fields of the `TerminateSubscriptionRequest`:
the state after the call and its outcome (an error makes the handler answer
with status 400). `rangeOrder` is the order in which the heartbeat map is
ranged over. -/
def SiriProxy.removeSubscription (rangeOrder : HeartbeatMap → HeartbeatMap) (s : ProxyState)
    (requestorRef : Option String) (all : Option Bool)
    (subscriptionRef : Option (List (Option String))) : ProxyState × Result Unit :=
  match requestorRef with
  | none => (s, Result.error)
  | some requestor =>
    match all with
    | some _ =>
      ({ s with Subscriptions :=
          s.Subscriptions.filter (fun sub => decide (sub.RequestorRef ≠ requestor)) },
        Result.ok ())
    | none =>
      match subscriptionRef with
      | none => (s, Result.error)
      | some refs =>
        let removed := removeListed requestor refs s.Subscriptions
        if removed.2 then
          let cleaned := removeRedundantHeartbeats removed.1
            (rangeOrder s.HeartbeatSubscriptions) s.HeartbeatSubscriptions
          ({ Subscriptions := removed.1, HeartbeatSubscriptions := cleaned.1 },
            if cleaned.2 then Result.ok () else Result.panic)
        else ({ s with Subscriptions := removed.1 }, Result.error)

/-- The heartbeat interval that `handleSubscriptionRequestResponse` gives the
subscriptions of a request: that of the request when it holds one, else the
default of the proxy. -/
def heartbeatIntervalOf (requestedInterval defaultInterval : Option Int) : Option Int :=
  match requestedInterval with
  | some i => some i
  | none => defaultInterval

/-- The state after `handleSubscriptionRequestResponse` when the exchange with
the target has taken place: the subscriptions are stored and the heartbeat
entry of the consumer address is set up anew. `requestedInterval` is the
heartbeat interval of the request, if it holds one. A request or response
that the handler refuses leaves the state as it was. -/
def SiriProxy.subscriptionExchange (defaultInterval : Option Int) (now : Int) (s : ProxyState)
    (consumerAddress requestorRef : String) (requestedInterval : Option Int)
    (subscriptionsInRequest : List BaseSubscriptionRequest)
    (responseStatuses : List ResponseStatus) : ProxyState :=
  match SiriProxy.storeSubscriptions s.Subscriptions consumerAddress requestorRef
      (heartbeatIntervalOf requestedInterval defaultInterval)
      subscriptionsInRequest responseStatuses with
  | Result.ok stored =>
    (SiriProxy.initialiseHeartbeatNotifications defaultInterval now
      { s with Subscriptions := stored } consumerAddress).1
  | _ => s

/-- The end of `initialiseHeartbeatNotificationTimer` when the timer of the
entry of `consumerAddress` fires: the entry is deleted. -/
def SiriProxy.heartbeatTimerExpiry (s : ProxyState) (consumerAddress : String) : ProxyState :=
  { s with HeartbeatSubscriptions := HeartbeatMap.delete s.HeartbeatSubscriptions consumerAddress }

/-- What changes the state of the proxy. -/
inductive ProxyEvent where
  | exchange (now : Int) (consumerAddress requestorRef : String) (requestedInterval : Option Int)
      (subscriptionsInRequest : List BaseSubscriptionRequest)
      (responseStatuses : List ResponseStatus) : ProxyEvent
  | terminate (requestorRef : Option String) (all : Option Bool)
      (subscriptionRef : Option (List (Option String))) : ProxyEvent
  | timerExpiry (consumerAddress : String) : ProxyEvent
  deriving DecidableEq, Repr

/-- The state after one event. -/
def SiriProxy.step (defaultInterval : Option Int) (rangeOrder : HeartbeatMap → HeartbeatMap)
    (s : ProxyState) : ProxyEvent → ProxyState
  | ProxyEvent.exchange now consumerAddress requestorRef requestedInterval reqs statuses =>
    SiriProxy.subscriptionExchange defaultInterval now s consumerAddress requestorRef
      requestedInterval reqs statuses
  | ProxyEvent.terminate requestorRef all subscriptionRef =>
    (SiriProxy.removeSubscription rangeOrder s requestorRef all subscriptionRef).1
  | ProxyEvent.timerExpiry consumerAddress => SiriProxy.heartbeatTimerExpiry s consumerAddress

/-- The state reached from the empty state of a new proxy through the
events. -/
def SiriProxy.run (defaultInterval : Option Int) (rangeOrder : HeartbeatMap → HeartbeatMap)
    (events : List ProxyEvent) : ProxyState :=
  events.foldl (SiriProxy.step defaultInterval rangeOrder)
    { Subscriptions := [], HeartbeatSubscriptions := [] }


/-- A state with two subscriptions of the consumer address `http://c`
(intervals 60 and 30, termination times 20 and 50), one of another address,
and no heartbeat entry yet. -/
def sampleProxyState : ProxyState :=
  { Subscriptions :=
      [{ ConsumerAddress := "http://c", HeartbeatInterval := some 60, RequestorRef := "R1",
         InitialTerminationTime := 20, SubscriptionRef := "1" },
       { ConsumerAddress := "http://other", HeartbeatInterval := some 10, RequestorRef := "R2",
         InitialTerminationTime := 90, SubscriptionRef := "1" },
       { ConsumerAddress := "http://c", HeartbeatInterval := some 30, RequestorRef := "R1",
         InitialTerminationTime := 50, SubscriptionRef := "2" }]
    HeartbeatSubscriptions := [] }


/-- Whether the event is a request (a subscription exchange or a
terminate-subscription request, not the expiry of a timer) whose heartbeat
interval, if it carries one, is positive. -/
def ProxyEvent.isRequest : ProxyEvent → Bool
  | ProxyEvent.exchange _ _ _ (some i) _ _ => decide (0 < i)
  | ProxyEvent.exchange _ _ _ none _ _ => true
  | ProxyEvent.terminate _ _ _ => true
  | ProxyEvent.timerExpiry _ => false

/-- Every stored subscription has a positive heartbeat interval and a
heartbeat entry for its consumer address. -/
def ProxyState.Covered (s : ProxyState) : Prop :=
  ∀ sub ∈ s.Subscriptions,
    (∃ i, sub.HeartbeatInterval = some i ∧ 0 < i)
    ∧ HeartbeatMap.get s.HeartbeatSubscriptions sub.ConsumerAddress ≠ none


/-! ## Stands (`model/internal.go`) -/

/-- The class `[A-Z0-9]` of the regular expressions. -/
def isUpperAZ09 (c : Char) : Bool := isUpperAZ c || isDigit09 c

/-- `Departure.GetStand`: the upper-cased location code is matched against
`^180[A-Z0-9][A-Z]{2}(BS|IC|IN)([A-Z0-9]{2})[0-9]$`; the stand is the second
group, without its first character when that is `0`. The expression is
anchored at both ends, so there is at most one match. -/
def Departure.GetStand (d : Departure) : Option String :=
  match d.LocationAtcocode.data.map goToUpper with
  | ['1', '8', '0', c, a, b, g1, g2, s1, s2, n] =>
    if isUpperAZ09 c && isUpperAZ a && isUpperAZ b
        && (decide (g1 = 'B' ∧ g2 = 'S') || decide (g1 = 'I' ∧ g2 = 'C')
            || decide (g1 = 'I' ∧ g2 = 'N'))
        && isUpperAZ09 s1 && isUpperAZ09 s2 && isDigit09 n then
      if s1 = '0' then some (String.mk [s2]) else some (String.mk [s1, s2])
    else none
  | _ => none

/-- The stand-stop pattern of the specification,
`^180[A-Z0-9][A-Z]{2}(BS|IC|IN)([A-Z0-9]{2})[0-9]$`, as a property of a text:
`code` matches it with the characters `s1`, `s2` in the second group. -/
def StandStopPattern (code : List Char) (s1 s2 : Char) : Prop :=
  ∃ c a b n, ∃ g ∈ [['B', 'S'], ['I', 'C'], ['I', 'N']],
    code = ['1', '8', '0', c, a, b] ++ g ++ [s1, s2, n]
    ∧ isUpperAZ09 c = true ∧ isUpperAZ a = true ∧ isUpperAZ b = true
    ∧ isUpperAZ09 s1 = true ∧ isUpperAZ09 s2 = true ∧ isDigit09 n = true

/-- A departure at the stop with the given location code. -/
def sampleAt (locationAtcocode : String) : Departure :=
  { sampleBus "J1" "2019-05-20T12:10:00+01:00" "1" "Bury" with
    LocationAtcocode := locationAtcocode }


/-- The text of one destination in the words of the specification: the name,
followed by a single space and the `Via` text when that is not empty. -/
def destinationText (name via : String) : String :=
  if via = "" then name else name ++ " " ++ via


/-! ## Bus poller: the filter (`optis-poller/optis_poller.go`) -/

/-- `model.MonitoredCall`, the fields the filter reads. A time is absent when
the field holds the zero value `time.Time{}`, else it is the instant in
nanoseconds since the Unix epoch. -/
structure MonitoredCall where
  AimedDepartureTime : Option Int
  ExpectedDepartureTime : Option Int
  DepartureStatus : String
  deriving DecidableEq, Repr

/-- `model.MonitoredVehicleJourney`, the fields the filter reads. -/
structure MonitoredVehicleJourney where
  OriginAimedDepartureTime : Option Int
  MonitoredCall : MonitoredCall
  deriving DecidableEq, Repr

/-- `model.MonitoredStopVisit`, the fields the filter reads. -/
structure MonitoredStopVisit where
  MonitoringRef : String
  MonitoredVehicleJourney : MonitoredVehicleJourney
  deriving DecidableEq, Repr

/-- The instant of the zero value of `time.Time`, 0001-01-01 00:00 UTC. -/
def zeroInstant : Int := -62135596800 * nsPerSecond

/-- The instant of a time field. -/
def instantOf (t : Option Int) : Int := t.getD zeroInstant

/-- `OptisPoller.hasDepartureTime`: one of the two times is not the zero
value. -/
def OptisPoller.hasDepartureTime (call : MonitoredCall) : Bool :=
  decide (call.ExpectedDepartureTime ≠ none) || decide (call.AimedDepartureTime ≠ none)

/-- `OptisPoller.erroneousRecord`: the aimed departure time of the call is
before the aimed departure time at the origin. -/
def OptisPoller.erroneousRecord (journey : MonitoredVehicleJourney) : Bool :=
  decide (instantOf journey.MonitoredCall.AimedDepartureTime
    < instantOf journey.OriginAimedDepartureTime)

/-- `OptisPoller.cancelledJourney`. -/
def OptisPoller.cancelledJourney (journey : MonitoredVehicleJourney) : Bool :=
  decide (journey.MonitoredCall.DepartureStatus = "cancelled")

/-- The loop of `OptisPoller.filter` over the slice of visits `arr`: `fuel`
iterations are left, `j` is the index the `range` has reached and `i` the
number of visits kept, which are written back to the front of the same slice.
The result is the slice cut to the `i` visits kept. -/
def OptisPoller.filterLoop : Nat → Nat → Nat → List MonitoredStopVisit → List MonitoredStopVisit
  | 0, _, i, arr => arr.take i
  | fuel + 1, j, i, arr =>
    match arr.get? j with
    | none => arr.take i
    | some monitoredStopVisit =>
      if OptisPoller.hasDepartureTime monitoredStopVisit.MonitoredVehicleJourney.MonitoredCall
          && !OptisPoller.erroneousRecord monitoredStopVisit.MonitoredVehicleJourney
          && !OptisPoller.cancelledJourney monitoredStopVisit.MonitoredVehicleJourney then
        OptisPoller.filterLoop fuel (j + 1) (i + 1) (arr.set i monitoredStopVisit)
      else OptisPoller.filterLoop fuel (j + 1) i arr

/-- `OptisPoller.filter` on the visits of the stop-monitoring delivery. -/
def OptisPoller.filter (visits : List MonitoredStopVisit) : List MonitoredStopVisit :=
  OptisPoller.filterLoop visits.length 0 0 visits

/-- The three conditions of the specification for a visit to be kept. -/
def keptBySpec (v : MonitoredStopVisit) : Prop :=
  (v.MonitoredVehicleJourney.MonitoredCall.AimedDepartureTime ≠ none
    ∨ v.MonitoredVehicleJourney.MonitoredCall.ExpectedDepartureTime ≠ none)
  ∧ ¬ instantOf v.MonitoredVehicleJourney.MonitoredCall.AimedDepartureTime
      < instantOf v.MonitoredVehicleJourney.OriginAimedDepartureTime
  ∧ v.MonitoredVehicleJourney.MonitoredCall.DepartureStatus ≠ "cancelled"

instance (v : MonitoredStopVisit) : Decidable (keptBySpec v) :=
  inferInstanceAs (Decidable (_ ∧ _ ∧ _))

/-- A sample visit with the given aimed and expected departure times, aimed
departure time at the origin 100 and departure status. -/
def sampleVisit (ref : String) (aimed expected : Option Int) (status : String) :
    MonitoredStopVisit :=
  { MonitoringRef := ref
    MonitoredVehicleJourney :=
      { OriginAimedDepartureTime := some 100
        MonitoredCall :=
          { AimedDepartureTime := aimed, ExpectedDepartureTime := expected,
            DepartureStatus := status } } }


/-- Two buses due at the same time whose service numbers differ and do not
match the grammar of `GetServiceNumberParts`. -/
def newWithOddNumbers : List Departure :=
  [sampleBus "J1" "2019-05-20T12:10:00+01:00" "X-1" "D",
   sampleBus "J2" "2019-05-20T12:10:00+01:00" "2" "D"]


/-- A cached bus list, sorted by time: buses due 12:05, 12:10, 12:20, 12:30
and 12:40. -/
def sampleCachedBuses : List Departure :=
  [sampleBus "J1" "2019-05-20T12:05:00+01:00" "1" "Bolton",
   sampleBus "J2" "2019-05-20T12:10:00+01:00" "2" "Wigan",
   sampleBus "J3" "2019-05-20T12:20:00+01:00" "3" "Leigh",
   sampleBus "J4" "2019-05-20T12:30:00+01:00" "4" "Bury",
   sampleBus "J5" "2019-05-20T12:40:00+01:00" "5" "Bolton"]

/-! # Theorems -/

/-! ## Merge of cached and new departures -/

theorem DepMap.get_delete (m : DepMap) (k j : String) :
    DepMap.get (DepMap.delete m k) j = if j = k then none else DepMap.get m j := by
  induction m with
  | nil => simp [DepMap.delete, DepMap.get]
  | cons e es ih =>
    simp only [DepMap.delete] at ih ⊢
    by_cases hek : e.1 = k
    · simp only [List.filter, hek, ne_eq, not_true_eq_false, decide_False]
      rw [ih]
      by_cases hjk : j = k
      · simp [hjk]
      · have : ¬ k = j := fun h => hjk h.symm
        simp [hjk, DepMap.get, hek, this]
    · simp only [List.filter, hek, ne_eq, not_false_eq_true, decide_True, DepMap.get]
      rw [ih]
      by_cases hjk : j = k
      · subst hjk
        simp [hek]
      · simp [hjk]

theorem DepMap.get_set (m : DepMap) (k j : String) (v : Departure) :
    DepMap.get (DepMap.set m k v) j = if j = k then some v else DepMap.get m j := by
  simp only [DepMap.set, DepMap.get, DepMap.get_delete]
  by_cases hjk : j = k
  · simp [hjk]
  · have : ¬ k = j := fun h => hjk h.symm
    simp [hjk, this]

theorem get_foldl_set (N : List Departure) (m : DepMap) (k : String) :
    DepMap.get (N.foldl (fun m d => DepMap.set m d.JourneyRef d) m) k
      = (newEntryFor N k).orElse (fun _ => DepMap.get m k) := by
  induction N generalizing m with
  | nil => simp [newEntryFor]
  | cons d ds ih =>
    simp only [List.foldl_cons, newEntryFor]
    rw [ih, DepMap.get_set]
    cases hds : newEntryFor ds k with
    | some e => simp
    | none =>
      by_cases hk : d.JourneyRef = k
      · simp [hk]
      · have : ¬ k = d.JourneyRef := fun h => hk h.symm
        simp [hk, this]

theorem get_buildNewDeps (N : List Departure) (k : String) :
    DepMap.get (buildNewDeps N) k = newEntryFor N k := by
  unfold buildNewDeps
  rw [get_foldl_set]
  cases newEntryFor N k <;> simp [DepMap.get]

theorem DepMap.wf_delete (m : DepMap) (k : String) (h : DepMap.WF m) :
    DepMap.WF (DepMap.delete m k) := by
  refine ⟨?_, ?_⟩
  · exact (List.Nodup.sublist ((List.filter_sublist m).map Prod.fst) h.1)
  · intro e he
    exact h.2 e (List.mem_of_mem_filter he)

theorem DepMap.not_mem_keys_delete (m : DepMap) (k : String) :
    k ∉ (DepMap.delete m k).map Prod.fst := by
  intro hk
  rcases List.mem_map.1 hk with ⟨e, he, hek⟩
  have := (List.mem_filter.1 he).2
  simp [hek] at this

theorem DepMap.wf_set (m : DepMap) (d : Departure) (h : DepMap.WF m) :
    DepMap.WF (DepMap.set m d.JourneyRef d) := by
  have hd := DepMap.wf_delete m d.JourneyRef h
  refine ⟨?_, ?_⟩
  · simp only [DepMap.set, List.map_cons, List.nodup_cons]
    exact ⟨DepMap.not_mem_keys_delete m d.JourneyRef, hd.1⟩
  · intro e he
    simp only [DepMap.set, List.mem_cons] at he
    rcases he with rfl | he
    · rfl
    · exact hd.2 e he

theorem wf_foldl_set (N : List Departure) (m : DepMap) (h : DepMap.WF m) :
    DepMap.WF (N.foldl (fun m d => DepMap.set m d.JourneyRef d) m) := by
  induction N generalizing m with
  | nil => exact h
  | cons d ds ih => exact ih _ (DepMap.wf_set m d h)

theorem wf_buildNewDeps (N : List Departure) : DepMap.WF (buildNewDeps N) :=
  wf_foldl_set N [] ⟨by simp, by simp⟩

theorem DepMap.get_eq_some_iff (m : DepMap) (h : (m.map Prod.fst).Nodup) (k : String)
    (v : Departure) : DepMap.get m k = some v ↔ (k, v) ∈ m := by
  induction m with
  | nil => simp [DepMap.get]
  | cons e es ih =>
    simp only [List.map_cons, List.nodup_cons] at h
    simp only [DepMap.get, List.mem_cons]
    by_cases hek : e.1 = k
    · simp only [hek, if_true, Option.some.injEq]
      constructor
      · intro hv
        left
        rw [← hv, ← hek]
      · rintro (hv | hv)
        · rw [← hv]
        · exfalso
          apply h.1
          rw [hek]
          exact List.mem_map.2 ⟨(k, v), hv, rfl⟩
    · simp only [hek, if_false]
      rw [ih h.2]
      constructor
      · exact Or.inr
      · rintro (hv | hv)
        · exact absurd (by rw [← hv]) hek
        · exact hv

theorem replaceExisting_snd (C : List Departure) (m : DepMap) :
    (replaceExisting C m).2
      = m.filter (fun e => decide (e.1 ∉ C.map (fun c => c.JourneyRef))) := by
  induction C generalizing m with
  | nil => simp [replaceExisting]
  | cons d ds ih =>
    simp only [replaceExisting, ih, DepMap.delete, List.filter_filter, List.map_cons,
      List.mem_cons, not_or]
    apply List.filter_congr
    intro e _
    by_cases h1 : e.1 = d.JourneyRef <;> simp [h1]

theorem replaceExisting_fst (C : List Departure) (m : DepMap)
    (hC : (C.map (fun c => c.JourneyRef)).Nodup) :
    (replaceExisting C m).1 = C.map (fun c => (DepMap.get m c.JourneyRef).getD c) := by
  induction C generalizing m with
  | nil => simp [replaceExisting]
  | cons d ds ih =>
    simp only [List.map_cons, List.nodup_cons] at hC
    simp only [replaceExisting, List.map_cons, ih _ hC.2]
    congr 1
    · cases DepMap.get m d.JourneyRef <;> rfl
    · apply List.map_congr_left
      intro c hc
      rw [DepMap.get_delete]
      have : c.JourneyRef ≠ d.JourneyRef := by
        intro hcd
        apply hC.1
        rw [← hcd]
        exact List.mem_map.2 ⟨c, hc, rfl⟩
      simp [this]

/-- C1 (as stated, refuted): with a cached list that holds journey ref J1
twice and one new departure for J1, the merge replaces only the first cached
entry; the second keeps its cached value, so the result is not the cached list
with every J1 entry replaced, followed by a tail. -/
theorem combine_duplicate_cached_not_replaced :
    ¬ ∃ tail, combineCachedAndNewDepartures id cachedWithDuplicate newForJ1
        = replacedInPlace cachedWithDuplicate newForJ1 ++ tail := by
  rintro ⟨tail, h⟩
  have h1 : combineCachedAndNewDepartures id cachedWithDuplicate newForJ1
      = [sampleBus "J1" "2019-05-20T12:15:00+01:00" "12" "New",
         sampleBus "J1" "2019-05-20T12:20:00+01:00" "12" "Old second"] := by decide
  have h2 : replacedInPlace cachedWithDuplicate newForJ1
      = [sampleBus "J1" "2019-05-20T12:15:00+01:00" "12" "New",
         sampleBus "J1" "2019-05-20T12:15:00+01:00" "12" "New"] := by decide
  rw [h1, h2] at h
  simp [sampleBus] at h

/-- C1 (amended): for every cached list `C` whose journey refs are pairwise
distinct, every list of new departures `N` and every iteration order of the
map, the merge returns `C` with each entry whose journey ref occurs in `N`
replaced in place by the entry of `N` for it (other entries unchanged at their
positions), followed by a tail that holds exactly one entry for each journey
ref of `N` that does not occur in `C`, namely the entry of `N` for it. -/
theorem combineCachedAndNewDepartures_spec
    (rangeOrder : List Departure → List Departure)
    (hOrder : ∀ l, (rangeOrder l).Perm l)
    (C N : List Departure)
    (hC : (C.map (fun c => c.JourneyRef)).Nodup) :
    ∃ tail, combineCachedAndNewDepartures rangeOrder C N = replacedInPlace C N ++ tail
      ∧ (tail.map (fun d => d.JourneyRef)).Nodup
      ∧ ∀ d, d ∈ tail ↔
          (d.JourneyRef ∉ C.map (fun c => c.JourneyRef) ∧ newEntryFor N d.JourneyRef = some d) := by
  have hwf := wf_buildNewDeps N
  let rest : DepMap :=
    (buildNewDeps N).filter (fun e => decide (e.1 ∉ C.map (fun c => c.JourneyRef)))
  have hrest : (replaceExisting C (buildNewDeps N)).2 = rest := replaceExisting_snd C _
  have hrestwf : DepMap.WF rest :=
    ⟨List.Nodup.sublist ((List.filter_sublist _).map Prod.fst) hwf.1,
      fun e he => hwf.2 e (List.mem_of_mem_filter he)⟩
  have hkeys : rest.map (fun e => e.2.JourneyRef) = rest.map Prod.fst :=
    List.map_congr_left (fun e he => hrestwf.2 e he)
  refine ⟨rangeOrder (rest.map Prod.snd), ?_, ?_, ?_⟩
  · simp only [combineCachedAndNewDepartures, hrest]
    rw [replaceExisting_fst C _ hC]
    simp only [replacedInPlace, get_buildNewDeps]
  · have hp := (hOrder (rest.map Prod.snd)).map (fun d => d.JourneyRef)
    rw [hp.nodup_iff, List.map_map]
    have : ((fun d : Departure => d.JourneyRef) ∘ Prod.snd) = fun e : String × Departure => e.2.JourneyRef := rfl
    rw [this, hkeys]
    exact hrestwf.1
  · intro d
    rw [(hOrder (rest.map Prod.snd)).mem_iff, List.mem_map]
    constructor
    · rintro ⟨e, he, rfl⟩
      have hm := List.mem_filter.1 he
      have hk := hwf.2 e hm.1
      refine ⟨?_, ?_⟩
      · rw [hk]
        simpa using hm.2
      · rw [← get_buildNewDeps, hk, DepMap.get_eq_some_iff _ hwf.1]
        exact hm.1
    · rintro ⟨hnot, hentry⟩
      rw [← get_buildNewDeps, DepMap.get_eq_some_iff _ hwf.1] at hentry
      exact ⟨(d.JourneyRef, d), List.mem_filter.2 ⟨hentry, by simpa using hnot⟩, rfl⟩

/-- Witness of C1 (amended) on a cached list with two distinct journey refs
and one new departure for the first of them. -/
theorem combineCachedAndNewDepartures_spec_witness :
    (cachedDistinct.map (fun c => c.JourneyRef)).Nodup ∧
    ∃ tail, combineCachedAndNewDepartures id cachedDistinct newForJ1
        = replacedInPlace cachedDistinct newForJ1 ++ tail
      ∧ (tail.map (fun d => d.JourneyRef)).Nodup
      ∧ ∀ d, d ∈ tail ↔
          (d.JourneyRef ∉ cachedDistinct.map (fun c => c.JourneyRef)
            ∧ newEntryFor newForJ1 d.JourneyRef = some d) :=
  ⟨by decide,
   combineCachedAndNewDepartures_spec id (fun l => List.Perm.refl l) cachedDistinct newForJ1
     (by decide)⟩

/-! ## The sort orders -/

theorem departureTime_of_effective (parse : String → Option Time) (d : Departure) (t : Time)
    (h : parse (effectiveTime d) = some t) :
    ∃ r, d.DepartureTime parse = some (t, r) := by
  unfold effectiveTime at h
  unfold Departure.DepartureTime
  cases he : d.ExpectedDepartureTime with
  | some e =>
    rw [he] at h
    exact ⟨true, by simp [h]⟩
  | none =>
    rw [he] at h
    exact ⟨false, by simp [h]⟩

theorem lessByServiceNumber_isSome (a b : Departure)
    (ha : grammarMatching a) (hb : grammarMatching b) :
    ∃ r, lessByServiceNumber a b = some r := by
  unfold grammarMatching at ha hb
  unfold lessByServiceNumber
  split
  · exact ⟨none, rfl⟩
  · rcases hpa : a.GetServiceNumberParts with _ | ⟨ip, id, is⟩
    · rw [hpa] at ha; simp at ha
    rcases hpb : b.GetServiceNumberParts with _ | ⟨jp, jd, js⟩
    · rw [hpb] at hb; simp at hb
    simp only
    split
    · split
      · split
        · split <;> exact ⟨_, rfl⟩
        · exact ⟨_, rfl⟩
      · exact ⟨_, rfl⟩
    · split <;> exact ⟨_, rfl⟩

theorem lessByServiceNumber_eq_none_iff (a b : Departure) :
    lessByServiceNumber a b = some none ↔ a.ServiceNumber = b.ServiceNumber := by
  constructor
  · intro h
    by_contra hne
    unfold lessByServiceNumber at h
    rw [if_neg hne] at h
    rcases hpa : a.GetServiceNumberParts with _ | ⟨ip, id, is⟩
    · rw [hpa] at h; simp at h
    rcases hpb : b.GetServiceNumberParts with _ | ⟨jp, jd, js⟩
    · rw [hpa, hpb] at h; simp at h
    rw [hpa, hpb] at h
    simp only at h
    split at h
    · split at h
      · split at h
        · split at h <;> simp at h
        · simp at h
      · simp at h
    · split at h <;> simp at h
  · intro h
    simp [lessByServiceNumber, h]

/-- Structure of `ByDepartureTime.Less`: for departures `a` and `b` whose
effective times (expected if present, else aimed) parse to `ta` and `tb` and
whose service numbers match the grammar, it returns a result, and the result
is true iff `ta` is earlier than `tb`, or the times are equal and
`lessByServiceNumber a b` is true, or times and service numbers are equal and
the journey ref of `a` is lexicographically smaller than that of `b`. -/
theorem ByDepartureTime_Less_iff (parse : String → Option Time) (a b : Departure)
    (ta tb : Time)
    (hta : parse (effectiveTime a) = some ta) (htb : parse (effectiveTime b) = some tb)
    (hga : grammarMatching a) (hgb : grammarMatching b) :
    ∃ r, ByDepartureTime.Less parse a b = some r ∧
      (r = true ↔
        (ta.ns < tb.ns
          ∨ (ta.ns = tb.ns ∧ precedesByServiceNumber a b)
          ∨ (ta.ns = tb.ns ∧ a.ServiceNumber = b.ServiceNumber
              ∧ goStringLess a.JourneyRef b.JourneyRef = true))) := by
  obtain ⟨ra, hda⟩ := departureTime_of_effective parse a ta hta
  obtain ⟨rb, hdb⟩ := departureTime_of_effective parse b tb htb
  obtain ⟨r, hr⟩ := lessByServiceNumber_isSome a b hga hgb
  unfold ByDepartureTime.Less precedesByServiceNumber
  rw [hda, hdb]
  simp only [Time.Equal, Time.Before]
  by_cases hEq : ta.ns = tb.ns
  · simp only [hEq, decide_True, if_true, lt_self_iff_false, false_or, true_and]
    cases r with
    | none =>
      have hs := (lessByServiceNumber_eq_none_iff a b).1 hr
      rw [hr]
      refine ⟨_, rfl, ?_⟩
      simp [hs]
    | some v =>
      have hs : a.ServiceNumber ≠ b.ServiceNumber := by
        intro h
        have := (lessByServiceNumber_eq_none_iff a b).2 h
        rw [hr] at this
        simp at this
      rw [hr]
      refine ⟨v, rfl, ?_⟩
      simp [hs]
  · refine ⟨decide (ta.ns < tb.ns), by simp [hEq], ?_⟩
    simp [hEq]

/-- The structure of `ByDepartureTime.Less` on two departures at 12:10 with
service numbers 12 and 12A. -/
theorem ByDepartureTime_Less_iff_witness :
    ∃ ta tb r,
      sampleParse (effectiveTime (sampleBus "J1" "2019-05-20T12:10:00+01:00" "12" "D")) = some ta ∧
      sampleParse (effectiveTime (sampleBus "J2" "2019-05-20T12:10:00+01:00" "12A" "D")) = some tb ∧
      ByDepartureTime.Less sampleParse
        (sampleBus "J1" "2019-05-20T12:10:00+01:00" "12" "D")
        (sampleBus "J2" "2019-05-20T12:10:00+01:00" "12A" "D") = some r ∧
      (r = true ↔
        (ta.ns < tb.ns
          ∨ (ta.ns = tb.ns ∧ precedesByServiceNumber
              (sampleBus "J1" "2019-05-20T12:10:00+01:00" "12" "D")
              (sampleBus "J2" "2019-05-20T12:10:00+01:00" "12A" "D"))
          ∨ (ta.ns = tb.ns ∧
              (sampleBus "J1" "2019-05-20T12:10:00+01:00" "12" "D").ServiceNumber
                = (sampleBus "J2" "2019-05-20T12:10:00+01:00" "12A" "D").ServiceNumber
              ∧ goStringLess (sampleBus "J1" "2019-05-20T12:10:00+01:00" "12" "D").JourneyRef
                  (sampleBus "J2" "2019-05-20T12:10:00+01:00" "12A" "D").JourneyRef = true))) := by
  have hp : sampleParse "2019-05-20T12:10:00+01:00"
      = some { ns := 1558350600 * nsPerSecond
               loc := { lookup := fun _ => { offset := 3600, start := 1553994000, stop := 1572138000 } } } := by
    rfl
  obtain ⟨r, hr, hiff⟩ := ByDepartureTime_Less_iff sampleParse
    (sampleBus "J1" "2019-05-20T12:10:00+01:00" "12" "D")
    (sampleBus "J2" "2019-05-20T12:10:00+01:00" "12A" "D") _ _ hp hp (by decide) (by decide)
  exact ⟨_, _, r, hp, hp, hr, hiff⟩

/-- C2 (evaluation at the failing input): two departures at the same time,
12:10, with service numbers TP and TP1. In the specified service-number order
TP precedes TP1 (same prefix, absent digits first), so the claim makes
`ByDepartureTime.Less` true of (TP, TP1) and false of (TP1, TP); the code
answers false and true. -/
theorem ByDepartureTime_Less_absent_digits :
    sampleParse (effectiveTime (sampleBus "J1" "2019-05-20T12:10:00+01:00" "TP" "D"))
        = some (sampleNow 600)
    ∧ sampleParse (effectiveTime (sampleBus "J2" "2019-05-20T12:10:00+01:00" "TP1" "D"))
        = some (sampleNow 600)
    ∧ (sampleBus "J1" "2019-05-20T12:10:00+01:00" "TP" "D").GetServiceNumberParts
        = some (some "TP", none, none)
    ∧ (sampleBus "J2" "2019-05-20T12:10:00+01:00" "TP1" "D").GetServiceNumberParts
        = some (some "TP", some 1, none)
    ∧ specServiceNumberLess (some "TP", none, none) (some "TP", some 1, none) = true
    ∧ ByDepartureTime.Less sampleParse
        (sampleBus "J1" "2019-05-20T12:10:00+01:00" "TP" "D")
        (sampleBus "J2" "2019-05-20T12:10:00+01:00" "TP1" "D") = some false
    ∧ ByDepartureTime.Less sampleParse
        (sampleBus "J2" "2019-05-20T12:10:00+01:00" "TP1" "D")
        (sampleBus "J1" "2019-05-20T12:10:00+01:00" "TP" "D") = some true := by
  refine ⟨rfl, rfl, by decide, by decide, by decide, by decide, by decide⟩

/-- C3 (evaluation at the failing input): service numbers A and A1 have the
same prefix, and A has no digits. The specified order puts A first (absent
digits before present ones), but `lessByServiceNumber` answers false for
(A, A1) and true for (A1, A): a service number without digits sorts after one
with digits. -/
theorem lessByServiceNumber_absent_digits_last :
    (sampleBus "J1" "2019-05-20T12:10:00+01:00" "A" "D").GetServiceNumberParts
        = some (some "A", none, none)
    ∧ (sampleBus "J2" "2019-05-20T12:10:00+01:00" "A1" "D").GetServiceNumberParts
        = some (some "A", some 1, none)
    ∧ specServiceNumberLess (some "A", none, none) (some "A", some 1, none) = true
    ∧ lessByServiceNumber (sampleBus "J1" "2019-05-20T12:10:00+01:00" "A" "D")
        (sampleBus "J2" "2019-05-20T12:10:00+01:00" "A1" "D") = some (some false)
    ∧ lessByServiceNumber (sampleBus "J2" "2019-05-20T12:10:00+01:00" "A1" "D")
        (sampleBus "J1" "2019-05-20T12:10:00+01:00" "A" "D") = some (some true) := by
  decide

/-! ## Expiry -/

theorem truncMinute_of_inMinute (m n : Int) (h : inMinute m n) :
    truncMinute n = m * nsPerMinute := by
  unfold inMinute at h
  unfold truncMinute
  simp only [nsPerMinute, nsPerSecond] at h ⊢
  omega

theorem truncMinute_ge (m n : Int) (h : (m + 1) * nsPerMinute ≤ n) :
    (m + 1) * nsPerMinute ≤ truncMinute n := by
  unfold truncMinute
  simp only [nsPerMinute, nsPerSecond] at h ⊢
  omega

theorem truncate_ns (now : Time) : (now.Truncate nsPerMinute).ns = truncMinute now.ns := rfl

theorem convertDepartureTime_ok (now : Time) (loc : Location) (s : String)
    (h : matchesHHMM s = true) :
    ∃ e, ConvertDepartureTime (some now) loc s = Result.ok e := by
  unfold ConvertDepartureTime
  simp only [h, not_true_eq_false, if_false]
  split
  · exact ⟨_, rfl⟩
  · split <;> exact ⟨_, rfl⟩

theorem bus_ne_train : Bus ≠ Train := by decide

theorem tram_ne_train : Tram ≠ Train := by decide

/-- C4: for a bus or tram departure whose effective time parses to `t`, and
every instant `now`, `IsExpired(now)` returns, and is true iff `t` is strictly
before `now`; in particular it is false when `t` equals `now`. -/
theorem IsExpired_bus_tram (parse : String → Option Time) (d : Departure) (now t : Time)
    (hj : d.JourneyType = Bus ∨ d.JourneyType = Tram)
    (ht : parse (effectiveTime d) = some t) :
    d.IsExpired parse now = some (decide (t.ns < now.ns))
      ∧ (t.ns = now.ns → d.IsExpired parse now = some false) := by
  obtain ⟨r, hd⟩ := departureTime_of_effective parse d t ht
  have hnt : d.JourneyType ≠ Train := by
    rcases hj with h | h <;> rw [h]
    · exact bus_ne_train
    · exact tram_ne_train
  have h1 : d.IsExpired parse now = some (decide (t.ns < now.ns)) := by
    unfold Departure.IsExpired
    rw [hd]
    simp only [hnt, if_false, Time.Before]
  refine ⟨h1, ?_⟩
  intro heq
  rw [h1, heq]
  simp

/-- Witness of C4: a bus departure at 12:10 seen at 12:10 exactly. -/
theorem IsExpired_bus_tram_witness :
    (sampleBus "J1" "2019-05-20T12:10:00+01:00" "12" "D").JourneyType = Bus
    ∧ sampleParse (effectiveTime (sampleBus "J1" "2019-05-20T12:10:00+01:00" "12" "D"))
        = some (sampleNow 600)
    ∧ (sampleBus "J1" "2019-05-20T12:10:00+01:00" "12" "D").IsExpired sampleParse (sampleNow 600)
        = some (decide ((sampleNow 600).ns < (sampleNow 600).ns))
    ∧ ((sampleNow 600).ns = (sampleNow 600).ns →
        (sampleBus "J1" "2019-05-20T12:10:00+01:00" "12" "D").IsExpired sampleParse (sampleNow 600)
          = some false) :=
  ⟨rfl, rfl,
   IsExpired_bus_tram sampleParse (sampleBus "J1" "2019-05-20T12:10:00+01:00" "12" "D")
     (sampleNow 600) (sampleNow 600) (Or.inl rfl) rfl⟩

theorem matchesHHMM_ne_delayed (status : String) (h : matchesHHMM status = true) :
    status ≠ "Delayed" := by
  intro hs
  rw [hs] at h
  revert h
  decide

/-- C5: for a train departure with departure status `status` whose effective
time parses to `t`, and every instant `now`: `IsExpired(now)` is false when
the status is Delayed; when the status matches HH:MM the wall-clock conversion
of it (in the zone of `t`) succeeds with an instant `e`, and `IsExpired(now)`
is true iff `e` is before `now` truncated to the whole minute; otherwise it is
true iff `t` is before `now` truncated to the whole minute. Hence, with the
reference instant (`e` or `t`) inside minute `m`, the departure is not expired
at any `now` inside minute `m` and is expired at every `now` from the first
instant of minute `m + 1`. -/
theorem IsExpired_train_with_status (parse : String → Option Time) (d : Departure)
    (now t : Time) (status : String)
    (hj : d.JourneyType = Train)
    (hs : d.DepartureStatus = some status)
    (ht : parse (effectiveTime d) = some t) :
    (status = "Delayed" → d.IsExpired parse now = some false)
    ∧ (matchesHHMM status = true →
        ∃ e, ConvertDepartureTime (some now) t.loc status = Result.ok e
          ∧ d.IsExpired parse now = some (decide (e.ns < truncMinute now.ns))
          ∧ ∀ m, inMinute m e.ns →
              (inMinute m now.ns → d.IsExpired parse now = some false)
              ∧ ((m + 1) * nsPerMinute ≤ now.ns → d.IsExpired parse now = some true))
    ∧ (status ≠ "Delayed" → matchesHHMM status = false →
        d.IsExpired parse now = some (decide (t.ns < truncMinute now.ns))
          ∧ ∀ m, inMinute m t.ns →
              (inMinute m now.ns → d.IsExpired parse now = some false)
              ∧ ((m + 1) * nsPerMinute ≤ now.ns → d.IsExpired parse now = some true)) := by
  obtain ⟨r, hd⟩ := departureTime_of_effective parse d t ht
  have hminute : ∀ (x : Int) (m : Int), inMinute m x →
      (inMinute m now.ns → decide (x < truncMinute now.ns) = false)
      ∧ ((m + 1) * nsPerMinute ≤ now.ns → decide (x < truncMinute now.ns) = true) := by
    intro x m hx
    constructor
    · intro hn
      rw [truncMinute_of_inMinute m now.ns hn]
      simpa using hx.1
    · intro hn
      have := truncMinute_ge m now.ns hn
      have hx2 := hx.2
      simp only [decide_eq_true_eq]
      omega
  refine ⟨?_, ?_, ?_⟩
  · intro hdel
    unfold Departure.IsExpired
    rw [hd]
    simp only [hj, if_true, hs, hdel]
  · intro hm
    have hnd := matchesHHMM_ne_delayed status hm
    obtain ⟨e, he⟩ := convertDepartureTime_ok now t.loc status hm
    have hexp : d.IsExpired parse now = some (decide (e.ns < truncMinute now.ns)) := by
      unfold Departure.IsExpired
      rw [hd]
      simp only [hj, if_true, hs, hnd, if_false, hm, he, Time.Before, truncate_ns]
    refine ⟨e, he, hexp, ?_⟩
    intro m hme
    rw [hexp]
    constructor
    · intro hn
      rw [(hminute e.ns m hme).1 hn]
    · intro hn
      rw [(hminute e.ns m hme).2 hn]
  · intro hnd hm
    have hexp : d.IsExpired parse now = some (decide (t.ns < truncMinute now.ns)) := by
      unfold Departure.IsExpired
      rw [hd]
      simp [hj, hs, hnd, hm, Time.Before, truncate_ns]
    refine ⟨hexp, ?_⟩
    intro m hmt
    rw [hexp]
    constructor
    · intro hn
      rw [(hminute t.ns m hmt).1 hn]
    · intro hn
      rw [(hminute t.ns m hmt).2 hn]

/-- Witness of C5: a train due 12:26 with status On time, seen at 12:26:59. -/
theorem IsExpired_train_with_status_witness :
    (sampleTrain "S1" "2019-05-20T12:26:00+01:00" (some "On time")).JourneyType = Train
    ∧ (sampleTrain "S1" "2019-05-20T12:26:00+01:00" (some "On time")).DepartureStatus
        = some "On time"
    ∧ sampleParse (effectiveTime (sampleTrain "S1" "2019-05-20T12:26:00+01:00" (some "On time")))
        = some (sampleNow 1560)
    ∧ (sampleTrain "S1" "2019-05-20T12:26:00+01:00" (some "On time")).IsExpired sampleParse
        (sampleNow 1619) = some (decide ((sampleNow 1560).ns < truncMinute (sampleNow 1619).ns)) :=
  ⟨rfl, rfl, rfl,
   ((IsExpired_train_with_status sampleParse
      (sampleTrain "S1" "2019-05-20T12:26:00+01:00" (some "On time"))
      (sampleNow 1619) (sampleNow 1560) "On time" rfl rfl rfl).2.2 (by decide) (by decide)).1⟩

/-! ## The insertion sort -/

theorem insertLeft_perm (less : Departure → Departure → Option Bool) (x : Departure)
    (done r : List Departure) (h : insertLeft less x done = some r) :
    r.Perm (x :: done) := by
  induction done generalizing r with
  | nil =>
    simp only [insertLeft, Option.some.injEq] at h
    rw [← h]
  | cons y ys ih =>
    simp only [insertLeft] at h
    cases hl : less x y with
    | none => rw [hl] at h; simp at h
    | some b =>
      rw [hl] at h
      cases b with
      | true =>
        simp only [Option.map_eq_some'] at h
        obtain ⟨r1, hr1, rfl⟩ := h
        exact ((ih r1 hr1).cons y).trans (List.Perm.swap x y ys)
      | false =>
        simp only [Option.some.injEq] at h
        rw [← h]

theorem insertLeft_head (less : Departure → Departure → Option Bool) (x : Departure)
    (done r : List Departure) (h : insertLeft less x done = some r) :
    r.head? = some x ∨ (less x <$> done.head? = some (some true) ∧ r.head? = done.head?) := by
  cases done with
  | nil =>
    simp only [insertLeft, Option.some.injEq] at h
    left
    rw [← h]
    rfl
  | cons y ys =>
    simp only [insertLeft] at h
    cases hl : less x y with
    | none => rw [hl] at h; simp at h
    | some b =>
      rw [hl] at h
      cases b with
      | true =>
        simp only [Option.map_eq_some'] at h
        obtain ⟨r1, _, rfl⟩ := h
        right
        simp [hl]
      | false =>
        simp only [Option.some.injEq] at h
        left
        rw [← h]
        rfl

theorem insertLeft_chain (less : Departure → Departure → Option Bool) (x : Departure)
    (done r : List Departure)
    (hasym : AsymmetricOn less (x :: done))
    (hc : done.Chain' (fun u v => less u v ≠ some true))
    (h : insertLeft less x done = some r) :
    r.Chain' (fun u v => less u v ≠ some true) := by
  induction done generalizing r with
  | nil =>
    simp only [insertLeft, Option.some.injEq] at h
    rw [← h]
    exact List.chain'_singleton x
  | cons y ys ih =>
    simp only [insertLeft] at h
    cases hl : less x y with
    | none => rw [hl] at h; simp at h
    | some b =>
      rw [hl] at h
      cases b with
      | true =>
        simp only [Option.map_eq_some'] at h
        obtain ⟨r1, hr1, rfl⟩ := h
        have hasym1 : AsymmetricOn less (x :: ys) := by
          intro u hu v hv
          apply hasym u _ v _
          · rcases List.mem_cons.1 hu with h1 | h1
            · rw [h1]; exact List.mem_cons_self _ _
            · exact List.mem_cons_of_mem _ (List.mem_cons_of_mem _ h1)
          · rcases List.mem_cons.1 hv with h1 | h1
            · rw [h1]; exact List.mem_cons_self _ _
            · exact List.mem_cons_of_mem _ (List.mem_cons_of_mem _ h1)
        have hc1 := ih r1 hasym1 (List.Chain'.tail hc) hr1
        rw [List.chain'_cons']
        refine ⟨?_, hc1⟩
        intro z hz
        rcases insertLeft_head less x ys r1 hr1 with hh | ⟨_, hh⟩
        · rw [hh] at hz
          simp only [Option.mem_def, Option.some.injEq] at hz
          rw [← hz]
          intro hyx
          exact hasym x (List.mem_cons_self _ _) y
            (List.mem_cons_of_mem _ (List.mem_cons_self _ _)) ⟨hl, hyx⟩
        · rw [hh] at hz
          exact (List.chain'_cons'.1 hc).1 z hz
      | false =>
        simp only [Option.some.injEq] at h
        rw [← h, List.chain'_cons]
        refine ⟨?_, hc⟩
        rw [hl]
        simp

theorem insertionSortLoop_perm (less : Departure → Departure → Option Bool)
    (done todo r : List Departure) (h : insertionSortLoop less done todo = some r) :
    r.Perm (done ++ todo) := by
  induction todo generalizing done with
  | nil =>
    simp only [insertionSortLoop, Option.some.injEq] at h
    rw [← h, List.append_nil]
    exact List.reverse_perm done
  | cons x xs ih =>
    simp only [insertionSortLoop] at h
    cases hi : insertLeft less x done with
    | none => rw [hi] at h; simp at h
    | some d1 =>
      rw [hi] at h
      have h1 := ih d1 h
      have h2 := insertLeft_perm less x done d1 hi
      exact h1.trans ((h2.append_right xs).trans (by simpa using List.perm_middle.symm))

theorem insertionSortLoop_sorted (less : Departure → Departure → Option Bool)
    (done todo r : List Departure)
    (hasym : AsymmetricOn less (done ++ todo))
    (hc : done.Chain' (fun u v => less u v ≠ some true))
    (h : insertionSortLoop less done todo = some r) :
    SortedBy less r := by
  induction todo generalizing done with
  | nil =>
    simp only [insertionSortLoop, Option.some.injEq] at h
    rw [← h]
    unfold SortedBy
    rw [List.chain'_reverse]
    exact hc
  | cons x xs ih =>
    simp only [insertionSortLoop] at h
    cases hi : insertLeft less x done with
    | none => rw [hi] at h; simp at h
    | some d1 =>
      rw [hi] at h
      have hp := insertLeft_perm less x done d1 hi
      have hasym0 : AsymmetricOn less (x :: done) := by
        intro u hu v hv
        apply hasym u _ v _
        · rcases List.mem_cons.1 hu with h1 | h1
          · rw [h1]; simp
          · simp [h1]
        · rcases List.mem_cons.1 hv with h1 | h1
          · rw [h1]; simp
          · simp [h1]
      have hasym1 : AsymmetricOn less (d1 ++ xs) := by
        intro u hu v hv
        apply hasym u _ v _
        · rcases List.mem_append.1 hu with h1 | h1
          · rcases List.mem_cons.1 (hp.mem_iff.1 h1) with h2 | h2
            · rw [h2]; simp
            · simp [h2]
          · simp [h1]
        · rcases List.mem_append.1 hv with h1 | h1
          · rcases List.mem_cons.1 (hp.mem_iff.1 h1) with h2 | h2
            · rw [h2]; simp
            · simp [h2]
          · simp [h1]
      exact ih d1 hasym1 (insertLeft_chain less x done d1 hasym0 hc hi) h

theorem sortSort_perm (less : Departure → Departure → Option Bool) (l r : List Departure)
    (h : sortSort less l = some r) : r.Perm l := by
  simpa using insertionSortLoop_perm less [] l r h

theorem sortSort_sorted (less : Departure → Departure → Option Bool) (l r : List Departure)
    (hasym : AsymmetricOn less l) (h : sortSort less l = some r) : SortedBy less r :=
  insertionSortLoop_sorted less [] l r (by simpa using hasym) List.chain'_nil h

/-! ## Asymmetry of the departure-time order -/

theorem lexLess_asymm (a b : List Char) : ¬ (lexLess a b = true ∧ lexLess b a = true) := by
  induction a generalizing b with
  | nil =>
    cases b <;> simp [lexLess]
  | cons x xs ih =>
    cases b with
    | nil => simp [lexLess]
    | cons y ys =>
      simp only [lexLess, Bool.or_eq_true, decide_eq_true_eq, Bool.and_eq_true]
      rintro ⟨h1 | ⟨h1, h1r⟩, h2 | ⟨h2, h2r⟩⟩
      · omega
      · rw [h2] at h1; omega
      · rw [h1] at h2; omega
      · exact ih ys ⟨h1r, h2r⟩

theorem dropWhile_head_false {α : Type} (p : α → Bool) (l : List α) (c : α) (t : List α)
    (h : l.dropWhile p = c :: t) : p c = false := by
  induction l with
  | nil => simp at h
  | cons x xs ih =>
    rw [List.dropWhile_cons] at h
    by_cases hx : p x = true
    · rw [if_pos hx] at h
      exact ih h
    · rw [if_neg hx] at h
      simp only [List.cons.injEq] at h
      rw [← h.1]
      simpa using hx

theorem suffix_none_of_digits_none (d : Departure) (p s : Option String)
    (h : d.GetServiceNumberParts = some (p, none, s)) : s = none := by
  unfold Departure.GetServiceNumberParts at h
  simp only at h
  split at h
  · simp only [Option.some.injEq, Prod.mk.injEq] at h
    exact h.2.2.symm
  · rename_i c hr2
    split at h
    · rename_i hc
      simp only [Option.some.injEq, Prod.mk.injEq] at h
      have hd := h.2.1
      split at hd
      · rename_i hdigs
        rw [hdigs] at hr2
        simp only [List.length_nil, List.drop_zero] at hr2
        have := dropWhile_head_false _ _ _ _ hr2
        rw [this] at hc
        simp at hc
      · simp at hd
    · simp at h
  · simp at h

theorem lessByServiceNumber_asymm (a b : Departure)
    (hinj : a.GetServiceNumberParts = b.GetServiceNumberParts → a.ServiceNumber = b.ServiceNumber) :
    ¬ (lessByServiceNumber a b = some (some true) ∧ lessByServiceNumber b a = some (some true)) := by
  rintro ⟨h1, h2⟩
  have hne : a.ServiceNumber ≠ b.ServiceNumber := by
    intro h
    have := (lessByServiceNumber_eq_none_iff a b).2 h
    rw [h1] at this
    simp at this
  have hne2 : b.ServiceNumber ≠ a.ServiceNumber := fun h => hne h.symm
  unfold lessByServiceNumber at h1 h2
  rw [if_neg hne] at h1
  rw [if_neg hne2] at h2
  rcases hpa : a.GetServiceNumberParts with _ | ⟨ip, id, is⟩
  · rw [hpa] at h1; simp at h1
  rcases hpb : b.GetServiceNumberParts with _ | ⟨jp, jd, js⟩
  · rw [hpa, hpb] at h1; simp at h1
  rw [hpa, hpb] at h1 hinj
  rw [hpb, hpa] at h2
  simp only at h1 h2
  have hdigs : id = none → jd = none → is = none ∧ js = none := by
    intro hi hj
    rw [hi] at hpa
    rw [hj] at hpb
    exact ⟨suffix_none_of_digits_none a ip is hpa, suffix_none_of_digits_none b jp js hpb⟩
  have hstr : ∀ p q : String, goStringLess p q = true → goStringLess q p = true → False :=
    fun p q hp hq => lexLess_asymm p.data q.data ⟨hp, hq⟩
  by_cases hp : ip = jp
  · subst hp
    have hcond : (ip = none ∧ ip = none) ∨ (ip ≠ none ∧ ip ≠ none ∧ ip = ip) := by
      rcases ip with _ | p
      · exact Or.inl ⟨rfl, rfl⟩
      · exact Or.inr ⟨by simp, by simp, rfl⟩
    rw [if_pos hcond] at h1 h2
    rcases id with _ | x
    · rcases jd with _ | y
      · obtain ⟨hs, ht⟩ := hdigs rfl rfl
        subst hs ht
        exact hne (hinj rfl)
      · simp at h1
    · rcases jd with _ | y
      · simp at h2
      · by_cases hxy : x = y
        · subst hxy
          rcases is with _ | s
          · rcases js with _ | t
            · exact hne (hinj rfl)
            · simp at h2
          · rcases js with _ | t
            · simp at h1
            · simp only [if_true, Option.some.injEq] at h1 h2
              exact hstr s t h1 h2
        · have hyx : ¬ y = x := fun h => hxy h.symm
          simp only [hxy, hyx, if_false, Option.some.injEq, decide_eq_true_eq] at h1 h2
          omega
  · have hp2 : ¬ jp = ip := fun h => hp h.symm
    rcases ip with _ | p
    · rcases jp with _ | q
      · exact hp rfl
      · simp at h2
    · rcases jp with _ | q
      · simp at h1
      · simp only [hp, hp2, and_false, or_false, reduceCtorEq, false_and, if_false,
          Option.some.injEq] at h1 h2
        exact hstr p q h1 h2

theorem ByDepartureTime_Less_asymm (parse : String → Option Time) (a b : Departure)
    (hinj : a.GetServiceNumberParts = b.GetServiceNumberParts → a.ServiceNumber = b.ServiceNumber) :
    ¬ (ByDepartureTime.Less parse a b = some true ∧ ByDepartureTime.Less parse b a = some true) := by
  rintro ⟨h1, h2⟩
  unfold ByDepartureTime.Less at h1 h2
  rcases hda : a.DepartureTime parse with _ | ⟨ta, ra⟩
  · rw [hda] at h1; simp at h1
  rcases hdb : b.DepartureTime parse with _ | ⟨tb, rb⟩
  · rw [hda, hdb] at h1; simp at h1
  rw [hda, hdb] at h1
  rw [hdb, hda] at h2
  simp only [Time.Equal, Time.Before] at h1 h2
  by_cases hEq : ta.ns = tb.ns
  · have hEq2 : tb.ns = ta.ns := hEq.symm
    simp only [hEq, decide_True, if_true] at h1
    simp only [hEq2, decide_True, if_true] at h2
    rcases hab : lessByServiceNumber a b with _ | r
    · rw [hab] at h1; simp at h1
    rcases hba : lessByServiceNumber b a with _ | r2
    · rw [hba] at h2; simp at h2
    rw [hab] at h1
    rw [hba] at h2
    rcases r with _ | v
    · have hs := (lessByServiceNumber_eq_none_iff a b).1 hab
      have hba2 := (lessByServiceNumber_eq_none_iff b a).2 hs.symm
      rw [hba2] at hba
      simp only [Option.some.injEq] at hba
      rw [← hba] at h2
      simp only [Option.some.injEq] at h1 h2
      exact lexLess_asymm _ _ ⟨h1, h2⟩
    · rcases r2 with _ | v2
      · have hs := (lessByServiceNumber_eq_none_iff b a).1 hba
        have hab2 := (lessByServiceNumber_eq_none_iff a b).2 hs.symm
        rw [hab2] at hab
        simp at hab
      · simp only [Option.some.injEq] at h1 h2
        rw [h1] at hab
        rw [h2] at hba
        exact lessByServiceNumber_asymm a b hinj ⟨hab, hba⟩
  · have hEq2 : ¬ tb.ns = ta.ns := fun h => hEq h.symm
    simp only [hEq, decide_False, Bool.false_eq_true, if_false, Option.some.injEq,
      decide_eq_true_eq] at h1
    simp only [hEq2, decide_False, Bool.false_eq_true, if_false, Option.some.injEq,
      decide_eq_true_eq] at h2
    omega

theorem asymmetricOn_Less (parse : String → Option Time) (l : List Departure)
    (h : PartsDetermineServiceNumber l) : AsymmetricOn (ByDepartureTime.Less parse) l :=
  fun u hu v hv => ByDepartureTime_Less_asymm parse u v (h u hu v hv)

/-! ## Members of the merged and filtered lists -/

theorem mem_values_foldl_set (N : List Departure) (m : DepMap) (e : String × Departure)
    (h : e ∈ N.foldl (fun m d => DepMap.set m d.JourneyRef d) m) :
    e ∈ m ∨ e.2 ∈ N := by
  induction N generalizing m with
  | nil => exact Or.inl h
  | cons d ds ih =>
    simp only [List.foldl_cons] at h
    rcases ih _ h with h1 | h1
    · simp only [DepMap.set, List.mem_cons] at h1
      rcases h1 with h2 | h2
      · right
        rw [h2]
        exact List.mem_cons_self _ _
      · left
        exact List.mem_of_mem_filter h2
    · right
      exact List.mem_cons_of_mem _ h1

theorem mem_values_buildNewDeps (N : List Departure) (e : String × Departure)
    (h : e ∈ buildNewDeps N) : e.2 ∈ N := by
  rcases mem_values_foldl_set N [] e h with h1 | h1
  · simp at h1
  · exact h1

theorem DepMap.mem_of_get (m : DepMap) (k : String) (v : Departure)
    (h : DepMap.get m k = some v) : ∃ e ∈ m, e.2 = v := by
  induction m with
  | nil => simp [DepMap.get] at h
  | cons e es ih =>
    simp only [DepMap.get] at h
    split at h
    · simp only [Option.some.injEq] at h
      exact ⟨e, List.mem_cons_self _ _, h⟩
    · obtain ⟨e1, he1, hv⟩ := ih h
      exact ⟨e1, List.mem_cons_of_mem _ he1, hv⟩

theorem mem_replaceExisting_fst (C : List Departure) (m : DepMap) (d : Departure)
    (h : d ∈ (replaceExisting C m).1) : d ∈ C ∨ ∃ e ∈ m, e.2 = d := by
  induction C generalizing m with
  | nil => simp [replaceExisting] at h
  | cons c cs ih =>
    simp only [replaceExisting, List.mem_cons] at h
    rcases h with h1 | h1
    · cases hg : DepMap.get m c.JourneyRef with
      | none =>
        rw [hg] at h1
        left
        rw [h1]
        exact List.mem_cons_self _ _
      | some n =>
        rw [hg] at h1
        right
        rw [h1]
        exact DepMap.mem_of_get m _ n hg
    · rcases ih _ h1 with h2 | ⟨e, he, hed⟩
      · left
        exact List.mem_cons_of_mem _ h2
      · right
        exact ⟨e, List.mem_of_mem_filter he, hed⟩

theorem mem_combine (rangeOrder : List Departure → List Departure)
    (hOrder : ∀ l, (rangeOrder l).Perm l) (C N : List Departure) (d : Departure)
    (h : d ∈ combineCachedAndNewDepartures rangeOrder C N) : d ∈ C ++ N := by
  simp only [combineCachedAndNewDepartures, List.mem_append] at h
  rw [List.mem_append]
  rcases h with h1 | h1
  · rcases mem_replaceExisting_fst C _ d h1 with h2 | ⟨e, he, hed⟩
    · exact Or.inl h2
    · right
      rw [← hed]
      exact mem_values_buildNewDeps N e he
  · rw [(hOrder _).mem_iff, replaceExisting_snd, List.mem_map] at h1
    obtain ⟨e, he, hed⟩ := h1
    right
    rw [← hed]
    exact mem_values_buildNewDeps N e (List.mem_of_mem_filter he)

theorem Ingester.removeExpiredDepartures_sublist (parse : String → Option Time) (now : Time)
    (l kept : List Departure)
    (h : Ingester.removeExpiredDepartures parse now l = Result.ok kept) :
    kept.Sublist l := by
  induction l generalizing kept with
  | nil =>
    simp only [Ingester.removeExpiredDepartures, Result.ok.injEq] at h
    rw [← h]
  | cons d ds ih =>
    simp only [Ingester.removeExpiredDepartures] at h
    split at h
    · split at h
      · simp at h
      · cases hr : Ingester.removeExpiredDepartures parse now ds with
        | ok k =>
          rw [hr] at h
          simp only [Result.bind] at h
          split at h
          · simp only [Result.ok.injEq] at h
            rw [← h]
            exact (ih k hr).cons₂ d
          · simp only [Result.ok.injEq] at h
            rw [← h]
            exact (ih k hr).cons d
        | error => rw [hr] at h; simp [Result.bind] at h
        | panic => rw [hr] at h; simp [Result.bind] at h
    · split at h
      · simp at h
      · cases hr : Ingester.removeExpiredDepartures parse now ds with
        | ok k =>
          rw [hr] at h
          simp only [Result.bind] at h
          split at h
          · simp only [Result.ok.injEq] at h
            rw [← h]
            exact (ih k hr).cons₂ d
          · simp only [Result.ok.injEq] at h
            rw [← h]
            exact (ih k hr).cons d
        | error => rw [hr] at h; simp [Result.bind] at h
        | panic => rw [hr] at h; simp [Result.bind] at h

/-! ## What an ingest writes -/

theorem RailIngester.removeExpiredDepartures_eq (parse : String → Option Time) (now : Time)
    (l kept : List Departure)
    (h : RailIngester.removeExpiredDepartures parse now l = Result.ok kept) :
    kept = notExpired parse now l := by
  induction l generalizing kept with
  | nil =>
    simp only [RailIngester.removeExpiredDepartures, Result.ok.injEq] at h
    rw [← h]
    rfl
  | cons d ds ih =>
    simp only [RailIngester.removeExpiredDepartures] at h
    cases he : d.IsExpired parse now with
    | none => rw [he] at h; simp at h
    | some b =>
      rw [he] at h
      cases hr : RailIngester.removeExpiredDepartures parse now ds with
      | ok k =>
        rw [hr] at h
        have hk := ih k hr
        cases b with
        | true =>
          simp only [Result.bind, if_true, Result.ok.injEq] at h
          rw [← h, hk]
          simp [notExpired, List.filter_cons, he]
        | false =>
          simp only [Result.bind, Bool.false_eq_true, if_false, Result.ok.injEq] at h
          rw [← h, hk]
          simp [notExpired, List.filter_cons, he]
      | error => rw [hr] at h; simp [Result.bind] at h
      | panic => rw [hr] at h; simp [Result.bind] at h

theorem ingestLocation_parts (parse : String → Option Time)
    (rangeOrder : List Departure → List Departure) (now : Time)
    (C N l : List Departure)
    (h : Ingester.ingestLocation parse rangeOrder now C N = Result.ok l) :
    ∃ kept, Ingester.removeExpiredDepartures parse now
        (combineCachedAndNewDepartures rangeOrder C N) = Result.ok kept
      ∧ sortSort (ByDepartureTime.Less parse) kept = some l := by
  unfold Ingester.ingestLocation at h
  simp only at h
  cases hr : Ingester.removeExpiredDepartures parse now
      (combineCachedAndNewDepartures rangeOrder C N) with
  | ok kept =>
    rw [hr] at h
    simp only [Result.bind] at h
    cases hs : sortSort (ByDepartureTime.Less parse) kept with
    | none => rw [hs] at h; simp at h
    | some r =>
      rw [hs] at h
      simp only [Result.ok.injEq] at h
      exact ⟨kept, rfl, by rw [← h, hs]⟩
  | error => rw [hr] at h; simp [Result.bind] at h
  | panic => rw [hr] at h; simp [Result.bind] at h

theorem processRecords_parts (parse : String → Option Time) (format : Time → String)
    (getAtcoCode : String → Option String) (timeLocation : Location) (now1 now2 : Time)
    (stationBoard : StationBoard) (k : String) (l : List Departure)
    (h : RailIngester.processRecords parse format getAtcoCode timeLocation now1 now2
      stationBoard = Result.ok (k, l)) :
    ∃ ds, RailIngester.transformToInternalModel format now1 timeLocation stationBoard k
        = Result.ok ds
      ∧ RailIngester.removeExpiredDepartures parse now2 ds = Result.ok l := by
  unfold RailIngester.processRecords at h
  cases hc : stationBoard.Crs with
  | none => rw [hc] at h; simp at h
  | some crs =>
    rw [hc] at h
    simp only at h
    cases ha : getAtcoCode crs with
    | none => rw [ha] at h; simp at h
    | some atco =>
      rw [ha] at h
      simp only at h
      cases ht : RailIngester.transformToInternalModel format now1 timeLocation stationBoard
          atco with
      | ok ds =>
        rw [ht] at h
        simp only [Result.bind] at h
        cases hr : RailIngester.removeExpiredDepartures parse now2 ds with
        | ok kept =>
          rw [hr] at h
          simp only [Result.ok.injEq, Prod.mk.injEq] at h
          rw [← h.1, ← h.2]
          exact ⟨ds, ht, hr⟩
        | error => rw [hr] at h; simp at h
        | panic => rw [hr] at h; simp at h
      | error => rw [ht] at h; simp [Result.bind] at h
      | panic => rw [ht] at h; simp [Result.bind] at h

set_option maxRecDepth 100000 in
/-- C6 (as stated, refuted): the rail ingester does not sort. For a station
board that lists the 12:30 service before the 12:10 service, `processRecords`
completes and writes the two departures in that order, and
`ByDepartureTime.Less` holds of the second and the first. -/
theorem rail_ingest_writes_unsorted :
    RailIngester.processRecords sampleParse sampleFormat sampleAtcoCode sampleZone
        (sampleNow 0) (sampleNow 1) boardOutOfOrder
      = Result.ok ("9100MNCRPIC",
          [sampleTrain "S1" "2019-05-20T12:30:00+01:00" (some "On time"),
           sampleTrain "S2" "2019-05-20T12:10:00+01:00" (some "On time")])
    ∧ ByDepartureTime.Less sampleParse
        (sampleTrain "S2" "2019-05-20T12:10:00+01:00" (some "On time"))
        (sampleTrain "S1" "2019-05-20T12:30:00+01:00" (some "On time")) = some true
    ∧ ¬ SortedBy (ByDepartureTime.Less sampleParse)
        [sampleTrain "S1" "2019-05-20T12:30:00+01:00" (some "On time"),
         sampleTrain "S2" "2019-05-20T12:10:00+01:00" (some "On time")] := by
  refine ⟨by decide, by decide, ?_⟩
  intro h
  exact (List.chain'_cons.1 h).1 (by decide)

/-- C6 (amended): a bus ingest (`ingestLocation`) that completes without
error writes a list sorted ascending by `ByDepartureTime`, for no two adjacent
entries `x`, `y` of it does `Less(y, x)` hold, whenever the service numbers of
the cached and new departures that decompose into the same parts are the same
text. A rail ingest (`processRecords`) that completes without error writes the
non-expired departures of the station board in the order of the board. -/
theorem ingest_written_order (parse : String → Option Time)
    (rangeOrder : List Departure → List Departure)
    (hOrder : ∀ l, (rangeOrder l).Perm l)
    (now : Time) (C N : List Departure)
    (hParts : PartsDetermineServiceNumber (C ++ N))
    (format : Time → String) (getAtcoCode : String → Option String)
    (timeLocation : Location) (now1 now2 : Time) (stationBoard : StationBoard) :
    (∀ l, Ingester.ingestLocation parse rangeOrder now C N = Result.ok l →
        SortedBy (ByDepartureTime.Less parse) l)
    ∧ (∀ k l, RailIngester.processRecords parse format getAtcoCode timeLocation now1 now2
          stationBoard = Result.ok (k, l) →
        ∃ ds, RailIngester.transformToInternalModel format now1 timeLocation stationBoard k
            = Result.ok ds ∧ l = notExpired parse now2 ds) := by
  constructor
  · intro l h
    obtain ⟨kept, hk, hs⟩ := ingestLocation_parts parse rangeOrder now C N l h
    apply sortSort_sorted _ kept l _ hs
    apply asymmetricOn_Less
    have hsub := Ingester.removeExpiredDepartures_sublist parse now _ kept hk
    intro a ha b hb
    exact hParts a (mem_combine rangeOrder hOrder C N a (hsub.subset ha))
      b (mem_combine rangeOrder hOrder C N b (hsub.subset hb))
  · intro k l h
    obtain ⟨ds, ht, hr⟩ := processRecords_parts parse format getAtcoCode timeLocation now1
      now2 stationBoard k l h
    exact ⟨ds, ht, RailIngester.removeExpiredDepartures_eq parse now2 ds l hr⟩

set_option maxRecDepth 100000 in
/-- Witness of C6 (amended): the bus ingest of one new departure into a cached
list of two completes with a sorted list, and the rail ingest of a two-service
board completes. -/
theorem ingest_written_order_witness :
    PartsDetermineServiceNumber (cachedDistinct ++ newForJ1)
    ∧ Ingester.ingestLocation sampleParse id (sampleNow 0) cachedDistinct newForJ1
        = Result.ok [sampleBus "J1" "2019-05-20T12:15:00+01:00" "12" "New",
                     sampleBus "J2" "2019-05-20T12:20:00+01:00" "12" "Old second"]
    ∧ (∀ l, Ingester.ingestLocation sampleParse id (sampleNow 0) cachedDistinct newForJ1
          = Result.ok l → SortedBy (ByDepartureTime.Less sampleParse) l)
    ∧ (∀ k l, RailIngester.processRecords sampleParse sampleFormat sampleAtcoCode sampleZone
          (sampleNow 0) (sampleNow 1) boardOutOfOrder = Result.ok (k, l) →
        ∃ ds, RailIngester.transformToInternalModel sampleFormat (sampleNow 0) sampleZone
            boardOutOfOrder k = Result.ok ds ∧ l = notExpired sampleParse (sampleNow 1) ds) :=
  ⟨by decide, by decide,
   ingest_written_order sampleParse id (fun l => List.Perm.refl l) (sampleNow 0)
     cachedDistinct newForJ1 (by decide) sampleFormat sampleAtcoCode sampleZone
     (sampleNow 0) (sampleNow 1) boardOutOfOrder⟩

/-! ## Expiry in the bus ingester -/

/-- C7 (as stated, refuted): a train due 12:10 with status Delayed, seen at
12:30, is not expired under `IsExpired`, yet the bus ingester's
`removeExpiredDepartures` drops it. -/
theorem bus_removeExpired_drops_delayed_train :
    delayedTrain.IsExpired sampleParse (sampleNow 1800) = some false
    ∧ notExpired sampleParse (sampleNow 1800) [delayedTrain] = [delayedTrain]
    ∧ Ingester.removeExpiredDepartures sampleParse (sampleNow 1800) [delayedTrain]
        = Result.ok [] := by
  decide

/-- C7 (amended): for every list of departures with parseable effective times
none of which is a train departure, and every instant `now`, the bus
ingester's `removeExpiredDepartures` returns exactly the departures `d` for
which `d.IsExpired(now)` is false, in their original order; every entry of the
returned list is non-expired under `IsExpired` at `now`. -/
theorem Ingester_removeExpiredDepartures_spec (parse : String → Option Time) (now : Time)
    (l : List Departure)
    (hParse : ∀ d ∈ l, ∃ t, parse (effectiveTime d) = some t)
    (hMode : ∀ d ∈ l, d.JourneyType ≠ Train) :
    Ingester.removeExpiredDepartures parse now l = Result.ok (notExpired parse now l)
      ∧ ∀ d ∈ notExpired parse now l, d.IsExpired parse now = some false := by
  constructor
  · induction l with
    | nil => rfl
    | cons d ds ih =>
      have ihd := ih (fun x hx => hParse x (List.mem_cons_of_mem _ hx))
        (fun x hx => hMode x (List.mem_cons_of_mem _ hx))
      obtain ⟨t, ht⟩ := hParse d (List.mem_cons_self _ _)
      have hm := hMode d (List.mem_cons_self _ _)
      obtain ⟨r, hdt⟩ := departureTime_of_effective parse d t ht
      have hexp : d.IsExpired parse now = some (decide (t.ns < now.ns)) := by
        unfold Departure.IsExpired
        rw [hdt]
        simp only [hm, if_false, Time.Before]
      unfold effectiveTime at ht
      simp only [Ingester.removeExpiredDepartures]
      cases he : d.ExpectedDepartureTime with
      | some e =>
        rw [he] at ht
        simp only [ht, ihd, Result.bind, Time.Before, notExpired, List.filter_cons, hexp]
        by_cases hlt : t.ns < now.ns <;> simp [hlt]
      | none =>
        rw [he] at ht
        simp only [ht, ihd, Result.bind, Time.Before, notExpired, List.filter_cons, hexp]
        by_cases hlt : t.ns < now.ns <;> simp [hlt]
  · intro d hd
    have := (List.mem_filter.1 hd).2
    simpa using this

/-- Witness of C7 (amended): two bus departures, due 12:10 and 12:20, seen at
12:15. -/
theorem Ingester_removeExpiredDepartures_spec_witness :
    Ingester.removeExpiredDepartures sampleParse (sampleNow 900) cachedDistinct
        = Result.ok (notExpired sampleParse (sampleNow 900) cachedDistinct)
      ∧ ∀ d ∈ notExpired sampleParse (sampleNow 900) cachedDistinct,
          d.IsExpired sampleParse (sampleNow 900) = some false :=
  Ingester_removeExpiredDepartures_spec sampleParse (sampleNow 900) cachedDistinct
    (by
      intro d hd
      simp only [cachedDistinct, List.mem_cons, List.mem_singleton, List.not_mem_nil,
        or_false] at hd
      rcases hd with rfl | rfl
      · exact ⟨sampleNow 600, rfl⟩
      · exact ⟨sampleNow 1200, rfl⟩)
    (by decide)

/-! ## Journey refs of a written list -/

theorem DepMap.journeyRef_of_get (m : DepMap) (h : DepMap.WF m) (k : String) (v : Departure)
    (hg : DepMap.get m k = some v) : v.JourneyRef = k := by
  have hmem := (DepMap.get_eq_some_iff m h.1 k v).1 hg
  exact h.2 (k, v) hmem

theorem replaceExisting_fst_journeyRefs (C : List Departure) (m : DepMap) (h : DepMap.WF m) :
    ((replaceExisting C m).1).map (fun d => d.JourneyRef) = C.map (fun d => d.JourneyRef) := by
  induction C generalizing m with
  | nil => simp [replaceExisting]
  | cons c cs ih =>
    simp only [replaceExisting, List.map_cons, ih _ (DepMap.wf_delete m c.JourneyRef h)]
    congr 1
    cases hg : DepMap.get m c.JourneyRef with
    | none => rfl
    | some n => exact DepMap.journeyRef_of_get m h _ n hg

theorem nodup_journeyRefs_combine (rangeOrder : List Departure → List Departure)
    (hOrder : ∀ l, (rangeOrder l).Perm l) (C N : List Departure)
    (hC : (C.map (fun c => c.JourneyRef)).Nodup) :
    ((combineCachedAndNewDepartures rangeOrder C N).map (fun d => d.JourneyRef)).Nodup := by
  have hwf := wf_buildNewDeps N
  have hrestwf : DepMap.WF (replaceExisting C (buildNewDeps N)).2 := by
    rw [replaceExisting_snd]
    exact ⟨List.Nodup.sublist ((List.filter_sublist _).map Prod.fst) hwf.1,
      fun e he => hwf.2 e (List.mem_of_mem_filter he)⟩
  have htail : ∀ d ∈ rangeOrder ((replaceExisting C (buildNewDeps N)).2.map Prod.snd),
      d.JourneyRef ∉ C.map (fun c => c.JourneyRef) := by
    intro d hd
    rw [(hOrder _).mem_iff, List.mem_map] at hd
    obtain ⟨e, he, hed⟩ := hd
    have hk := hrestwf.2 e he
    rw [replaceExisting_snd] at he
    have := (List.mem_filter.1 he).2
    rw [← hed, hk]
    simpa using this
  simp only [combineCachedAndNewDepartures, List.map_append]
  rw [List.nodup_append]
  refine ⟨?_, ?_, ?_⟩
  · rw [replaceExisting_fst_journeyRefs C _ hwf]
    exact hC
  · have hp := (hOrder ((replaceExisting C (buildNewDeps N)).2.map Prod.snd)).map
      (fun d => d.JourneyRef)
    rw [hp.nodup_iff, List.map_map]
    have hkeys : (replaceExisting C (buildNewDeps N)).2.map
        ((fun d : Departure => d.JourneyRef) ∘ Prod.snd)
        = (replaceExisting C (buildNewDeps N)).2.map Prod.fst :=
      List.map_congr_left (fun e he => hrestwf.2 e he)
    rw [hkeys]
    exact hrestwf.1
  · rw [replaceExisting_fst_journeyRefs C _ hwf]
    intro k hk1 hk2
    rw [List.mem_map] at hk2
    obtain ⟨d, hd, hdk⟩ := hk2
    apply htail d hd
    rw [hdk]
    exact hk1

theorem transformService_journeyRef (format : Time → String) (now : Time)
    (localLocation : Location) (generatedAt : Time) (platformAvailable : Bool)
    (locationAtcocode : String) (service : ServiceItem) (d : Departure)
    (h : RailIngester.transformService format now localLocation generatedAt platformAvailable
      locationAtcocode service = Result.ok d) :
    service.ServiceID = some d.JourneyRef := by
  unfold RailIngester.transformService at h
  cases hid : service.ServiceID with
  | none => rw [hid] at h; simp at h
  | some sid =>
    rw [hid] at h
    cases hstd : service.Std with
    | none => rw [hstd] at h; simp at h
    | some std =>
      cases hetd : service.Etd with
      | none => rw [hstd, hetd] at h; simp at h
      | some etd =>
        cases hdest : service.Destination with
        | none => rw [hstd, hetd, hdest] at h; simp at h
        | some locs =>
          cases hop : service.OperatorCode with
          | none => rw [hstd, hetd, hdest, hop] at h; simp at h
          | some op =>
            rw [hstd, hetd, hdest, hop] at h
            simp only at h
            cases hc : ConvertDepartureTime (some now) localLocation std with
            | ok t =>
              rw [hc] at h
              simp only [Result.bind] at h
              cases hcd : RailIngester.convertDestination locs with
              | ok dest =>
                rw [hcd] at h
                simp only [Result.ok.injEq] at h
                rw [← h]
              | error => rw [hcd] at h; simp at h
              | panic => rw [hcd] at h; simp at h
            | error => rw [hc] at h; simp [Result.bind] at h
            | panic => rw [hc] at h; simp [Result.bind] at h

theorem transformServices_journeyRefs (format : Time → String) (now : Time)
    (localLocation : Location) (generatedAt : Time) (platformAvailable : Bool)
    (locationAtcocode : String) (services : List ServiceItem) (ds : List Departure)
    (h : RailIngester.transformServices format now localLocation generatedAt
      platformAvailable locationAtcocode services = Result.ok ds) :
    services.map (fun s => s.ServiceID) = ds.map (fun d => some d.JourneyRef) := by
  induction services generalizing ds with
  | nil =>
    simp only [RailIngester.transformServices, Result.ok.injEq] at h
    rw [← h]
    rfl
  | cons s ss ih =>
    simp only [RailIngester.transformServices] at h
    cases h1 : RailIngester.transformService format now localLocation generatedAt
        platformAvailable locationAtcocode s with
    | ok d =>
      rw [h1] at h
      simp only [Result.bind] at h
      cases h2 : RailIngester.transformServices format now localLocation generatedAt
          platformAvailable locationAtcocode ss with
      | ok rest =>
        rw [h2] at h
        simp only [Result.ok.injEq] at h
        rw [← h]
        simp only [List.map_cons, ih rest h2,
          transformService_journeyRef format now localLocation generatedAt platformAvailable
            locationAtcocode s d h1]
      | error => rw [h2] at h; simp at h
      | panic => rw [h2] at h; simp at h
    | error => rw [h1] at h; simp [Result.bind] at h
    | panic => rw [h1] at h; simp [Result.bind] at h

theorem transformToInternalModel_journeyRefs (format : Time → String) (now : Time)
    (localLocation : Location) (stationBoard : StationBoard) (locationAtcocode : String)
    (ds : List Departure)
    (h : RailIngester.transformToInternalModel format now localLocation stationBoard
      locationAtcocode = Result.ok ds) :
    boardServiceIDs stationBoard = ds.map (fun d => some d.JourneyRef) := by
  unfold RailIngester.transformToInternalModel at h
  unfold boardServiceIDs
  cases hs : stationBoard.TrainServices with
  | none =>
    rw [hs] at h
    simp only [Result.ok.injEq] at h
    rw [← h]
    rfl
  | some services =>
    rw [hs] at h
    exact transformServices_journeyRefs format now localLocation _ _ locationAtcocode
      services ds h

set_option maxRecDepth 100000 in
/-- C8 (as stated, refuted): the rail ingester keeps every service of the
board. For a board that lists service S1 twice, `processRecords` completes and
writes two departures with journey ref S1. -/
theorem rail_ingest_repeats_journeyRef :
    RailIngester.processRecords sampleParse sampleFormat sampleAtcoCode sampleZone
        (sampleNow 0) (sampleNow 1) boardWithRepeatedService
      = Result.ok ("9100MNCRPIC",
          [sampleTrain "S1" "2019-05-20T12:30:00+01:00" (some "On time"),
           sampleTrain "S1" "2019-05-20T12:40:00+01:00" (some "On time")])
    ∧ ¬ ([sampleTrain "S1" "2019-05-20T12:30:00+01:00" (some "On time"),
          sampleTrain "S1" "2019-05-20T12:40:00+01:00" (some "On time")].map
            (fun d => d.JourneyRef)).Nodup := by
  refine ⟨by decide, ?_⟩
  simp [sampleTrain]

/-- C8 (amended): after a successful ingest no two entries of the written list
share a journey ref: for the bus ingester whenever the previously cached list
had no two entries with the same journey ref, and for the rail ingester
whenever no two train services of the station board have the same service
ID. -/
theorem ingest_journeyRefs_distinct (parse : String → Option Time)
    (rangeOrder : List Departure → List Departure)
    (hOrder : ∀ l, (rangeOrder l).Perm l)
    (now : Time) (C N : List Departure)
    (hC : (C.map (fun c => c.JourneyRef)).Nodup)
    (format : Time → String) (getAtcoCode : String → Option String)
    (timeLocation : Location) (now1 now2 : Time) (stationBoard : StationBoard)
    (hBoard : (boardServiceIDs stationBoard).Nodup) :
    (∀ l, Ingester.ingestLocation parse rangeOrder now C N = Result.ok l →
        (l.map (fun d => d.JourneyRef)).Nodup)
    ∧ (∀ k l, RailIngester.processRecords parse format getAtcoCode timeLocation now1 now2
          stationBoard = Result.ok (k, l) →
        (l.map (fun d => d.JourneyRef)).Nodup) := by
  constructor
  · intro l h
    obtain ⟨kept, hk, hs⟩ := ingestLocation_parts parse rangeOrder now C N l h
    have hperm := (sortSort_perm _ kept l hs).map (fun d => d.JourneyRef)
    rw [hperm.nodup_iff]
    have hsub := (Ingester.removeExpiredDepartures_sublist parse now _ kept hk).map
      (fun d => d.JourneyRef)
    exact List.Nodup.sublist hsub (nodup_journeyRefs_combine rangeOrder hOrder C N hC)
  · intro k l h
    obtain ⟨ds, ht, hr⟩ := processRecords_parts parse format getAtcoCode timeLocation now1
      now2 stationBoard k l h
    have hids := transformToInternalModel_journeyRefs format now1 timeLocation stationBoard
      k ds ht
    rw [hids] at hBoard
    have hds : (ds.map (fun d => d.JourneyRef)).Nodup := by
      have : ds.map (fun d => some d.JourneyRef)
          = (ds.map (fun d => d.JourneyRef)).map some := by
        rw [List.map_map]
        rfl
      rw [this] at hBoard
      exact List.Nodup.of_map some hBoard
    rw [RailIngester.removeExpiredDepartures_eq parse now2 ds l hr]
    exact List.Nodup.sublist ((List.filter_sublist ds).map (fun d => d.JourneyRef)) hds

set_option maxRecDepth 100000 in
/-- Witness of C8 (amended): a cached list with two distinct journey refs and a
board with two distinct service IDs; both ingests complete. -/
theorem ingest_journeyRefs_distinct_witness :
    (cachedDistinct.map (fun c => c.JourneyRef)).Nodup
    ∧ (boardServiceIDs boardOutOfOrder).Nodup
    ∧ Ingester.ingestLocation sampleParse id (sampleNow 0) cachedDistinct newForJ1
        = Result.ok [sampleBus "J1" "2019-05-20T12:15:00+01:00" "12" "New",
                     sampleBus "J2" "2019-05-20T12:20:00+01:00" "12" "Old second"]
    ∧ (∀ l, Ingester.ingestLocation sampleParse id (sampleNow 0) cachedDistinct newForJ1
          = Result.ok l → (l.map (fun d => d.JourneyRef)).Nodup)
    ∧ (∀ k l, RailIngester.processRecords sampleParse sampleFormat sampleAtcoCode sampleZone
          (sampleNow 0) (sampleNow 1) boardOutOfOrder = Result.ok (k, l) →
        (l.map (fun d => d.JourneyRef)).Nodup) :=
  ⟨by decide, by decide, by decide,
   ingest_journeyRefs_distinct sampleParse id (fun l => List.Perm.refl l) (sampleNow 0)
     cachedDistinct newForJ1 (by decide) sampleFormat sampleAtcoCode sampleZone
     (sampleNow 0) (sampleNow 1) boardOutOfOrder (by decide)⟩

/-! ## Destination names -/

theorem memoConsistent_set (m : Memo) (store : String → RedisReply) (k : String)
    (v : Option String) (h : MemoConsistent m store)
    (hv : store k = (match v with
      | some s => RedisReply.value s
      | none => RedisReply.nil)) :
    MemoConsistent (Memo.set m k v) store := by
  intro j w hj
  simp only [Memo.set, Memo.get] at hj
  split at hj
  · rename_i hkj
    simp only [Option.some.injEq] at hj
    rw [← hkj, ← hj]
    exact hv
  · exact h j w hj

theorem getCircularServiceDestination_ok (memo : Memo) (store : String → RedisReply)
    (operatorCode serviceNumber : String)
    (hStore : ∀ k, store k ≠ RedisReply.failure) (hMemo : MemoConsistent memo store) :
    ∃ v memo1,
      Ingester.getCircularServiceDestination memo store operatorCode serviceNumber
        = Result.ok (v, memo1)
      ∧ MemoConsistent memo1 store
      ∧ store (operatorCode ++ serviceNumber) = (match v with
          | some s => RedisReply.value s
          | none => RedisReply.nil) := by
  unfold Ingester.getCircularServiceDestination
  simp only
  cases hg : Memo.get memo (operatorCode ++ serviceNumber) with
  | some val => exact ⟨val, memo, rfl, hMemo, hMemo _ val hg⟩
  | none =>
    cases hs : store (operatorCode ++ serviceNumber) with
    | value s =>
      exact ⟨some s, _, rfl, memoConsistent_set memo store _ (some s) hMemo hs, rfl⟩
    | nil =>
      exact ⟨none, _, rfl, memoConsistent_set memo store _ none hMemo hs, rfl⟩
    | failure => exact absurd hs (hStore _)

theorem getLocalityName_ok (memo : Memo) (store : String → RedisReply) (atcocode : String)
    (hStore : ∀ k, store k ≠ RedisReply.failure) (hMemo : MemoConsistent memo store) :
    ∃ v memo1,
      Ingester.getLocalityName memo store atcocode = Result.ok (v, memo1)
      ∧ MemoConsistent memo1 store
      ∧ store atcocode = (match v with
          | some s => RedisReply.value s
          | none => RedisReply.nil) := by
  unfold Ingester.getLocalityName
  cases hg : Memo.get memo atcocode with
  | some val => exact ⟨val, memo, rfl, hMemo, hMemo _ val hg⟩
  | none =>
    cases hs : store atcocode with
    | value s =>
      exact ⟨some s, _, rfl, memoConsistent_set memo store _ (some s) hMemo hs, rfl⟩
    | nil =>
      exact ⟨none, _, rfl, memoConsistent_set memo store _ none hMemo hs, rfl⟩
    | failure => exact absurd hs (hStore _)

set_option maxRecDepth 100000 in
/-- C9 (as stated, refuted): the local caches are made once, when the process
starts, and are kept from one event to the next. Scenario A is handled first
while the circular-services map has no entry, which the cache records; the
map then gets its entry for VISB525. For the next event the rule gives the
second departure the destination Mordor circular, and `updateDestinationNames`
answers from the cache and gives it the locality rule instead, here the
destination as received. -/
theorem stale_cache_keeps_old_destination :
    Ingester.updateDestinationNames earlierCircular sampleLocality emptyMemos scenarioA
        = Result.ok (scenarioA.map (rewriteDestination earlierCircular sampleLocality),
            memosAfterEarlier)
    ∧ (Ingester.updateDestinationNames sampleCircular sampleLocality memosAfterEarlier
          scenarioA).bind (fun r => Result.ok (r.1.map (fun d => d.Destination)))
        = Result.ok ["Hobbiton", "Hobbiton Interchange"]
    ∧ (scenarioA.map (rewriteDestination sampleCircular sampleLocality)).map
          (fun d => d.Destination) = ["Hobbiton", "Mordor circular"] := by
  refine ⟨by decide, by decide, by decide⟩

/-- C9 (amended): for every event and every state of the circular-services
and locality-names maps that answers without a connection failure, given that
every entry of the two local caches of the ingester agrees with the maps (as
the empty caches made at start-up do, and the caches left by an earlier event
while the maps have not changed since), `updateDestinationNames` succeeds and
returns every departure with its destination set to the circular-services entry
for operator code plus service number when that key is present, otherwise to
the locality name for the destination ATCO code when that key is present,
otherwise as received; every other field of every departure is unchanged. The
local caches still agree with the maps afterwards. -/
theorem updateDestinationNames_spec (circularStore localityStore : String → RedisReply)
    (memos : IngesterMemos) (departures : List Departure)
    (hCircular : ∀ k, circularStore k ≠ RedisReply.failure)
    (hLocality : ∀ k, localityStore k ≠ RedisReply.failure)
    (hMemoC : MemoConsistent memos.circularServices circularStore)
    (hMemoL : MemoConsistent memos.localityNames localityStore) :
    ∃ memos1,
      Ingester.updateDestinationNames circularStore localityStore memos departures
        = Result.ok (departures.map (rewriteDestination circularStore localityStore), memos1)
      ∧ MemoConsistent memos1.circularServices circularStore
      ∧ MemoConsistent memos1.localityNames localityStore := by
  induction departures generalizing memos with
  | nil => exact ⟨memos, rfl, hMemoC, hMemoL⟩
  | cons d ds ih =>
    obtain ⟨v, mc, hget, hmc, hv⟩ := getCircularServiceDestination_ok memos.circularServices
      circularStore d.OperatorCode d.ServiceNumber hCircular hMemoC
    simp only [Ingester.updateDestinationNames, hget, Result.bind, List.map_cons]
    cases v with
    | some text =>
      simp only at hv
      obtain ⟨m1, hrest, h1, h2⟩ := ih { memos with circularServices := mc } hmc hMemoL
      refine ⟨m1, ?_, h1, h2⟩
      simp only [hrest, rewriteDestination, hv]
    | none =>
      simp only at hv
      obtain ⟨w, ml, hgetl, hml, hw⟩ := getLocalityName_ok memos.localityNames localityStore
        d.DestinationAtcocode hLocality hMemoL
      simp only [hgetl]
      cases w with
      | some name =>
        simp only at hw
        obtain ⟨m1, hrest, h1, h2⟩ :=
          ih { memos with circularServices := mc, localityNames := ml } hmc hml
        refine ⟨m1, ?_, h1, h2⟩
        simp only [hrest, rewriteDestination, hv, hw]
      | none =>
        simp only at hw
        obtain ⟨m1, hrest, h1, h2⟩ :=
          ih { memos with circularServices := mc, localityNames := ml } hmc hml
        refine ⟨m1, ?_, h1, h2⟩
        simp only [hrest, rewriteDestination, hv, hw]

/-- Witness of C9 (amended): scenario A, from empty local caches; the first departure
gets the locality name Hobbiton, the second the circular-service text. -/
theorem updateDestinationNames_spec_witness :
    (scenarioA.map (rewriteDestination sampleCircular sampleLocality)).map
        (fun d => d.Destination) = ["Hobbiton", "Mordor circular"]
    ∧ ∃ memos1,
      Ingester.updateDestinationNames sampleCircular sampleLocality emptyMemos scenarioA
        = Result.ok (scenarioA.map (rewriteDestination sampleCircular sampleLocality), memos1)
      ∧ MemoConsistent memos1.circularServices sampleCircular
      ∧ MemoConsistent memos1.localityNames sampleLocality :=
  ⟨by decide,
   updateDestinationNames_spec sampleCircular sampleLocality emptyMemos scenarioA
     (by intro k; unfold sampleCircular; split <;> simp)
     (by intro k; unfold sampleLocality; split <;> simp)
     (by intro k v h; simp [emptyMemos, Memo.get] at h)
     (by intro k v h; simp [emptyMemos, Memo.get] at h)⟩

/-! ## Grouping by stop area -/

/-- C10 (evaluation at the failing input): with no parent area in the store
for stop 1800BNIN0C1 and an empty local cache, `groupByStopArea` completes for
an event with one departure at that stop, returning an empty grouping, and
panics for an event with two departures at that stop: the second look-up finds
the cached absent entry and dereferences it. -/
theorem groupByStopArea_panics_on_second_departure :
    (scenarioA.map (fun d => d.LocationAtcocode)) = ["1800BNIN0C1", "1800BNIN0C1"]
    ∧ Ingester.groupByStopArea [] noStopAreas (scenarioA.take 1)
        = Result.ok ([], [("1800BNIN0C1", none)])
    ∧ Ingester.groupByStopArea [] noStopAreas scenarioA = Result.panic := by
  decide

set_option maxRecDepth 100000 in
/-- Scenario D: sorting the twelve service numbers, all at the same time, with
`ByServiceNumber` yields exactly the listed order. Every one of them has
digits, so the comparison never reaches the branch for absent digits. -/
theorem sort_scenarioD_by_service_number :
    (sortSort (ByServiceNumber.Less sampleParse) scenarioD).map
        (fun l => l.map (fun d => d.ServiceNumber))
      = some ["12", "12A", "12B", "123", "123A", "123B",
              "A12", "A12A", "A12B", "B12", "B12A", "B12B"] := by
  decide

/-! ## Location codes of a rewritten list -/

theorem Grouped.mem_get_append (g : Grouped) (k j : String) (d x : Departure) :
    x ∈ Grouped.get (Grouped.append g k d) j ↔ x ∈ Grouped.get g j ∨ (j = k ∧ x = d) := by
  induction g with
  | nil =>
    simp only [Grouped.append, Grouped.get]
    by_cases hkj : k = j
    · subst hkj
      simp
    · have : ¬ j = k := fun h => hkj h.symm
      simp [hkj, this]
  | cons e es ih =>
    simp only [Grouped.append]
    by_cases hek : e.1 = k
    · simp only [hek, if_true, Grouped.get]
      by_cases hkj : k = j
      · subst hkj
        simp [hek]
      · have : ¬ j = k := fun h => hkj h.symm
        have hej : ¬ e.1 = j := by rw [hek]; exact hkj
        simp [hkj, this, hej]
    · simp only [hek, if_false, Grouped.get]
      by_cases hej : e.1 = j
      · have : ¬ j = k := by rw [← hej]; exact hek
        simp [hej, this]
      · simp only [hej, if_false]
        exact ih

theorem mem_groupByStop_fold (ds : List Departure) (g : Grouped) (j : String) (x : Departure)
    (h : x ∈ Grouped.get
      (ds.foldl (fun grouped d => Grouped.append grouped d.LocationAtcocode d) g) j) :
    x ∈ Grouped.get g j ∨ (x ∈ ds ∧ x.LocationAtcocode = j) := by
  induction ds generalizing g with
  | nil => exact Or.inl h
  | cons d rest ih =>
    simp only [List.foldl_cons] at h
    rcases ih _ h with h1 | ⟨h1, h2⟩
    · rcases (Grouped.mem_get_append g _ j d x).1 h1 with h3 | ⟨h3, h4⟩
      · exact Or.inl h3
      · right
        rw [h4]
        exact ⟨List.mem_cons_self _ _, h3.symm⟩
    · exact Or.inr ⟨List.mem_cons_of_mem _ h1, h2⟩

theorem getStopArea_ok (memo memo1 : Memo) (store : String → RedisReply) (atcocode : String)
    (v : Option String) (hMemo : MemoConsistent memo store)
    (h : Ingester.getStopArea memo store atcocode = Result.ok (v, memo1)) :
    MemoConsistent memo1 store
      ∧ ∀ s, v = some s → store atcocode = RedisReply.value s := by
  unfold Ingester.getStopArea at h
  cases hg : Memo.get memo atcocode with
  | some val =>
    rw [hg] at h
    cases val with
    | none => simp at h
    | some s =>
      simp only [Result.ok.injEq, Prod.mk.injEq] at h
      refine ⟨h.2 ▸ hMemo, ?_⟩
      intro s1 hs1
      rw [← h.1] at hs1
      simp only [Option.some.injEq] at hs1
      rw [← hs1]
      exact hMemo _ (some s) hg
  | none =>
    rw [hg] at h
    cases hs : store atcocode with
    | value s =>
      rw [hs] at h
      simp only [Result.ok.injEq, Prod.mk.injEq] at h
      refine ⟨h.2 ▸ memoConsistent_set memo store _ (some s) hMemo hs, ?_⟩
      intro s1 hs1
      rw [← h.1] at hs1
      simp only [Option.some.injEq] at hs1
      rw [← hs1]
    | nil =>
      rw [hs] at h
      simp only [Result.ok.injEq, Prod.mk.injEq] at h
      refine ⟨h.2 ▸ memoConsistent_set memo store _ none hMemo hs, ?_⟩
      intro s1 hs1
      rw [← h.1] at hs1
      simp at hs1
    | failure =>
      rw [hs] at h
      simp at h

theorem mem_groupByStopAreaLoop (store : String → RedisReply) (ds : List Departure)
    (memo memo1 : Memo) (g g1 : Grouped) (hMemo : MemoConsistent memo store)
    (h : Ingester.groupByStopAreaLoop store memo g ds = Result.ok (g1, memo1))
    (j : String) (x : Departure) (hx : x ∈ Grouped.get g1 j) :
    x ∈ Grouped.get g j ∨ (x ∈ ds ∧ store x.LocationAtcocode = RedisReply.value j) := by
  induction ds generalizing memo g with
  | nil =>
    simp only [Ingester.groupByStopAreaLoop, Result.ok.injEq, Prod.mk.injEq] at h
    rw [← h.1] at hx
    exact Or.inl hx
  | cons d rest ih =>
    simp only [Ingester.groupByStopAreaLoop, Ingester.appendDepartureToStopArea] at h
    cases hsa : Ingester.getStopArea memo store d.LocationAtcocode with
    | ok r =>
      obtain ⟨v, m2⟩ := r
      obtain ⟨hm2, hv⟩ := getStopArea_ok memo m2 store d.LocationAtcocode v hMemo hsa
      rw [hsa] at h
      simp only [Result.bind] at h
      cases v with
      | none =>
        simp only [Result.bind] at h
        rcases ih m2 g hm2 h with h1 | ⟨h1, h2⟩
        · exact Or.inl h1
        · exact Or.inr ⟨List.mem_cons_of_mem _ h1, h2⟩
      | some area =>
        simp only [Result.bind] at h
        rcases ih m2 _ hm2 h with h1 | ⟨h1, h2⟩
        · rcases (Grouped.mem_get_append g area j d x).1 h1 with h3 | ⟨h3, h4⟩
          · exact Or.inl h3
          · right
            rw [h4, h3]
            exact ⟨List.mem_cons_self _ _, hv area rfl⟩
        · exact Or.inr ⟨List.mem_cons_of_mem _ h1, h2⟩
    | error => rw [hsa] at h; simp [Result.bind] at h
    | panic => rw [hsa] at h; simp [Result.bind] at h

theorem mem_ingestLocation (parse : String → Option Time)
    (rangeOrder : List Departure → List Departure)
    (hOrder : ∀ l, (rangeOrder l).Perm l) (now : Time) (C N l : List Departure)
    (h : Ingester.ingestLocation parse rangeOrder now C N = Result.ok l)
    (d : Departure) (hd : d ∈ l) : d ∈ C ++ N := by
  obtain ⟨kept, hk, hs⟩ := ingestLocation_parts parse rangeOrder now C N l h
  have h1 := (sortSort_perm _ kept l hs).mem_iff.1 hd
  have h2 := (Ingester.removeExpiredDepartures_sublist parse now _ kept hk).subset h1
  exact mem_combine rangeOrder hOrder C N d h2

set_option maxRecDepth 100000 in
/-- C11 (as stated, refuted): in scenario A the two departures at stop
1800BNIN0C1 are grouped under the stop-area key 1800BNIN, and the list written
under that key from an empty cached list holds entries whose location code is
1800BNIN0C1, not the key. -/
theorem stop_area_list_keeps_stop_codes :
    Ingester.groupByStopArea [] sampleStopAreas scenarioA
        = Result.ok ([("1800BNIN", scenarioA)], [("1800BNIN0C1", some "1800BNIN")])
    ∧ Ingester.ingestLocation sampleParse id (sampleNow 0) []
        (Grouped.get [("1800BNIN", scenarioA)] "1800BNIN") = Result.ok scenarioA
    ∧ ¬ (∀ d ∈ scenarioA, d.LocationAtcocode = "1800BNIN") := by
  refine ⟨by decide, by decide, by decide⟩

set_option maxRecDepth 100000 in
/-- A stop-area cache that no longer agrees with StopsInArea: the cache holds
the parent area 1800BNIN for stop 1800BNIN0C1 from an earlier event, and
StopsInArea now gives 1800NEW. The departures of scenario A are filed under
1800BNIN, and the list written under that key holds entries at a stop whose
parent area in StopsInArea is not 1800BNIN. -/
theorem stale_stop_area_cache_files_under_old_area :
    Ingester.groupByStopArea [("1800BNIN0C1", some "1800BNIN")] reloadedStopAreas scenarioA
        = Result.ok ([("1800BNIN", scenarioA)], [("1800BNIN0C1", some "1800BNIN")])
    ∧ Ingester.ingestLocation sampleParse id (sampleNow 0) []
        (Grouped.get [("1800BNIN", scenarioA)] "1800BNIN") = Result.ok scenarioA
    ∧ ∀ d ∈ scenarioA, reloadedStopAreas d.LocationAtcocode ≠ RedisReply.value "1800BNIN" := by
  refine ⟨by decide, by decide, by decide⟩

/-- C11 (amended): for every stop key `L` under which the bus ingester rewrites
a list while handling an event, given that every entry of the previously cached
list under `L` has location code `L`, every entry of the rewritten list has
location code `L`. For every stop-area key `A`, given that every entry of the
local stop-area cache of the ingester agrees with StopsInArea (as the empty
cache made at start-up does) and that every entry of the previously cached list
under `A` is at a stop whose parent area in StopsInArea is `A`, every entry of
the rewritten list is at a stop whose parent area in StopsInArea is `A`; its
location code is that of the stop. -/
theorem rewritten_list_location_codes (parse : String → Option Time)
    (rangeOrder : List Departure → List Departure)
    (hOrder : ∀ l, (rangeOrder l).Perm l) (now : Time)
    (departures : List Departure) (L A : String)
    (cachedStop cachedArea : List Departure)
    (memo : Memo) (store : String → RedisReply)
    (hMemo : MemoConsistent memo store)
    (hStop : ∀ d ∈ cachedStop, d.LocationAtcocode = L)
    (hArea : ∀ d ∈ cachedArea, store d.LocationAtcocode = RedisReply.value A) :
    (∀ l, Ingester.ingestLocation parse rangeOrder now cachedStop
          (Grouped.get (Ingester.groupByStop departures) L) = Result.ok l →
        ∀ d ∈ l, d.LocationAtcocode = L)
    ∧ (∀ grouped memo1 l,
        Ingester.groupByStopArea memo store departures = Result.ok (grouped, memo1) →
        Ingester.ingestLocation parse rangeOrder now cachedArea (Grouped.get grouped A)
          = Result.ok l →
        ∀ d ∈ l, store d.LocationAtcocode = RedisReply.value A) := by
  constructor
  · intro l h d hd
    rcases List.mem_append.1 (mem_ingestLocation parse rangeOrder hOrder now _ _ l h d hd)
      with h1 | h1
    · exact hStop d h1
    · rcases mem_groupByStop_fold departures [] L d h1 with h2 | ⟨_, h2⟩
      · simp [Grouped.get] at h2
      · exact h2
  · intro grouped memo1 l hg h d hd
    rcases List.mem_append.1 (mem_ingestLocation parse rangeOrder hOrder now _ _ l h d hd)
      with h1 | h1
    · exact hArea d h1
    · rcases mem_groupByStopAreaLoop store departures memo memo1 [] grouped hMemo hg A d h1
        with h2 | ⟨_, h2⟩
      · simp [Grouped.get] at h2
      · exact h2

set_option maxRecDepth 100000 in
/-- Witness of C11 (amended): scenario A from empty cached lists, under the
stop key 1800BNIN0C1 and the stop-area key 1800BNIN; both ingests complete. -/
theorem rewritten_list_location_codes_witness :
    Ingester.ingestLocation sampleParse id (sampleNow 0) []
        (Grouped.get (Ingester.groupByStop scenarioA) "1800BNIN0C1") = Result.ok scenarioA
    ∧ (∀ l, Ingester.ingestLocation sampleParse id (sampleNow 0) []
          (Grouped.get (Ingester.groupByStop scenarioA) "1800BNIN0C1") = Result.ok l →
        ∀ d ∈ l, d.LocationAtcocode = "1800BNIN0C1")
    ∧ (∀ grouped memo1 l,
        Ingester.groupByStopArea [] sampleStopAreas scenarioA = Result.ok (grouped, memo1) →
        Ingester.ingestLocation sampleParse id (sampleNow 0) [] (Grouped.get grouped "1800BNIN")
          = Result.ok l →
        ∀ d ∈ l, sampleStopAreas d.LocationAtcocode = RedisReply.value "1800BNIN") :=
  ⟨by decide,
   rewritten_list_location_codes sampleParse id (fun l => List.Perm.refl l) (sampleNow 0)
     scenarioA "1800BNIN0C1" "1800BNIN" [] [] [] sampleStopAreas
     (by intro k v h; simp [Memo.get] at h)
     (by intro d hd; simp at hd)
     (by intro d hd; simp at hd)⟩

/-! ## Ingesting the same event twice -/

set_option maxRecDepth 100000 in
/-- C12 (evaluation at the failing input): from an empty cached list, the
ingest of two departures at the same time with service numbers 012 and 12
writes them in the order J1, J2; the ingest of the same departures at the same
instant into that list writes J2, J1. `lessByServiceNumber` answers true for
both (012, 12) and (12, 012), so each sort swaps the pair. -/
theorem ingest_twice_swaps_equal_parts :
    (([] : List Departure).map (fun c => c.JourneyRef)).Nodup
    ∧ lessByServiceNumber (sampleBus "J1" "2019-05-20T12:10:00+01:00" "012" "D")
        (sampleBus "J2" "2019-05-20T12:10:00+01:00" "12" "D") = some (some true)
    ∧ lessByServiceNumber (sampleBus "J2" "2019-05-20T12:10:00+01:00" "12" "D")
        (sampleBus "J1" "2019-05-20T12:10:00+01:00" "012" "D") = some (some true)
    ∧ Ingester.ingestLocation sampleParse id (sampleNow 0) [] newWithLeadingZero
        = Result.ok [sampleBus "J1" "2019-05-20T12:10:00+01:00" "012" "D",
                     sampleBus "J2" "2019-05-20T12:10:00+01:00" "12" "D"]
    ∧ Ingester.ingestLocation sampleParse id (sampleNow 0)
        [sampleBus "J1" "2019-05-20T12:10:00+01:00" "012" "D",
         sampleBus "J2" "2019-05-20T12:10:00+01:00" "12" "D"] newWithLeadingZero
        = Result.ok [sampleBus "J2" "2019-05-20T12:10:00+01:00" "12" "D",
                     sampleBus "J1" "2019-05-20T12:10:00+01:00" "012" "D"] := by
  refine ⟨by decide, by decide, by decide, by decide, by decide⟩

/-! ## The presenter's backfill loop -/

theorem redisLRange_nat {α : Type} (l : List α) (s en : Nat) (h : 1 ≤ en) :
    redisLRange l (s : Int) ((en : Int) - 1) = (l.drop s).take (en - s) := by
  unfold redisLRange
  simp only
  have h1 : ¬ ((s : Int) < 0) := by omega
  have h2 : ¬ ((en : Int) - 1 < 0) := by omega
  simp only [h1, h2, if_false]
  by_cases hc : (s : Int) > (en : Int) - 1 ∨ (s : Int) ≥ (l.length : Int)
  · rw [if_pos hc]
    rcases hc with hc | hc
    · have : en - s = 0 := by omega
      rw [this, List.take_zero]
    · have : l.length ≤ s := by omega
      rw [List.drop_eq_nil_of_le this, List.take_nil]
  · rw [if_neg hc]
    have hs : (s : Int).toNat = s := Int.toNat_ofNat s
    rw [hs]
    by_cases hl : (en : Int) - 1 ≥ (l.length : Int)
    · rw [if_pos hl]
      have e1 : ((l.length : Int) - 1 - (s : Int) + 1).toNat = l.length - s := by omega
      rw [e1]
      have hlen : (l.drop s).length = l.length - s := List.length_drop s l
      rw [List.take_of_length_le (by omega), List.take_of_length_le (by omega)]
    · rw [if_neg hl]
      have e1 : ((en : Int) - 1 - (s : Int) + 1).toNat = en - s := by omega
      rw [e1]

theorem Presenter.removeExpired_append (parse : String → Option Time) (now : Time)
    (A B : List Departure) (hA : ∀ d ∈ A, d.IsExpired parse now = some true) :
    Presenter.removeExpiredDepartures parse now (A ++ B)
      = (Presenter.removeExpiredDepartures parse now B).map (fun r => (r.1 + A.length, r.2)) := by
  induction A with
  | nil =>
    simp only [List.nil_append, List.length_nil, Nat.add_zero]
    cases Presenter.removeExpiredDepartures parse now B <;> rfl
  | cons a as ih =>
    have ha := hA a (List.mem_cons_self _ _)
    have ih1 := ih (fun d hd => hA d (List.mem_cons_of_mem _ hd))
    show Presenter.removeExpiredDepartures parse now (a :: (as ++ B)) = _
    rw [Presenter.removeExpiredDepartures]
    simp only [ha]
    rw [ih1]
    cases Presenter.removeExpiredDepartures parse now B with
    | none => rfl
    | some r =>
      simp only [Option.map_some', List.length_cons, Option.some.injEq, Prod.mk.injEq, and_true]
      omega

theorem Presenter.removeExpired_head (parse : String → Option Time) (now : Time)
    (B : List Departure) (hB : ∀ d, B.head? = some d → d.IsExpired parse now = some false) :
    Presenter.removeExpiredDepartures parse now B = some (0, B) := by
  cases B with
  | nil => rfl
  | cons b bs =>
    have := hB b rfl
    simp only [Presenter.removeExpiredDepartures, this]

theorem head_take_of_head {α : Type} (R : List α) (k : Nat) (d : α)
    (h : (R.take k).head? = some d) : R.head? = some d := by
  cases R with
  | nil => simp at h
  | cons r rs =>
    cases k with
    | zero => simp at h
    | succ k => simpa using h

theorem Presenter.backfill_result (parse : String → Option Time) (now : Time)
    (P R : List Departure) (T : Nat) (hT : 0 < T)
    (hP : ∀ d ∈ P, d.IsExpired parse now = some true)
    (hR : ∀ d, R.head? = some d → d.IsExpired parse now = some false)
    (fuel s : Nat) (hs : s ≤ P.length) (hfuel : P.length - s + 2 ≤ fuel) :
    Presenter.backfill parse now (P ++ R) (T : Int) fuel [] (s : Int) ((s + T : Nat) : Int)
      = some (Result.ok (R.take T)) := by
  induction fuel generalizing s with
  | zero => omega
  | succ f ih =>
    have hwin : Presenter.assignNextDepartures (P ++ R) [] (s : Int) ((s + T : Nat) : Int)
        = (P.drop s ++ R).take T := by
      unfold Presenter.assignNextDepartures
      rw [redisLRange_nat (P ++ R) s (s + T) (by omega), List.nil_append,
        List.drop_append_of_le_length hs]
      congr 1
      omega
    have hRk : ∀ k, Presenter.removeExpiredDepartures parse now (R.take k)
        = some (0, R.take k) :=
      fun k => Presenter.removeExpired_head parse now (R.take k)
        (fun d hd => hR d (head_take_of_head R k d hd))
    rw [Presenter.backfill]
    simp only [hwin]
    by_cases hA : s + T ≤ P.length
    · -- the whole window is expired
      have hlen : T ≤ (P.drop s).length := by rw [List.length_drop]; omega
      have hW : (P.drop s ++ R).take T = (P.drop s).take T ++ [] := by
        rw [List.take_append_of_le_length hlen, List.append_nil]
      have hexp : ∀ d ∈ (P.drop s).take T, d.IsExpired parse now = some true :=
        fun d hd => hP d (List.mem_of_mem_drop (List.mem_of_mem_take hd))
      have hWlen : ((P.drop s).take T).length = T := by
        rw [List.length_take]; omega
      rw [hW, Presenter.removeExpired_append parse now _ [] hexp]
      simp only [Presenter.removeExpiredDepartures, Option.map_some', hWlen, Nat.zero_add,
        List.length_nil]
      have hne : ¬ (T = 0 ∨ ((0 : Nat) : Int) = (T : Int)) := by omega
      rw [if_neg hne]
      have e1 : (s : Int) + (T : Int) = ((s + T : Nat) : Int) := by push_cast; rfl
      have e2 : ((s + T : Nat) : Int) + (T : Int) = ((s + T + T : Nat) : Int) := by
        push_cast; rfl
      rw [e1, e2]
      exact ih (s + T) hA (by omega)
    · -- the window reaches the first departure that is not expired
      have hdl : (P.drop s).length = P.length - s := List.length_drop s P
      have hW : (P.drop s ++ R).take T = P.drop s ++ R.take (T - (P.length - s)) := by
        rw [List.take_append_eq_append_take, hdl, List.take_of_length_le (by omega)]
      have hexp : ∀ d ∈ P.drop s, d.IsExpired parse now = some true :=
        fun d hd => hP d (List.mem_of_mem_drop hd)
      rw [hW, Presenter.removeExpired_append parse now _ _ hexp, hRk]
      simp only [Option.map_some', Nat.zero_add, hdl]
      by_cases hr : P.length - s = 0
      · have hk : T - (P.length - s) = T := by omega
        rw [if_pos (Or.inl hr), hk]
      · have hlt : (R.take (T - (P.length - s))).length < T := by
          rw [List.length_take]; omega
        have hne : ¬ (P.length - s = 0
            ∨ ((R.take (T - (P.length - s))).length : Int) = (T : Int)) := by omega
        rw [if_neg hne]
        obtain ⟨g, hg⟩ : ∃ g, f = g + 1 := ⟨f - 1, by omega⟩
        rw [hg, Presenter.backfill]
        have e1 : (s : Int) + (T : Int) = ((s + T : Nat) : Int) := by push_cast; rfl
        have e2 : ((s + T : Nat) : Int) + ((P.length - s : Nat) : Int)
            = ((s + T + (P.length - s) : Nat) : Int) := by push_cast; rfl
        have hwin2 : Presenter.assignNextDepartures (P ++ R) (R.take (T - (P.length - s)))
            ((s : Int) + (T : Int)) (((s + T : Nat) : Int) + ((P.length - s : Nat) : Int))
            = R.take T := by
          unfold Presenter.assignNextDepartures
          rw [e1, e2, redisLRange_nat (P ++ R) (s + T) (s + T + (P.length - s)) (by omega),
            List.drop_append_eq_append_drop, List.drop_eq_nil_of_le (by omega),
            List.nil_append]
          have e3 : s + T - P.length = T - (P.length - s) := by omega
          have e4 : s + T + (P.length - s) - (s + T) = P.length - s := by omega
          rw [e3, e4, ← List.take_add]
          congr 1
          omega
        simp only [hwin2, hRk, true_or, if_true]


theorem transformDepartureTime_ok (parse : String → Option Time) (now : Time) (d : Departure)
    (b : Bool) (h : d.IsExpired parse now = some b) :
    ∃ s, Presenter.transformDepartureTime parse now d = Result.ok s := by
  unfold Departure.IsExpired at h
  unfold Presenter.transformDepartureTime
  cases hd : d.DepartureTime parse with
  | none => rw [hd] at h; simp at h
  | some p =>
    obtain ⟨depTime, isRealTime⟩ := p
    simp only
    by_cases hr : isRealTime = true
    · rw [if_pos hr]
      by_cases hw : Int.tdiv (depTime.Sub now) nsPerMinute = 0
      · exact ⟨_, by rw [if_pos hw]⟩
      · exact ⟨_, by rw [if_neg hw]⟩
    · exact ⟨_, by rw [if_neg hr]⟩

theorem Presenter.displays_ok (parse : String → Option Time) (now : Time)
    (deps : List Departure) (h : ∀ d ∈ deps, ∃ b, d.IsExpired parse now = some b) :
    ∃ out, Presenter.displays parse now deps = Result.ok out ∧ out.length = deps.length := by
  induction deps with
  | nil => exact ⟨[], rfl, rfl⟩
  | cons d ds ih =>
    obtain ⟨b, hb⟩ := h d (List.mem_cons_self _ _)
    obtain ⟨s, hs⟩ := transformDepartureTime_ok parse now d b hb
    obtain ⟨out, ho, hl⟩ := ih (fun x hx => h x (List.mem_cons_of_mem _ hx))
    refine ⟨{ DepartureTime := s
              Stand := d.Stand
              ServiceNumber := d.ServiceNumber
              Destination := d.Destination
              DepartureStatus := d.DepartureStatus } :: out, ?_, ?_⟩
    · rw [Presenter.displays, hs]
      simp only [Result.bind, ho]
    · simp [hl]

theorem GetJourneyType_of_valid (atcocode : String)
    (h : Presenter.validateAtcocode atcocode = true) :
    ∃ j, GetJourneyType atcocode = some j := by
  unfold Presenter.validateAtcocode at h
  simp only [Bool.and_eq_true, decide_eq_true_eq, List.length_map] at h
  have h3 : ¬ atcocode.data.length < 3 := by omega
  unfold GetJourneyType
  rw [if_neg h3]
  by_cases h1 : atcocode.data.take 3 = ['9', '1', '0']
  · exact ⟨_, by rw [if_pos h1]⟩
  · rw [if_neg h1]
    by_cases h2 : atcocode.data.take 3 = ['9', '4', '0']
    · exact ⟨_, by rw [if_pos h2]⟩
    · exact ⟨_, by rw [if_neg h2]⟩

/-- C13, counterexample: the cached rail list holds a train due 12:10 that is
Delayed, then a train due 12:15 that is on time. At 12:20 the second train is
expired, yet the handler returns both: only the expired departures at the head
of the list are dropped. -/
theorem presenter_returns_expired_after_delayed :
    Presenter.Handler sampleParse (sampleNow 1200) delayedThenOnTime "9100MNCRPIC" 3 4
      = some (Result.ok
          { JourneyType := Train
            Departures :=
              [{ DepartureTime := "12:10", Stand := none, ServiceNumber := "",
                 Destination := "London Euston", DepartureStatus := some "Delayed" },
               { DepartureTime := "12:15", Stand := none, ServiceNumber := "",
                 Destination := "London Euston", DepartureStatus := some "On time" }] })
    ∧ (sampleTrain "S2" "2019-05-20T12:15:00+01:00" (some "On time")).IsExpired
        sampleParse (sampleNow 1200) = some true := by
  set_option maxRecDepth 100000 in decide

/-- C13, amended: when the cached list is a run of expired departures followed
by departures none of which is expired (as in a list sorted by departure time
without Delayed trains ahead of expired ones), then for a valid ATCO code and
`top > 0` the handler returns a response; it displays the first `top`
departures that are not expired: at most `top`, none of them expired. -/
theorem Presenter_Handler_spec (parse : String → Option Time) (now : Time)
    (E R : List Departure) (atcocode : String) (top : Int)
    (hcode : Presenter.validateAtcocode atcocode = true) (htop : 0 < top)
    (hE : ∀ d ∈ E, d.IsExpired parse now = some true)
    (hR : ∀ d ∈ R, d.IsExpired parse now = some false) :
    ∃ journeyType out,
      Presenter.Handler parse now (E ++ R) atcocode top ((E ++ R).length + 2)
        = some (Result.ok { JourneyType := journeyType, Departures := out })
      ∧ GetJourneyType atcocode = some journeyType
      ∧ Presenter.displays parse now (R.take top.toNat) = Result.ok out
      ∧ (out.length : Int) ≤ top
      ∧ out.length = (R.take top.toNat).length
      ∧ ∀ d ∈ R.take top.toNat, d.IsExpired parse now = some false := by
  obtain ⟨T, rfl⟩ : ∃ T : Nat, top = (T : Int) := ⟨top.toNat, by omega⟩
  have hT : 0 < T := by omega
  obtain ⟨j, hj⟩ := GetJourneyType_of_valid atcocode hcode
  have hkeep : ∀ d ∈ R.take T, d.IsExpired parse now = some false :=
    fun d hd => hR d (List.mem_of_mem_take hd)
  obtain ⟨out, ho, hl⟩ := Presenter.displays_ok parse now (R.take T)
    (fun d hd => ⟨false, hkeep d hd⟩)
  have hb := Presenter.backfill_result parse now E R T hT hE
    (fun d hd => hR d (List.mem_of_mem_head? hd)) ((E ++ R).length + 2) 0 (Nat.zero_le _)
    (by rw [List.length_append]; omega)
  simp only [Nat.zero_add, Nat.cast_zero] at hb
  refine ⟨j, out, ?_, hj, ?_, ?_, ?_, ?_⟩
  · unfold Presenter.Handler
    have hv : Presenter.validateTop (T : Int) = true := by
      unfold Presenter.validateTop
      exact decide_eq_true (by omega)
    simp only [hcode, hv, not_true_eq_false, if_false, hb, hj, ho, Result.bind]
  · simpa using ho
  · rw [hl, List.length_take]; omega
  · simpa using hl
  · simpa using hkeep

/-- Witness of `Presenter_Handler_spec`: a bus due 12:10 that has gone, then
buses due 12:20 and 12:30, asked for at 12:15 with `top = 1`. -/
theorem Presenter_Handler_spec_witness :
    ∃ journeyType out,
      Presenter.Handler sampleParse (sampleNow 900)
          ([sampleBus "J0" "2019-05-20T12:10:00+01:00" "1" "Bolton"]
            ++ [sampleBus "J1" "2019-05-20T12:20:00+01:00" "2" "Bury",
                sampleBus "J2" "2019-05-20T12:30:00+01:00" "3" "Leigh"])
          "1800BNIN0C1" 1
          (([sampleBus "J0" "2019-05-20T12:10:00+01:00" "1" "Bolton"]
            ++ [sampleBus "J1" "2019-05-20T12:20:00+01:00" "2" "Bury",
                sampleBus "J2" "2019-05-20T12:30:00+01:00" "3" "Leigh"]).length + 2)
        = some (Result.ok { JourneyType := journeyType, Departures := out })
      ∧ GetJourneyType "1800BNIN0C1" = some journeyType
      ∧ Presenter.displays sampleParse (sampleNow 900)
          ([sampleBus "J1" "2019-05-20T12:20:00+01:00" "2" "Bury",
            sampleBus "J2" "2019-05-20T12:30:00+01:00" "3" "Leigh"].take (1 : Int).toNat)
          = Result.ok out
      ∧ (out.length : Int) ≤ 1
      ∧ out.length = ([sampleBus "J1" "2019-05-20T12:20:00+01:00" "2" "Bury",
            sampleBus "J2" "2019-05-20T12:30:00+01:00" "3" "Leigh"].take (1 : Int).toNat).length
      ∧ ∀ d ∈ [sampleBus "J1" "2019-05-20T12:20:00+01:00" "2" "Bury",
            sampleBus "J2" "2019-05-20T12:30:00+01:00" "3" "Leigh"].take (1 : Int).toNat,
          d.IsExpired sampleParse (sampleNow 900) = some false :=
  Presenter_Handler_spec sampleParse (sampleNow 900)
    [sampleBus "J0" "2019-05-20T12:10:00+01:00" "1" "Bolton"]
    [sampleBus "J1" "2019-05-20T12:20:00+01:00" "2" "Bury",
     sampleBus "J2" "2019-05-20T12:30:00+01:00" "3" "Leigh"]
    "1800BNIN0C1" 1 (by decide) (by decide)
    (by set_option maxRecDepth 100000 in decide)
    (by set_option maxRecDepth 100000 in decide)


/-- C14: for a departure whose time parses, `transformDepartureTime` returns,
when the departure is real-time (an expected time is set), "Approaching" for a
wait of 0, "1 min" for a wait of 1 and "<n> mins" for any other wait `n`,
where the wait is the duration from `now` to the expected time in whole
minutes, rounded toward zero (it is 0 exactly when the two are less than a
minute apart); when it is not real-time, the aimed time as HH:MM. -/
theorem transformDepartureTime_spec (parse : String → Option Time) (now : Time)
    (dep : Departure) (depTime : Time) (isRealTime : Bool)
    (h : dep.DepartureTime parse = some (depTime, isRealTime)) :
    (isRealTime = true → ∃ e, dep.ExpectedDepartureTime = some e ∧ parse e = some depTime)
    ∧ (isRealTime = false →
        dep.ExpectedDepartureTime = none ∧ parse dep.AimedDepartureTime = some depTime)
    ∧ (Int.tdiv (depTime.Sub now) nsPerMinute = 0
        ↔ -nsPerMinute < depTime.Sub now ∧ depTime.Sub now < nsPerMinute)
    ∧ Presenter.transformDepartureTime parse now dep
      = Result.ok
          (if isRealTime = true then
            if Int.tdiv (depTime.Sub now) nsPerMinute = 0 then "Approaching"
            else if Int.tdiv (depTime.Sub now) nsPerMinute = 1 then "1 min"
            else goItoa (Int.tdiv (depTime.Sub now) nsPerMinute) ++ " " ++ "mins"
          else formatHHMM depTime) := by
  refine ⟨?_, ?_, ?_, ?_⟩
  · intro hr
    unfold Departure.DepartureTime at h
    cases he : dep.ExpectedDepartureTime with
    | none =>
      rw [he] at h
      simp only [Option.map_eq_some', Prod.mk.injEq] at h
      obtain ⟨t, _, _, hf⟩ := h
      rw [hr] at hf
      exact absurd hf (by decide)
    | some e =>
      rw [he] at h
      simp only [Option.map_eq_some', Prod.mk.injEq] at h
      obtain ⟨t, ht, rfl, _⟩ := h
      exact ⟨e, rfl, ht⟩
  · intro hr
    unfold Departure.DepartureTime at h
    cases he : dep.ExpectedDepartureTime with
    | none =>
      rw [he] at h
      simp only [Option.map_eq_some', Prod.mk.injEq] at h
      obtain ⟨t, ht, rfl, _⟩ := h
      exact ⟨rfl, ht⟩
    | some e =>
      rw [he] at h
      simp only [Option.map_eq_some', Prod.mk.injEq] at h
      obtain ⟨t, _, _, hf⟩ := h
      rw [hr] at hf
      exact absurd hf (by decide)
  · generalize depTime.Sub now = d
    have hm : nsPerMinute = 60000000000 := by decide
    rw [hm]
    rcases Int.le_total 0 d with h0 | h0
    · rw [Int.tdiv_eq_ediv h0 (by decide)]
      omega
    · have h5 : Int.tdiv (-d) 60000000000 = (-d) / 60000000000 :=
        Int.tdiv_eq_ediv (by omega) (by decide)
      rw [Int.neg_tdiv] at h5
      omega
  · unfold Presenter.transformDepartureTime
    rw [h]
    simp only
    by_cases hr : isRealTime = true
    · rw [if_pos hr, if_pos hr]
      by_cases h0 : Int.tdiv (depTime.Sub now) nsPerMinute = 0
      · rw [if_pos h0, if_pos h0]
      · rw [if_neg h0, if_neg h0]
        by_cases h1 : Int.tdiv (depTime.Sub now) nsPerMinute = 1
        · rw [if_pos h1, h1]
          simp only [ne_eq, not_true_eq_false, if_false]
          rfl
        · rw [if_neg h1]
          simp only [ne_eq, h1, not_false_eq_true, if_true]
          rfl
    · rw [if_neg hr, if_neg hr]

/-- Witness of `transformDepartureTime_spec`: a bus expected at 12:10, at
12:09. -/
theorem transformDepartureTime_spec_witness :
    Presenter.transformDepartureTime sampleParse (sampleNow 540)
        { sampleBus "J1" "2019-05-20T12:05:00+01:00" "1" "Bury" with
          ExpectedDepartureTime := some "2019-05-20T12:10:00+01:00" }
      = Result.ok "1 min" :=
  ((transformDepartureTime_spec sampleParse (sampleNow 540)
      { sampleBus "J1" "2019-05-20T12:05:00+01:00" "1" "Bury" with
        ExpectedDepartureTime := some "2019-05-20T12:10:00+01:00" }
      { ns := 1558350600 * nsPerSecond, loc := sampleZone } true rfl).2.2.2).trans
    (by decide)


theorem Time.Sub_gt_two_hours (t u : Time) :
    t.Sub u > 2 * nsPerHour ↔ t.ns - u.ns > 2 * nsPerHour := by
  have hh : (2 : Int) * nsPerHour = 7200000000000 := by decide
  rw [hh]
  unfold Time.Sub maxDuration minDuration
  simp only
  split_ifs <;> omega

theorem matchesHHMM_mk (h1 h2 m1 m2 : Char) (hh1 : isDigit09 h1 = true)
    (hh2 : isDigit09 h2 = true) (hm1 : isDigit09 m1 = true) (hm2 : isDigit09 m2 = true) :
    matchesHHMM (String.mk [h1, h2, ':', m1, m2]) = true := by
  simp [matchesHHMM, hh1, hh2, hm1, hm2]

theorem ConvertDepartureTime_eq (now : Time) (Z : Location) (h1 h2 m1 m2 : Char)
    (hh1 : isDigit09 h1 = true) (hh2 : isDigit09 h2 = true)
    (hm1 : isDigit09 m1 = true) (hm2 : isDigit09 m2 = true) :
    ConvertDepartureTime (some now) Z (String.mk [h1, h2, ':', m1, m2])
      = Result.ok
          (if now.ns - (goDate now.date.1 now.date.2.1 now.date.2.2
                (atoiDigits [h1, h2]) (atoiDigits [m1, m2]) Z).ns > 2 * nsPerHour then
            goDate now.date.1 now.date.2.1 (now.date.2.2 + 1)
              (atoiDigits [h1, h2]) (atoiDigits [m1, m2]) Z
          else if (goDate now.date.1 now.date.2.1 now.date.2.2
                (atoiDigits [h1, h2]) (atoiDigits [m1, m2]) Z).ns - now.ns > 2 * nsPerHour then
            goDate now.date.1 now.date.2.1 (now.date.2.2 - 1)
              (atoiDigits [h1, h2]) (atoiDigits [m1, m2]) Z
          else
            goDate now.date.1 now.date.2.1 now.date.2.2
              (atoiDigits [h1, h2]) (atoiDigits [m1, m2]) Z) := by
  have hm := matchesHHMM_mk h1 h2 m1 m2 hh1 hh2 hm1 hm2
  have hs : splitHHMM (String.mk [h1, h2, ':', m1, m2])
      = (atoiDigits [h1, h2], atoiDigits [m1, m2]) := rfl
  unfold ConvertDepartureTime
  simp only [hm, not_true_eq_false, if_false, hs, Time.Sub_gt_two_hours]
  split_ifs <;> rfl

/-- C15: for an instant `now`, a zone `Z` and a string of two digits, a colon
and two digits, `ConvertDepartureTime` takes as candidate the instant that
`time.Date` gives for the calendar date of `now` (as `now` presents it) at
HH:MM in `Z`; it returns HH:MM in `Z` on the following calendar day when
`now - candidate > 2h`, HH:MM in `Z` on the previous calendar day when
`candidate - now > 2h`, and the candidate otherwise. -/
theorem ConvertDepartureTime_spec (now : Time) (Z : Location) (h1 h2 m1 m2 : Char)
    (hh1 : isDigit09 h1 = true) (hh2 : isDigit09 h2 = true)
    (hm1 : isDigit09 m1 = true) (hm2 : isDigit09 m2 = true) :
    ConvertDepartureTime (some now) Z (String.mk [h1, h2, ':', m1, m2])
      = Result.ok
          (if now.ns - (goDate now.date.1 now.date.2.1 now.date.2.2
                (atoiDigits [h1, h2]) (atoiDigits [m1, m2]) Z).ns > 2 * nsPerHour then
            goDate now.date.1 now.date.2.1 (now.date.2.2 + 1)
              (atoiDigits [h1, h2]) (atoiDigits [m1, m2]) Z
          else if (goDate now.date.1 now.date.2.1 now.date.2.2
                (atoiDigits [h1, h2]) (atoiDigits [m1, m2]) Z).ns - now.ns > 2 * nsPerHour then
            goDate now.date.1 now.date.2.1 (now.date.2.2 - 1)
              (atoiDigits [h1, h2]) (atoiDigits [m1, m2]) Z
          else
            goDate now.date.1 now.date.2.1 now.date.2.2
              (atoiDigits [h1, h2]) (atoiDigits [m1, m2]) Z) :=
  ConvertDepartureTime_eq now Z h1 h2 m1 m2 hh1 hh2 hm1 hm2

/-- Witness of `ConvertDepartureTime_spec`: at 12:00 BST on 2019-05-20 the
string 15:30 is read as 15:30 on the previous day, 2019-05-19 15:30 BST. -/
theorem ConvertDepartureTime_spec_witness :
    ∃ t, ConvertDepartureTime (some (sampleNow 0)) sampleZone "15:30" = Result.ok t
      ∧ t.ns = 1558276200 * nsPerSecond :=
  ⟨_, ConvertDepartureTime_spec (sampleNow 0) sampleZone '1' '5' '3' '0'
      (by decide) (by decide) (by decide) (by decide), by decide⟩


theorem yoe_bounds_aux (a c q d y e f : Int) (h0 : 0 ≤ a) (h1 : a ≤ 146096)
    (hc : 1460 * c ≤ a ∧ a < 1460 * c + 1460)
    (hq : 36524 * q ≤ a ∧ a < 36524 * q + 36524)
    (hd : 146096 * d ≤ a ∧ a < 146096 * d + 146096)
    (hy : 365 * y ≤ a - c + q - d ∧ a - c + q - d < 365 * y + 365)
    (he : 4 * e ≤ y ∧ y < 4 * e + 4)
    (hf : 100 * f ≤ y ∧ y < 100 * f + 100) :
    0 ≤ y ∧ y ≤ 399 ∧ 0 ≤ a - (365 * y + e - f) ∧ a - (365 * y + e - f) ≤ 365 := by
  have hb : 0 ≤ y ∧ y ≤ 399 := by omega
  obtain ⟨hb0, hb1⟩ := hb
  refine ⟨hb0, hb1, ?_⟩
  have hqb : 0 ≤ q ∧ q ≤ 4 := by omega
  have hfb : 0 ≤ f ∧ f ≤ 3 := by omega
  obtain ⟨hq0, hq1⟩ := hqb
  obtain ⟨hf0, hf1⟩ := hfb
  interval_cases q <;> interval_cases f <;> omega

theorem yoe_bounds (doe : Int) (h0 : 0 ≤ doe) (h1 : doe ≤ 146096) :
    0 ≤ (doe - doe / 1460 + doe / 36524 - doe / 146096) / 365
    ∧ (doe - doe / 1460 + doe / 36524 - doe / 146096) / 365 ≤ 399
    ∧ 0 ≤ doe - (365 * ((doe - doe / 1460 + doe / 36524 - doe / 146096) / 365)
          + (doe - doe / 1460 + doe / 36524 - doe / 146096) / 365 / 4
          - (doe - doe / 1460 + doe / 36524 - doe / 146096) / 365 / 100)
    ∧ doe - (365 * ((doe - doe / 1460 + doe / 36524 - doe / 146096) / 365)
          + (doe - doe / 1460 + doe / 36524 - doe / 146096) / 365 / 4
          - (doe - doe / 1460 + doe / 36524 - doe / 146096) / 365 / 100) ≤ 365 :=
  yoe_bounds_aux doe (doe / 1460) (doe / 36524) (doe / 146096)
    ((doe - doe / 1460 + doe / 36524 - doe / 146096) / 365)
    ((doe - doe / 1460 + doe / 36524 - doe / 146096) / 365 / 4)
    ((doe - doe / 1460 + doe / 36524 - doe / 146096) / 365 / 100)
    h0 h1 (by omega) (by omega) (by omega) (by omega) (by omega) (by omega)

theorem daysFromCivil_of_parts (era yoe doy mp : Int) (hy0 : 0 ≤ yoe) (hy1 : yoe ≤ 399)
    (hmp0 : 0 ≤ mp) (hmp1 : mp ≤ 11) :
    daysFromCivil
        (if (if mp < 10 then mp + 3 else mp - 9) ≤ 2 then yoe + era * 400 + 1
          else yoe + era * 400)
        (if mp < 10 then mp + 3 else mp - 9)
        (doy - (153 * mp + 2) / 5 + 1)
      = era * 146097 + (yoe * 365 + yoe / 4 - yoe / 100 + doy) - 719468 := by
  have e1 : (yoe + era * 400) / 400 = era := by omega
  have e2 : yoe + era * 400 - era * 400 = yoe := by omega
  unfold daysFromCivil
  simp only
  by_cases h : mp < 10
  · have h2 : ¬ mp + 3 ≤ 2 := by omega
    have h3 : mp + 3 > 2 := by omega
    simp only [h, h2, h3, if_true, if_false, e1, e2, Int.add_sub_cancel]
    omega
  · have h2 : mp - 9 ≤ 2 := by omega
    have h3 : ¬ mp - 9 > 2 := by omega
    have e3 : mp - 9 + 9 = mp := by omega
    simp only [h, h2, h3, if_true, if_false, e1, e2, e3, Int.add_sub_cancel]
    omega

theorem daysFromCivil_civilFromDays (z : Int) :
    daysFromCivil (civilFromDays z).1 (civilFromDays z).2.1 (civilFromDays z).2.2 = z := by
  have hb := yoe_bounds (z + 719468 - (z + 719468) / 146097 * 146097) (by omega) (by omega)
  unfold civilFromDays
  simp only
  rw [daysFromCivil_of_parts _ _ _ _ hb.1 hb.2.1 (by omega) (by omega)]
  omega

theorem daysFromCivil_add_day (y m d j : Int) :
    daysFromCivil y m (d + j) = daysFromCivil y m d + j := by
  unfold daysFromCivil
  simp only
  split_ifs <;> omega


theorem twoDigits_spec : ∀ n, n < 100 →
    atoiDigits (twoDigits n) = n ∧ (twoDigits n).all isDigit09 = true := by
  decide

theorem goDate_const (Z : Location) (o : Int) (hZ : ∀ u, (Z.lookup u).offset = o)
    (y m d h mi : Int) :
    (goDate y m d h mi Z).ns
      = (daysFromCivil y m d * 86400 + h * 3600 + mi * 60 - o) * nsPerSecond
    ∧ (goDate y m d h mi Z).loc = Z := by
  unfold goDate
  simp only [hZ, and_true]
  by_cases ho : o = 0
  · simp [ho]
  · simp [ho]

theorem formatHHMM_eq (t : Time) :
    formatHHMM t
      = String.mk
          [Char.ofNat (48 + ((t.unix + (t.loc.lookup t.unix).offset) % 86400).toNat / 3600 / 10),
           Char.ofNat (48 + ((t.unix + (t.loc.lookup t.unix).offset) % 86400).toNat / 3600 % 10),
           ':',
           Char.ofNat
            (48 + ((t.unix + (t.loc.lookup t.unix).offset) % 86400).toNat % 3600 / 60 / 10),
           Char.ofNat
            (48 + ((t.unix + (t.loc.lookup t.unix).offset) % 86400).toNat % 3600 / 60 % 10)] :=
  rfl


theorem convert_roundtrip_arith (tns nns o oN Dn : Int) (hh mm sod : Nat)
    (hwall : (tns + o * 1000000000) % 60000000000 = 0)
    (h1 : nns - tns ≤ 7200000000000) (h2 : tns - nns ≤ 7200000000000)
    (ho1 : -79200 < oN - o) (ho2 : oN - o < 79200)
    (hDn : Dn = (nns / 1000000000 + oN) / 86400)
    (hS : (sod : Int) = (tns / 1000000000 + o) % 86400)
    (hhh : hh = sod / 3600) (hmm : mm = sod % 3600 / 60) :
    (if nns - (Dn * 86400 + (hh : Int) * 3600 + (mm : Int) * 60 - o) * 1000000000
          > 7200000000000 then
        ((Dn + 1) * 86400 + (hh : Int) * 3600 + (mm : Int) * 60 - o) * 1000000000
      else if (Dn * 86400 + (hh : Int) * 3600 + (mm : Int) * 60 - o) * 1000000000 - nns
          > 7200000000000 then
        ((Dn - 1) * 86400 + (hh : Int) * 3600 + (mm : Int) * 60 - o) * 1000000000
      else (Dn * 86400 + (hh : Int) * 3600 + (mm : Int) * 60 - o) * 1000000000) = tns := by
  have hsod : hh * 3600 + mm * 60 = sod := by omega
  have hsodI : (hh : Int) * 3600 + (mm : Int) * 60 = (sod : Int) := by exact_mod_cast hsod
  split_ifs <;> omega

theorem ConvertDepartureTime_returns (Z : Location) (o : Int) (t now : Time)
    (hZ : ∀ u, (Z.lookup u).offset = o)
    (hwall : (t.ns + o * nsPerSecond) % nsPerMinute = 0)
    (h1 : now.ns - t.ns ≤ 2 * nsPerHour) (h2 : t.ns - now.ns ≤ 2 * nsPerHour)
    (ho1 : -79200 < (now.loc.lookup now.unix).offset - o)
    (ho2 : (now.loc.lookup now.unix).offset - o < 79200) :
    ∃ r, ConvertDepartureTime (some now) Z (formatHHMM (t.In Z)) = Result.ok r
      ∧ r.ns = t.ns ∧ r.loc = Z := by
  have hns : nsPerSecond = 1000000000 := rfl
  have hnm : nsPerMinute = 60000000000 := by decide
  have hnh : (2 : Int) * nsPerHour = 7200000000000 := by decide
  rw [hns, hnm] at hwall
  rw [hnh] at h1 h2
  have hu : (t.In Z).unix = t.ns / 1000000000 := rfl
  have hl : (t.In Z).loc = Z := rfl
  rw [formatHHMM_eq, hu, hl, hZ]
  generalize hsod : ((t.ns / 1000000000 + o) % 86400).toNat = sod
  have hS : (sod : Int) = (t.ns / 1000000000 + o) % 86400 := by omega
  have hsodlt : sod < 86400 := by omega
  have hhh : sod / 3600 < 100 := by omega
  have hmm : sod % 3600 / 60 < 100 := by omega
  obtain ⟨ah, dh⟩ := twoDigits_spec (sod / 3600) hhh
  obtain ⟨am, dm⟩ := twoDigits_spec (sod % 3600 / 60) hmm
  have ah1 : atoiDigits [Char.ofNat (48 + sod / 3600 / 10), Char.ofNat (48 + sod / 3600 % 10)]
      = sod / 3600 := ah
  have am1 : atoiDigits [Char.ofNat (48 + sod % 3600 / 60 / 10),
      Char.ofNat (48 + sod % 3600 / 60 % 10)] = sod % 3600 / 60 := am
  have dh1 : isDigit09 (Char.ofNat (48 + sod / 3600 / 10)) = true
      ∧ isDigit09 (Char.ofNat (48 + sod / 3600 % 10)) = true := by
    simpa [twoDigits] using dh
  have dm1 : isDigit09 (Char.ofNat (48 + sod % 3600 / 60 / 10)) = true
      ∧ isDigit09 (Char.ofNat (48 + sod % 3600 / 60 % 10)) = true := by
    simpa [twoDigits] using dm
  rw [ConvertDepartureTime_eq now Z _ _ _ _ dh1.1 dh1.2 dm1.1 dm1.2, ah1, am1]
  refine ⟨_, rfl, ?_, ?_⟩
  · have hday : daysFromCivil now.date.1 now.date.2.1 now.date.2.2
        = (now.ns / 1000000000 + (now.loc.lookup now.unix).offset) / 86400 :=
      daysFromCivil_civilFromDays _
    have hday1 : daysFromCivil now.date.1 now.date.2.1 (now.date.2.2 + 1)
        = (now.ns / 1000000000 + (now.loc.lookup now.unix).offset) / 86400 + 1 := by
      rw [daysFromCivil_add_day, hday]
    have hday2 : daysFromCivil now.date.1 now.date.2.1 (now.date.2.2 - 1)
        = (now.ns / 1000000000 + (now.loc.lookup now.unix).offset) / 86400 - 1 := by
      rw [Int.sub_eq_add_neg, daysFromCivil_add_day, hday, Int.sub_eq_add_neg]
    rw [apply_ite Time.ns, apply_ite Time.ns]
    simp only [(goDate_const Z o hZ _ _ _ _ _).1, hday, hday1, hday2, hns, hnh]
    exact convert_roundtrip_arith t.ns now.ns o (now.loc.lookup now.unix).offset _
      (sod / 3600) (sod % 3600 / 60) sod hwall h1 h2 ho1 ho2 rfl hS rfl rfl
  · split_ifs <;> exact (goDate_const Z o hZ _ _ _ _ _).2

/-- C16, counterexample: in the zone of London the wall clock shows 01:30
twice on 2019-10-27. For `t` = 00:30 UTC, the first 01:30 (BST), and
`now = t`, the conversion of "01:30" returns 01:30 UTC, the second 01:30
(GMT), an hour after `t`. -/
theorem convert_ambiguous_wall_clock :
    formatHHMM (Time.In { ns := 1572136200 * nsPerSecond, loc := londonZone } londonZone)
      = "01:30"
    ∧ (1572136200 * nsPerSecond) % nsPerMinute = 0
    ∧ (ConvertDepartureTime (some { ns := 1572136200 * nsPerSecond, loc := londonZone })
          londonZone "01:30").bind (fun r => Result.ok r.ns)
        = Result.ok (1572139800 * nsPerSecond) := by
  refine ⟨by decide, by decide, by decide⟩

/-- What `time.Date` returns: the wall clock reading minus the offset of
`dateOffset`, presented in the zone given. -/
theorem goDate_dateOffset (Z : Location) (y m d h mi : Int) :
    (goDate y m d h mi Z).ns
      = (daysFromCivil y m d * 86400 + h * 3600 + mi * 60
          - dateOffset Z (daysFromCivil y m d * 86400 + h * 3600 + mi * 60)) * nsPerSecond
    ∧ (goDate y m d h mi Z).loc = Z := by
  unfold goDate dateOffset
  simp only [and_true]
  split_ifs <;> simp

/-- The offset that `time.Date` takes is an offset of the zone. -/
theorem dateOffset_is_offset (Z : Location) (unix : Int) :
    ∃ x, dateOffset Z unix = (Z.lookup x).offset := by
  unfold dateOffset
  simp only
  by_cases h0 : (Z.lookup unix).offset ≠ 0
  · rw [if_pos h0]
    split_ifs
    · exact ⟨_, rfl⟩
    · exact ⟨_, rfl⟩
  · rw [if_neg h0]
    exact ⟨unix, by simpa using (not_not.1 h0).symm⟩

/-- The choice between the candidate, the day after and the day before, in
seconds: where the offset taken on the day of `t` is that of `t`, the instant
chosen is `t`. -/
theorem convert_roundtrip_arith_zone (tns nns o oN Dn oc op om : Int) (hh mm sod : Nat)
    (hwall : (tns + o * 1000000000) % 60000000000 = 0)
    (h1 : nns - tns ≤ 7200000000000) (h2 : tns - nns ≤ 7200000000000)
    (ho1 : -79200 < oN - o) (ho2 : oN - o < 79200)
    (hDn : Dn = (nns / 1000000000 + oN) / 86400)
    (hS : (sod : Int) = (tns / 1000000000 + o) % 86400)
    (hhh : hh = sod / 3600) (hmm : mm = sod % 3600 / 60)
    (hc1 : oc - o < 72000) (hc2 : o - oc < 72000)
    (hrc : Dn = (tns / 1000000000 + o) / 86400 → oc = o)
    (hrp : Dn + 1 = (tns / 1000000000 + o) / 86400 → op = o)
    (hrm : Dn - 1 = (tns / 1000000000 + o) / 86400 → om = o) :
    (if nns - (Dn * 86400 + (hh : Int) * 3600 + (mm : Int) * 60 - oc) * 1000000000
          > 7200000000000 then
        ((Dn + 1) * 86400 + (hh : Int) * 3600 + (mm : Int) * 60 - op) * 1000000000
      else if (Dn * 86400 + (hh : Int) * 3600 + (mm : Int) * 60 - oc) * 1000000000 - nns
          > 7200000000000 then
        ((Dn - 1) * 86400 + (hh : Int) * 3600 + (mm : Int) * 60 - om) * 1000000000
      else (Dn * 86400 + (hh : Int) * 3600 + (mm : Int) * 60 - oc) * 1000000000) = tns := by
  have hsod : hh * 3600 + mm * 60 = sod := by omega
  have hsodI : (hh : Int) * 3600 + (mm : Int) * 60 = (sod : Int) := by exact_mod_cast hsod
  have hk : Dn = (tns / 1000000000 + o) / 86400 ∨ Dn + 1 = (tns / 1000000000 + o) / 86400
      ∨ Dn - 1 = (tns / 1000000000 + o) / 86400 := by omega
  rcases hk with hk | hk | hk
  · have := hrc hk
    split_ifs <;> omega
  · have := hrp hk
    split_ifs <;> omega
  · have := hrm hk
    split_ifs <;> omega

/-- Round trip in a zone with transitions: where `time.Date` finds, for the
wall clock reading of `t`, the offset in effect at `t`, the conversion of `t`
formatted as HH:MM returns `t`. -/
theorem ConvertDepartureTime_returns_zone (Z : Location) (t now : Time)
    (hspread : ∀ u v, (Z.lookup u).offset - (Z.lookup v).offset < 72000)
    (hwall : (t.ns + (Z.lookup t.unix).offset * nsPerSecond) % nsPerMinute = 0)
    (hdate : dateOffset Z (t.unix + (Z.lookup t.unix).offset) = (Z.lookup t.unix).offset)
    (h1 : now.ns - t.ns ≤ 2 * nsPerHour) (h2 : t.ns - now.ns ≤ 2 * nsPerHour)
    (ho1 : -79200 < (now.loc.lookup now.unix).offset - (Z.lookup t.unix).offset)
    (ho2 : (now.loc.lookup now.unix).offset - (Z.lookup t.unix).offset < 79200) :
    ∃ r, ConvertDepartureTime (some now) Z (formatHHMM (t.In Z)) = Result.ok r
      ∧ r.ns = t.ns ∧ r.loc = Z := by
  have hns : nsPerSecond = 1000000000 := rfl
  have hnm : nsPerMinute = 60000000000 := by decide
  have hnh : (2 : Int) * nsPerHour = 7200000000000 := by decide
  have htu : t.unix = t.ns / 1000000000 := rfl
  rw [htu] at hwall hdate ho1 ho2
  rw [hns, hnm] at hwall
  rw [hnh] at h1 h2
  have hu : (t.In Z).unix = t.ns / 1000000000 := rfl
  have hl : (t.In Z).loc = Z := rfl
  rw [formatHHMM_eq, hu, hl]
  generalize ho : (Z.lookup (t.ns / 1000000000)).offset = o at hwall hdate ho1 ho2
  generalize hsod : ((t.ns / 1000000000 + o) % 86400).toNat = sod
  have hS : (sod : Int) = (t.ns / 1000000000 + o) % 86400 := by omega
  have hsodlt : sod < 86400 := by omega
  have hhh : sod / 3600 < 100 := by omega
  have hmm : sod % 3600 / 60 < 100 := by omega
  obtain ⟨ah, dh⟩ := twoDigits_spec (sod / 3600) hhh
  obtain ⟨am, dm⟩ := twoDigits_spec (sod % 3600 / 60) hmm
  have ah1 : atoiDigits [Char.ofNat (48 + sod / 3600 / 10), Char.ofNat (48 + sod / 3600 % 10)]
      = sod / 3600 := ah
  have am1 : atoiDigits [Char.ofNat (48 + sod % 3600 / 60 / 10),
      Char.ofNat (48 + sod % 3600 / 60 % 10)] = sod % 3600 / 60 := am
  have dh1 : isDigit09 (Char.ofNat (48 + sod / 3600 / 10)) = true
      ∧ isDigit09 (Char.ofNat (48 + sod / 3600 % 10)) = true := by
    simpa [twoDigits] using dh
  have dm1 : isDigit09 (Char.ofNat (48 + sod % 3600 / 60 / 10)) = true
      ∧ isDigit09 (Char.ofNat (48 + sod % 3600 / 60 % 10)) = true := by
    simpa [twoDigits] using dm
  rw [ConvertDepartureTime_eq now Z _ _ _ _ dh1.1 dh1.2 dm1.1 dm1.2, ah1, am1]
  refine ⟨_, rfl, ?_, ?_⟩
  · have hday : daysFromCivil now.date.1 now.date.2.1 now.date.2.2
        = (now.ns / 1000000000 + (now.loc.lookup now.unix).offset) / 86400 :=
      daysFromCivil_civilFromDays _
    have hday1 : daysFromCivil now.date.1 now.date.2.1 (now.date.2.2 + 1)
        = (now.ns / 1000000000 + (now.loc.lookup now.unix).offset) / 86400 + 1 := by
      rw [daysFromCivil_add_day, hday]
    have hday2 : daysFromCivil now.date.1 now.date.2.1 (now.date.2.2 - 1)
        = (now.ns / 1000000000 + (now.loc.lookup now.unix).offset) / 86400 - 1 := by
      rw [Int.sub_eq_add_neg, daysFromCivil_add_day, hday, Int.sub_eq_add_neg]
    rw [apply_ite Time.ns, apply_ite Time.ns]
    simp only [(goDate_dateOffset Z _ _ _ _ _).1, hday, hday1, hday2, hns, hnh]
    generalize hDn : (now.ns / 1000000000 + (now.loc.lookup now.unix).offset) / 86400 = Dn
    have hsodN : sod / 3600 * 3600 + sod % 3600 / 60 * 60 = sod := by omega
    have hsodI : ((sod / 3600 : Nat) : Int) * 3600 + ((sod % 3600 / 60 : Nat) : Int) * 60
        = (sod : Int) := by exact_mod_cast hsodN
    obtain ⟨x, hx⟩ := dateOffset_is_offset Z
      (Dn * 86400 + ((sod / 3600 : Nat) : Int) * 3600 + ((sod % 3600 / 60 : Nat) : Int) * 60)
    have hb1 := hspread x (t.ns / 1000000000)
    have hb2 := hspread (t.ns / 1000000000) x
    rw [ho, ← hx] at hb1 hb2
    refine convert_roundtrip_arith_zone t.ns now.ns o (now.loc.lookup now.unix).offset Dn _ _ _
      (sod / 3600) (sod % 3600 / 60) sod hwall h1 h2 ho1 ho2 hDn.symm hS rfl rfl hb1 hb2
      ?_ ?_ ?_
    · intro hk
      have e : Dn * 86400 + ((sod / 3600 : Nat) : Int) * 3600
          + ((sod % 3600 / 60 : Nat) : Int) * 60 = t.ns / 1000000000 + o := by omega
      rw [e, hdate]
    · intro hk
      have e : (Dn + 1) * 86400 + ((sod / 3600 : Nat) : Int) * 3600
          + ((sod % 3600 / 60 : Nat) : Int) * 60 = t.ns / 1000000000 + o := by omega
      rw [e, hdate]
    · intro hk
      have e : (Dn - 1) * 86400 + ((sod / 3600 : Nat) : Int) * 3600
          + ((sod % 3600 / 60 : Nat) : Int) * 60 = t.ns / 1000000000 + o := by omega
      rw [e, hdate]
  · split_ifs <;> exact (goDate_dateOffset Z _ _ _ _ _).2

/-- The offsets of Europe/London differ by an hour at most. -/
theorem londonZone_spread (u v : Int) :
    (londonZone.lookup u).offset - (londonZone.lookup v).offset < 72000 := by
  unfold londonZone
  simp only
  split_ifs <;> decide

/-- In Europe/London `time.Date` finds the offset in effect at `u` for the wall
clock reading of every instant `u` outside 00:00 to 01:00 UTC of 2019-10-27. -/
theorem londonZone_dateOffset (u : Int) (h : ¬ (1572134400 ≤ u ∧ u < 1572138000)) :
    dateOffset londonZone (u + (londonZone.lookup u).offset) = (londonZone.lookup u).offset := by
  unfold dateOffset londonZone
  simp only
  split_ifs <;> simp only [] at * <;> omega

/-- In a zone of one offset `time.Date` finds that offset for every reading. -/
theorem constant_dateOffset (Z : Location) (o : Int) (hZ : ∀ u, (Z.lookup u).offset = o)
    (u : Int) : dateOffset Z u = o := by
  unfold dateOffset
  simp only [hZ]
  split_ifs with h0 <;> first | rfl | exact (not_not.1 h0).symm

/-- The choice between the candidate, the day after and the day before, in
seconds: the instant chosen is `t` exactly when the offset taken on the day of
`t` is that of `t`. -/
theorem convert_roundtrip_arith_iff (tns nns o oN Dn oc op om od : Int) (hh mm sod : Nat)
    (hwall : (tns + o * 1000000000) % 60000000000 = 0)
    (h1 : nns - tns ≤ 7200000000000) (h2 : tns - nns ≤ 7200000000000)
    (ho1 : -79200 < oN - o) (ho2 : oN - o < 79200)
    (hDn : Dn = (nns / 1000000000 + oN) / 86400)
    (hS : (sod : Int) = (tns / 1000000000 + o) % 86400)
    (hhh : hh = sod / 3600) (hmm : mm = sod % 3600 / 60)
    (hc1 : oc - o < 72000) (hc2 : o - oc < 72000)
    (hp1 : op - o < 72000) (hp2 : o - op < 72000)
    (hm1 : om - o < 72000) (hm2 : o - om < 72000)
    (hrc : Dn = (tns / 1000000000 + o) / 86400 → oc = od)
    (hrp : Dn + 1 = (tns / 1000000000 + o) / 86400 → op = od)
    (hrm : Dn - 1 = (tns / 1000000000 + o) / 86400 → om = od) :
    (if nns - (Dn * 86400 + (hh : Int) * 3600 + (mm : Int) * 60 - oc) * 1000000000
          > 7200000000000 then
        ((Dn + 1) * 86400 + (hh : Int) * 3600 + (mm : Int) * 60 - op) * 1000000000
      else if (Dn * 86400 + (hh : Int) * 3600 + (mm : Int) * 60 - oc) * 1000000000 - nns
          > 7200000000000 then
        ((Dn - 1) * 86400 + (hh : Int) * 3600 + (mm : Int) * 60 - om) * 1000000000
      else (Dn * 86400 + (hh : Int) * 3600 + (mm : Int) * 60 - oc) * 1000000000) = tns
      ↔ od = o := by
  constructor
  · intro hres
    have hsod : hh * 3600 + mm * 60 = sod := by omega
    have hsodI : (hh : Int) * 3600 + (mm : Int) * 60 = (sod : Int) := by exact_mod_cast hsod
    have hk : Dn = (tns / 1000000000 + o) / 86400 ∨ Dn + 1 = (tns / 1000000000 + o) / 86400
        ∨ Dn - 1 = (tns / 1000000000 + o) / 86400 := by omega
    rcases hk with hk | hk | hk
    · have := hrc hk
      split_ifs at hres <;> omega
    · have := hrp hk
      split_ifs at hres <;> omega
    · have := hrm hk
      split_ifs at hres <;> omega
  · intro hod
    subst hod
    exact convert_roundtrip_arith_zone tns nns od oN Dn oc op om hh mm sod hwall h1 h2 ho1 ho2
      hDn hS hhh hmm hc1 hc2 hrc hrp hrm

/-- The conversion of `t` formatted as HH:MM returns an instant in the zone,
which is `t` exactly when `time.Date` finds, for the wall clock reading of `t`,
the offset in effect at `t`. -/
theorem ConvertDepartureTime_result_zone (Z : Location) (t now : Time)
    (hspread : ∀ u v, (Z.lookup u).offset - (Z.lookup v).offset < 72000)
    (hwall : (t.ns + (Z.lookup t.unix).offset * nsPerSecond) % nsPerMinute = 0)
    (h1 : now.ns - t.ns ≤ 2 * nsPerHour) (h2 : t.ns - now.ns ≤ 2 * nsPerHour)
    (ho1 : -79200 < (now.loc.lookup now.unix).offset - (Z.lookup t.unix).offset)
    (ho2 : (now.loc.lookup now.unix).offset - (Z.lookup t.unix).offset < 79200) :
    ∃ r, ConvertDepartureTime (some now) Z (formatHHMM (t.In Z)) = Result.ok r
      ∧ r.loc = Z
      ∧ (r.ns = t.ns
          ↔ dateOffset Z (t.unix + (Z.lookup t.unix).offset) = (Z.lookup t.unix).offset) := by
  have hns : nsPerSecond = 1000000000 := rfl
  have hnm : nsPerMinute = 60000000000 := by decide
  have hnh : (2 : Int) * nsPerHour = 7200000000000 := by decide
  have htu : t.unix = t.ns / 1000000000 := rfl
  rw [htu] at hwall ho1 ho2
  rw [htu]
  rw [hns, hnm] at hwall
  rw [hnh] at h1 h2
  have hu : (t.In Z).unix = t.ns / 1000000000 := rfl
  have hl : (t.In Z).loc = Z := rfl
  rw [formatHHMM_eq, hu, hl]
  generalize ho : (Z.lookup (t.ns / 1000000000)).offset = o at hwall ho1 ho2
  generalize hsod : ((t.ns / 1000000000 + o) % 86400).toNat = sod
  have hS : (sod : Int) = (t.ns / 1000000000 + o) % 86400 := by omega
  have hsodlt : sod < 86400 := by omega
  have hhh : sod / 3600 < 100 := by omega
  have hmm : sod % 3600 / 60 < 100 := by omega
  obtain ⟨ah, dh⟩ := twoDigits_spec (sod / 3600) hhh
  obtain ⟨am, dm⟩ := twoDigits_spec (sod % 3600 / 60) hmm
  have ah1 : atoiDigits [Char.ofNat (48 + sod / 3600 / 10), Char.ofNat (48 + sod / 3600 % 10)]
      = sod / 3600 := ah
  have am1 : atoiDigits [Char.ofNat (48 + sod % 3600 / 60 / 10),
      Char.ofNat (48 + sod % 3600 / 60 % 10)] = sod % 3600 / 60 := am
  have dh1 : isDigit09 (Char.ofNat (48 + sod / 3600 / 10)) = true
      ∧ isDigit09 (Char.ofNat (48 + sod / 3600 % 10)) = true := by
    simpa [twoDigits] using dh
  have dm1 : isDigit09 (Char.ofNat (48 + sod % 3600 / 60 / 10)) = true
      ∧ isDigit09 (Char.ofNat (48 + sod % 3600 / 60 % 10)) = true := by
    simpa [twoDigits] using dm
  rw [ConvertDepartureTime_eq now Z _ _ _ _ dh1.1 dh1.2 dm1.1 dm1.2, ah1, am1]
  refine ⟨_, rfl, ?_, ?_⟩
  · split_ifs <;> exact (goDate_dateOffset Z _ _ _ _ _).2
  · have hday : daysFromCivil now.date.1 now.date.2.1 now.date.2.2
        = (now.ns / 1000000000 + (now.loc.lookup now.unix).offset) / 86400 :=
      daysFromCivil_civilFromDays _
    have hday1 : daysFromCivil now.date.1 now.date.2.1 (now.date.2.2 + 1)
        = (now.ns / 1000000000 + (now.loc.lookup now.unix).offset) / 86400 + 1 := by
      rw [daysFromCivil_add_day, hday]
    have hday2 : daysFromCivil now.date.1 now.date.2.1 (now.date.2.2 - 1)
        = (now.ns / 1000000000 + (now.loc.lookup now.unix).offset) / 86400 - 1 := by
      rw [Int.sub_eq_add_neg, daysFromCivil_add_day, hday, Int.sub_eq_add_neg]
    rw [apply_ite Time.ns, apply_ite Time.ns]
    simp only [(goDate_dateOffset Z _ _ _ _ _).1, hday, hday1, hday2, hns, hnh]
    generalize hDn : (now.ns / 1000000000 + (now.loc.lookup now.unix).offset) / 86400 = Dn
    have hsodN : sod / 3600 * 3600 + sod % 3600 / 60 * 60 = sod := by omega
    have hsodI : ((sod / 3600 : Nat) : Int) * 3600 + ((sod % 3600 / 60 : Nat) : Int) * 60
        = (sod : Int) := by exact_mod_cast hsodN
    have hb : ∀ w, dateOffset Z w - o < 72000 ∧ o - dateOffset Z w < 72000 := by
      intro w
      obtain ⟨x, hx⟩ := dateOffset_is_offset Z w
      have hb1 := hspread x (t.ns / 1000000000)
      have hb2 := hspread (t.ns / 1000000000) x
      rw [ho, ← hx] at hb1 hb2
      exact ⟨hb1, hb2⟩
    refine convert_roundtrip_arith_iff t.ns now.ns o (now.loc.lookup now.unix).offset Dn _ _ _
      (dateOffset Z (t.ns / 1000000000 + o))
      (sod / 3600) (sod % 3600 / 60) sod hwall h1 h2 ho1 ho2 hDn.symm hS rfl rfl
      (hb _).1 (hb _).2 (hb _).1 (hb _).2 (hb _).1 (hb _).2 ?_ ?_ ?_
    · intro hk
      have e : Dn * 86400 + ((sod / 3600 : Nat) : Int) * 3600
          + ((sod % 3600 / 60 : Nat) : Int) * 60 = t.ns / 1000000000 + o := by omega
      rw [e]
    · intro hk
      have e : (Dn + 1) * 86400 + ((sod / 3600 : Nat) : Int) * 3600
          + ((sod % 3600 / 60 : Nat) : Int) * 60 = t.ns / 1000000000 + o := by omega
      rw [e]
    · intro hk
      have e : (Dn - 1) * 86400 + ((sod / 3600 : Nat) : Int) * 3600
          + ((sod % 3600 / 60 : Nat) : Int) * 60 = t.ns / 1000000000 + o := by omega
      rw [e]

/-- Europe/London, all instants but one hour: let `t` fall on a whole minute,
outside 00:00 to 01:00 UTC of 2019-10-27 (the first pass of the wall clock
through 01:00 to 02:00 on the day the clocks go back), let `|now - t| ≤ 2h`
and let the location of `now` have, at `now`, an offset between -21 and +22
hours. Then the conversion of `t` formatted as HH:MM returns `t`. -/
theorem ConvertDepartureTime_roundtrip_london (t now : Time)
    (hwall : t.ns % nsPerMinute = 0)
    (hrep : ¬ (1572134400 ≤ t.unix ∧ t.unix < 1572138000))
    (h1 : now.ns - t.ns ≤ 2 * nsPerHour) (h2 : t.ns - now.ns ≤ 2 * nsPerHour)
    (ho1 : -75600 < (now.loc.lookup now.unix).offset)
    (ho2 : (now.loc.lookup now.unix).offset < 79200) :
    ∃ r, ConvertDepartureTime (some now) londonZone (formatHHMM (t.In londonZone))
        = Result.ok r ∧ r.ns = t.ns ∧ r.loc = londonZone := by
  have ho : (londonZone.lookup t.unix).offset = 0 ∨ (londonZone.lookup t.unix).offset = 3600 := by
    unfold londonZone
    simp only
    split_ifs <;> simp
  have hns : nsPerSecond = 1000000000 := rfl
  have hnm : nsPerMinute = 60000000000 := by decide
  refine ConvertDepartureTime_returns_zone londonZone t now londonZone_spread ?_
    (londonZone_dateOffset t.unix hrep) h1 h2 ?_ ?_
  · rw [hns]
    rw [hnm] at hwall ⊢
    rcases ho with ho | ho <;> rw [ho] <;> omega
  · rcases ho with ho | ho <;> rw [ho] <;> omega
  · rcases ho with ho | ho <;> rw [ho] <;> omega

/-- Europe/London, the repeated hour: for `t` on a whole minute within 00:00
to 01:00 UTC of 2019-10-27 the conversion of `t` formatted as HH:MM returns an
instant other than `t`, whatever `now` within two hours of `t`. -/
theorem ConvertDepartureTime_london_repeated_hour (t now : Time)
    (hwall : t.ns % nsPerMinute = 0)
    (hrep : 1572134400 ≤ t.unix ∧ t.unix < 1572138000)
    (h1 : now.ns - t.ns ≤ 2 * nsPerHour) (h2 : t.ns - now.ns ≤ 2 * nsPerHour)
    (ho1 : -75600 < (now.loc.lookup now.unix).offset)
    (ho2 : (now.loc.lookup now.unix).offset < 79200) :
    ∃ r, ConvertDepartureTime (some now) londonZone (formatHHMM (t.In londonZone))
        = Result.ok r ∧ r.ns ≠ t.ns := by
  have ho : (londonZone.lookup t.unix).offset = 3600 := by
    unfold londonZone
    simp only
    split_ifs <;> first | rfl | omega
  have hns : nsPerSecond = 1000000000 := rfl
  have hnm : nsPerMinute = 60000000000 := by decide
  obtain ⟨r, hr, -, hiff⟩ := ConvertDepartureTime_result_zone londonZone t now londonZone_spread
    (by rw [ho, hns, hnm]; rw [hnm] at hwall; omega) h1 h2
    (by rw [ho]; omega) (by rw [ho]; omega)
  refine ⟨r, hr, fun h => ?_⟩
  have hd := hiff.1 h
  rw [ho] at hd
  unfold dateOffset londonZone at hd
  simp only at hd
  split_ifs at hd <;> simp only [] at * <;> omega

/-- C16, amended: let the offsets of the zone `Z` differ by less than 20
hours, let `t` fall on a whole minute of the wall clock of `Z`, let
`|now - t| ≤ 2h`, and let the offset of the location `now` is presented in
differ from that of `Z` at `t` by less than 22 hours. Then `ConvertDepartureTime`
on `t` formatted as HH:MM in `Z` returns an instant presented in `Z`, and this
instant is `t` exactly when the offset that `time.Date` finds for the wall clock
reading of `t` is the offset in effect at `t`: always in a zone of one offset,
and in Europe/London at every instant but those of the first pass through an
hour of the wall clock that is repeated. -/
theorem ConvertDepartureTime_roundtrip (Z : Location) (t now : Time)
    (hspread : ∀ u v, (Z.lookup u).offset - (Z.lookup v).offset < 72000)
    (hwall : (t.ns + (Z.lookup t.unix).offset * nsPerSecond) % nsPerMinute = 0)
    (h1 : now.ns - t.ns ≤ 2 * nsPerHour) (h2 : t.ns - now.ns ≤ 2 * nsPerHour)
    (ho1 : -79200 < (now.loc.lookup now.unix).offset - (Z.lookup t.unix).offset)
    (ho2 : (now.loc.lookup now.unix).offset - (Z.lookup t.unix).offset < 79200) :
    ∃ r, ConvertDepartureTime (some now) Z (formatHHMM (t.In Z)) = Result.ok r
      ∧ r.loc = Z
      ∧ (r.ns = t.ns
          ↔ dateOffset Z (t.unix + (Z.lookup t.unix).offset) = (Z.lookup t.unix).offset) :=
  ConvertDepartureTime_result_zone Z t now hspread hwall h1 h2 ho1 ho2

/-- Witness of `ConvertDepartureTime_roundtrip` in Europe/London on the day
the clocks go forward: `t` = 2019-03-31 00:30 GMT, half an hour before the
change, and `now` = 02:10 BST, ten minutes after it; the conversion of "00:30"
returns `t`. -/
theorem ConvertDepartureTime_roundtrip_witness :
    formatHHMM (Time.In { ns := 1553992200 * nsPerSecond, loc := londonZone } londonZone)
      = "00:30"
    ∧ dateOffset londonZone (1553992200 + 0) = 0
    ∧ ∃ r, ConvertDepartureTime (some { ns := 1553994600 * nsPerSecond, loc := londonZone })
          londonZone
          (formatHHMM (Time.In { ns := 1553992200 * nsPerSecond, loc := londonZone } londonZone))
        = Result.ok r
      ∧ r.loc = londonZone
      ∧ (r.ns = 1553992200 * nsPerSecond
          ↔ dateOffset londonZone
              ((Time.unix { ns := 1553992200 * nsPerSecond, loc := londonZone })
                + (londonZone.lookup
                    (Time.unix { ns := 1553992200 * nsPerSecond, loc := londonZone })).offset)
            = (londonZone.lookup
                (Time.unix { ns := 1553992200 * nsPerSecond, loc := londonZone })).offset) :=
  ⟨by decide, by decide,
    ConvertDepartureTime_roundtrip londonZone
      { ns := 1553992200 * nsPerSecond, loc := londonZone }
      { ns := 1553994600 * nsPerSecond, loc := londonZone }
      londonZone_spread (by decide) (by decide) (by decide) (by decide) (by decide)⟩


theorem itoa_atoi_1 : ∀ a, a < 10 →
    goItoa (atoiDigits [Char.ofNat (48 + a)]) = String.mk [Char.ofNat (48 + a)] := by
  decide

theorem itoa_atoi_2 : ∀ a, a < 10 → ∀ b, b < 10 → a ≠ 0 →
    goItoa (atoiDigits [Char.ofNat (48 + a), Char.ofNat (48 + b)])
      = String.mk [Char.ofNat (48 + a), Char.ofNat (48 + b)] := by
  decide

set_option maxRecDepth 100000 in
theorem itoa_atoi_3 : ∀ a, a < 10 → ∀ b, b < 10 → ∀ c, c < 10 → a ≠ 0 →
    goItoa (atoiDigits [Char.ofNat (48 + a), Char.ofNat (48 + b), Char.ofNat (48 + c)])
      = String.mk [Char.ofNat (48 + a), Char.ofNat (48 + b), Char.ofNat (48 + c)] := by
  decide

theorem digit_eq_ofNat (c : Char) (h : isDigit09 c = true) :
    ∃ k, k < 10 ∧ c = Char.ofNat (48 + k) ∧ (k = 0 → c = '0') := by
  unfold isDigit09 at h
  have h1 := of_decide_eq_true h
  have h2 : 48 ≤ c.toNat ∧ c.toNat ≤ 57 := h1
  refine ⟨c.toNat - 48, by omega, ?_, ?_⟩
  · have : 48 + (c.toNat - 48) = c.toNat := by omega
    rw [this, Char.ofNat_toNat]
  · intro hk
    have : c.toNat = 48 := by omega
    rw [← Char.ofNat_toNat c, this]

theorem itoa_atoi (digs : List Char) (hall : ∀ c ∈ digs, isDigit09 c = true)
    (hlen : digs.length ≤ 3) (hne : digs ≠ [])
    (hz : digs = ['0'] ∨ digs.head? ≠ some '0') :
    goItoa ((atoiDigits digs : Nat) : Int) = String.mk digs := by
  match digs, hall, hlen, hne, hz with
  | [a], hall, _, _, _ =>
    obtain ⟨k, hk, rfl, _⟩ := digit_eq_ofNat a (hall a (by simp))
    exact itoa_atoi_1 k hk
  | [a, b], hall, _, _, hz =>
    obtain ⟨k, hk, rfl, hk0⟩ := digit_eq_ofNat a (hall a (by simp))
    obtain ⟨j, hj, rfl, _⟩ := digit_eq_ofNat b (hall b (by simp))
    refine itoa_atoi_2 k hk j hj ?_
    intro h0
    rcases hz with hz | hz
    · simp at hz
    · exact hz (by rw [List.head?_cons, hk0 h0])
  | [a, b, c], hall, _, _, hz =>
    obtain ⟨k, hk, rfl, hk0⟩ := digit_eq_ofNat a (hall a (by simp))
    obtain ⟨j, hj, rfl, _⟩ := digit_eq_ofNat b (hall b (by simp))
    obtain ⟨i, hi, rfl, _⟩ := digit_eq_ofNat c (hall c (by simp))
    refine itoa_atoi_3 k hk j hj i hi ?_
    intro h0
    rcases hz with hz | hz
    · simp at hz
    · exact hz (by rw [List.head?_cons, hk0 h0])
  | [], _, _, hne, _ => exact absurd rfl hne
  | _ :: _ :: _ :: _ :: _, _, hlen, _, _ => simp at hlen

theorem digits_run_canonical (r1 : List Char)
    (hz : (match r1 with
      | '0' :: c :: _ => !isDigit09 c
      | _ => true) = true) :
    (r1.takeWhile isDigit09).take 3 = []
    ∨ (r1.takeWhile isDigit09).take 3 = ['0']
    ∨ ((r1.takeWhile isDigit09).take 3).head? ≠ some '0' := by
  match r1, hz with
  | [], _ => exact Or.inl rfl
  | [x], _ =>
    by_cases hx : isDigit09 x = true
    · by_cases h0 : x = '0'
      · subst h0
        exact Or.inr (Or.inl (by decide))
      · refine Or.inr (Or.inr ?_)
        simp [List.takeWhile, hx, h0]
    · exact Or.inl (by simp [List.takeWhile, hx])
  | x :: c :: rest, hz =>
    by_cases hx : isDigit09 x = true
    · by_cases h0 : x = '0'
      · subst h0
        have hc : isDigit09 c = false := by simpa using hz
        exact Or.inr (Or.inl (by simp [List.takeWhile, hx, hc]))
      · refine Or.inr (Or.inr ?_)
        rw [List.takeWhile_cons_of_pos hx]
        simp [h0]
    · exact Or.inl (by simp [List.takeWhile, hx])

theorem getServiceNumberParts_reassemble (d : Departure)
    (parts : Option String × Option Nat × Option String)
    (hm : d.GetServiceNumberParts = some parts)
    (hz : noLeadingZero (d.ServiceNumber.data.map goToUpper) = true) :
    reassemble parts = String.mk (d.ServiceNumber.data.map goToUpper) := by
  unfold Departure.GetServiceNumberParts at hm
  unfold noLeadingZero at hz
  generalize d.ServiceNumber.data.map goToUpper = s at hm hz
  simp only at hm
  have hs : s.takeWhile isUpperAZ ++ s.dropWhile isUpperAZ = s :=
    List.takeWhile_append_dropWhile _ _
  generalize s.takeWhile isUpperAZ = pre at hm hs
  generalize s.dropWhile isUpperAZ = r1 at hm hs hz
  have hcanon := digits_run_canonical r1 hz
  have hpre : ((r1.takeWhile isDigit09).take 3) <+: r1 :=
    (List.take_prefix _ _).trans (List.takeWhile_prefix _)
  have hall : ∀ c ∈ (r1.takeWhile isDigit09).take 3, isDigit09 c = true :=
    fun c hc => (List.mem_takeWhile_imp (List.mem_of_mem_take hc))
  have hlen : ((r1.takeWhile isDigit09).take 3).length ≤ 3 := List.length_take_le _ _
  generalize (r1.takeWhile isDigit09).take 3 = digs at hm hcanon hpre hall hlen
  have hr1 : digs ++ r1.drop digs.length = r1 := by
    have := List.prefix_iff_eq_take.1 hpre
    conv_lhs => rw [this]
    rw [List.length_take, Nat.min_eq_left hpre.length_le]
    exact List.take_append_drop _ _
  have hpfx : (if pre = [] then (none : Option String) else some (String.mk pre)).getD (String.mk [])
      = String.mk pre := by
    by_cases h : pre = []
    · rw [if_pos h, h]; rfl
    · rw [if_neg h]; rfl
  have hdig : ((if digs = [] then (none : Option Nat) else some (atoiDigits digs)).map
      (fun n => goItoa (n : Int))).getD (String.mk []) = String.mk digs := by
    by_cases h : digs = []
    · rw [if_pos h, h]; rfl
    · rw [if_neg h]
      have hz1 : digs = ['0'] ∨ digs.head? ≠ some '0' := by
        rcases hcanon with h1 | h1 | h1
        · exact absurd h1 h
        · exact Or.inl h1
        · exact Or.inr h1
      exact itoa_atoi digs hall hlen h hz1
  generalize r1.drop digs.length = r2 at hm hr1
  have hsum : ∀ x : List Char, String.mk pre ++ String.mk digs ++ String.mk x
      = String.mk (pre ++ (digs ++ x)) := fun x => by
    show String.mk (pre ++ digs ++ x) = _
    rw [List.append_assoc]
  match r2, hm, hr1 with
  | [], hm, hr1 =>
    simp only [Option.some.injEq] at hm
    subst hm
    show _ ++ _ ++ Option.getD none (String.mk []) = _
    rw [hpfx, hdig, ← hs, ← hr1]
    exact hsum []
  | [c], hm, hr1 =>
    by_cases hc : isUpperAZ c = true
    · simp only [hc, if_true, Option.some.injEq] at hm
      subst hm
      show _ ++ _ ++ Option.getD (some (String.mk [c])) (String.mk []) = _
      rw [hpfx, hdig, ← hs, ← hr1]
      exact hsum [c]
    · simp [hc] at hm
  | _ :: _ :: _, hm, _ => simp at hm

/-- C17, counterexample: the service number 012 matches the grammar (no
prefix, three digits, no suffix); its digits are returned as the number 12, so
the parts re-assemble to 12, not to 012. -/
theorem reassemble_drops_leading_zero :
    (sampleBus "J1" "2019-05-20T12:10:00+01:00" "012" "D").GetServiceNumberParts
      = some (none, some 12, none)
    ∧ reassemble (none, some 12, none) = "12"
    ∧ reassemble (none, some 12, none)
      ≠ (sampleBus "J1" "2019-05-20T12:10:00+01:00" "012" "D").ServiceNumber := by
  refine ⟨by decide, by decide, by decide⟩

/-- C17, amended: for a service number that matches the grammar and whose
digits are written without a leading zero, the prefix, the digits in decimal
and the suffix returned by `GetServiceNumberParts` concatenate to the service
number in upper case; this is the service number itself when it is written in
upper case. -/
theorem GetServiceNumberParts_roundtrip (d : Departure)
    (parts : Option String × Option Nat × Option String)
    (hm : d.GetServiceNumberParts = some parts)
    (hz : noLeadingZero (d.ServiceNumber.data.map goToUpper) = true) :
    reassemble parts = String.mk (d.ServiceNumber.data.map goToUpper)
    ∧ (d.ServiceNumber.data.map goToUpper = d.ServiceNumber.data →
        reassemble parts = d.ServiceNumber) := by
  have h := getServiceNumberParts_reassemble d parts hm hz
  exact ⟨h, fun hup => by rw [h, hup]⟩

/-- Witness of `GetServiceNumberParts_roundtrip`: the service number X50A. -/
theorem GetServiceNumberParts_roundtrip_witness :
    reassemble (some "X", some 50, some "A")
      = (sampleBus "J1" "2019-05-20T12:10:00+01:00" "X50A" "D").ServiceNumber :=
  (GetServiceNumberParts_roundtrip (sampleBus "J1" "2019-05-20T12:10:00+01:00" "X50A" "D")
    (some "X", some 50, some "A") (by decide) (by decide)).2 (by decide)


/-- C18: an envelope with the deliveries A1, B1, A2, B2 of two subscriptions
interleaved has as many opening as closing delivery tags. The body built for
the second group holds A2 where B1 should be: appending A2 to the payload of
the first group, a window of the request body, writes over the bytes of B1
that follow it. -/
theorem interleaved_deliveries_overwrite_payload :
    (findAllIndex matchOpening interleavedEnvelope).length
      = (findAllIndex matchClosing interleavedEnvelope).length
    ∧ SiriProxy.handleServiceDeliveryPublication sampleUnmarshal interleavedEnvelope []
      = Result.ok
          [("A", "1", sampleHeader ++ sampleDelivery "A" "1" "a1"
              ++ sampleDelivery "A" "1" "a2" ++ sampleFooter),
           ("B", "2", sampleHeader ++ sampleDelivery "A" "1" "a2"
              ++ sampleDelivery "B" "2" "b2" ++ sampleFooter)]
    ∧ sampleHeader ++ sampleDelivery "A" "1" "a2" ++ sampleDelivery "B" "2" "b2" ++ sampleFooter
      ≠ sampleHeader ++ sampleDelivery "B" "2" "b1" ++ sampleDelivery "B" "2" "b2"
          ++ sampleFooter := by
  set_option maxRecDepth 1000000 in
  refine ⟨by decide, by decide, by decide⟩

/-- With the deliveries of each subscription next to each other (A1, A2, B1,
B2) the body of each group is the header, the payloads of the group in input
order and the footer. -/
theorem grouped_deliveries_bodies :
    SiriProxy.handleServiceDeliveryPublication sampleUnmarshal groupedEnvelope []
      = Result.ok
          [("A", "1", sampleHeader ++ sampleDelivery "A" "1" "a1"
              ++ sampleDelivery "A" "1" "a2" ++ sampleFooter),
           ("B", "2", sampleHeader ++ sampleDelivery "B" "2" "b1"
              ++ sampleDelivery "B" "2" "b2" ++ sampleFooter)] := by
  set_option maxRecDepth 1000000 in
  decide


theorem dropLeading_append (a r : List Char) : dropLeading a (a ++ r) = some r := by
  induction a with
  | nil => cases r <;> rfl
  | cons x xs ih =>
    show dropLeading (x :: xs) (x :: (xs ++ r)) = some r
    rw [dropLeading, if_pos rfl, ih]

theorem bytesReplaceFirst_first (old new A R : List Char) (hne : old ≠ [])
    (hfirst : ∀ k, k < A.length → dropLeading old ((A ++ (old ++ R)).drop k) = none) :
    bytesReplaceFirst old new (A ++ (old ++ R)) = A ++ (new ++ R) := by
  induction A with
  | nil =>
    rw [List.nil_append, List.nil_append]
    cases h : old ++ R with
    | nil =>
      have : old = [] := (List.append_eq_nil.1 h).1
      exact absurd this hne
    | cons c cs =>
      rw [bytesReplaceFirst, ← h, dropLeading_append]
  | cons a A ih =>
    have h0 := hfirst 0 (by simp)
    rw [List.drop_zero] at h0
    show bytesReplaceFirst old new (a :: (A ++ (old ++ R))) = a :: (A ++ (new ++ R))
    rw [bytesReplaceFirst]
    have h0' : dropLeading old (a :: (A ++ (old ++ R))) = none := h0
    rw [h0']
    simp only [List.cons.injEq, true_and]
    exact ih (fun k hk => by
      have := hfirst (k + 1) (by simp; omega)
      simpa using this)

theorem closesOnLine_of_drop (s : List Char)
    (h : (dropLeading consumerAddressClose s).isSome = true) : closesOnLine s = true := by
  cases s with
  | nil => exact absurd h (by decide)
  | cons c cs => rw [closesOnLine, if_pos h]

theorem closesOnLine_append (rest post : List Char) (hnl : ∀ c ∈ rest, c ≠ '\n') :
    closesOnLine (rest ++ (consumerAddressClose ++ post)) = true := by
  induction rest with
  | nil =>
    rw [List.nil_append]
    apply closesOnLine_of_drop
    rw [dropLeading_append]
    rfl
  | cons c cs ih =>
    show closesOnLine (c :: (cs ++ (consumerAddressClose ++ post))) = true
    rw [closesOnLine]
    by_cases h : (dropLeading consumerAddressClose
        (c :: (cs ++ (consumerAddressClose ++ post)))).isSome = true
    · rw [if_pos h]
    · rw [if_neg h, if_neg (hnl c (List.mem_cons_self _ _))]
      exact ih (fun x hx => hnl x (List.mem_cons_of_mem _ hx))

theorem matchesConsumerAddress_of_at (s : List Char)
    (h : matchConsumerAddressAt s = true) : matchesConsumerAddress s = true := by
  cases s with
  | nil => exact absurd h (by decide)
  | cons c cs =>
    rw [matchesConsumerAddress, Bool.or_eq_true]
    exact Or.inl h

theorem matchesConsumerAddress_append (pre addr post : List Char) (hne : addr ≠ [])
    (hnl : ∀ c ∈ addr, c ≠ '\n') :
    matchesConsumerAddress
      (pre ++ (consumerAddressOpen ++ (addr ++ (consumerAddressClose ++ post)))) = true := by
  induction pre with
  | nil =>
    rw [List.nil_append]
    apply matchesConsumerAddress_of_at
    unfold matchConsumerAddressAt
    rw [dropLeading_append]
    cases addr with
    | nil => exact absurd rfl hne
    | cons c rest =>
      simp only [List.cons_append, Bool.and_eq_true, bne_iff_ne, ne_eq]
      exact ⟨hnl c (List.mem_cons_self _ _),
        closesOnLine_append rest post (fun x hx => hnl x (List.mem_cons_of_mem _ hx))⟩
  | cons p ps ih =>
    show matchesConsumerAddress (p :: _) = true
    rw [matchesConsumerAddress, Bool.or_eq_true]
    exact Or.inr ih

/-- C19: the request holds the consumer address also in its `Address`
element, ahead of `ConsumerAddress`. The body forwarded has the server URL in
`Address` and the `ConsumerAddress` element as received; it is not the body
received with the content of `ConsumerAddress` replaced by the server URL. -/
theorem forwarded_body_replaces_earlier_text :
    SiriProxy.forwardedBody requestWithAddress "http://c".data "http://proxy".data
      = Result.ok ("<SubscriptionRequest><Address>http://proxy</Address>"
          ++ "<ConsumerAddress>http://c</ConsumerAddress></SubscriptionRequest>").data
    ∧ SiriProxy.forwardedBody requestWithAddress "http://c".data "http://proxy".data
      ≠ Result.ok ("<SubscriptionRequest><Address>http://c</Address>"
          ++ "<ConsumerAddress>http://proxy</ConsumerAddress></SubscriptionRequest>").data := by
  refine ⟨by decide, by decide⟩

/-- Where the substitution does land on the element: let the body be `pre`,
the `ConsumerAddress` element with content `addr`, and `post`, where `addr` is
not empty, holds no line feed and occurs nowhere in the body ahead of that
content. Then the request is forwarded with the content replaced by the server
URL and `pre`, the tags and `post` unchanged. -/
theorem forwardedBody_spec (pre addr post serverURL : List Char) (hne : addr ≠ [])
    (hnl : ∀ c ∈ addr, c ≠ '\n')
    (hfirst : ∀ k, k < (pre ++ consumerAddressOpen).length →
      dropLeading addr
        ((pre ++ consumerAddressOpen ++ addr ++ consumerAddressClose ++ post).drop k) = none) :
    SiriProxy.forwardedBody
        (pre ++ consumerAddressOpen ++ addr ++ consumerAddressClose ++ post) addr serverURL
      = Result.ok (pre ++ consumerAddressOpen ++ serverURL ++ consumerAddressClose ++ post) := by
  have e1 : pre ++ consumerAddressOpen ++ addr ++ consumerAddressClose ++ post
      = pre ++ (consumerAddressOpen ++ (addr ++ (consumerAddressClose ++ post))) := by
    simp only [List.append_assoc]
  have e2 : pre ++ consumerAddressOpen ++ addr ++ consumerAddressClose ++ post
      = (pre ++ consumerAddressOpen) ++ (addr ++ (consumerAddressClose ++ post)) := by
    simp only [List.append_assoc]
  have e3 : pre ++ consumerAddressOpen ++ serverURL ++ consumerAddressClose ++ post
      = (pre ++ consumerAddressOpen) ++ (serverURL ++ (consumerAddressClose ++ post)) := by
    simp only [List.append_assoc]
  unfold SiriProxy.forwardedBody
  have hm := matchesConsumerAddress_append pre addr post hne hnl
  rw [← e1] at hm
  rw [if_pos hm, e3]
  rw [e2] at hfirst ⊢
  rw [bytesReplaceFirst_first addr serverURL _ _ hne hfirst]

/-- Witness of `forwardedBody_spec`: a request whose only occurrence of the
consumer address is the content of `ConsumerAddress`. -/
theorem forwardedBody_spec_witness :
    SiriProxy.forwardedBody
        ("<S>".data ++ consumerAddressOpen ++ "http://c".data ++ consumerAddressClose
          ++ "</S>".data) "http://c".data "http://proxy".data
      = Result.ok ("<S>".data ++ consumerAddressOpen ++ "http://proxy".data
          ++ consumerAddressClose ++ "</S>".data) :=
  forwardedBody_spec "<S>".data "http://c".data "</S>".data "http://proxy".data
    (by decide) (by decide) (by decide)


theorem subscriptionsToStore_mem (ca R : String) (hb : Option Int)
    (reqs : List BaseSubscriptionRequest) (L : List SiriSubscription)
    (h : SiriProxy.subscriptionsToStore ca R hb reqs = Result.ok L) :
    (∀ s ∈ L, s.RequestorRef = R ∧ s.ConsumerAddress = ca ∧ s.HeartbeatInterval = hb
      ∧ ∃ r ∈ reqs, r.SubscriptionIdentifier = some s.SubscriptionRef
        ∧ r.InitialTerminationTime = some s.InitialTerminationTime)
    ∧ (∀ r ∈ reqs, ∀ X, r.SubscriptionIdentifier = some X → ∃ s ∈ L, s.SubscriptionRef = X) := by
  induction reqs generalizing L with
  | nil =>
    simp only [SiriProxy.subscriptionsToStore, Result.ok.injEq] at h
    subst h
    exact ⟨fun s hs => absurd hs (List.not_mem_nil _), fun r hr => absurd hr (List.not_mem_nil _)⟩
  | cons q qs ih =>
    rw [SiriProxy.subscriptionsToStore] at h
    cases hi : q.SubscriptionIdentifier with
    | none => rw [hi] at h; simp at h
    | some ident =>
      cases ht : q.InitialTerminationTime with
      | none => rw [hi, ht] at h; simp at h
      | some term =>
        rw [hi, ht] at h
        simp only at h
        cases hr : SiriProxy.subscriptionsToStore ca R hb qs with
        | error => rw [hr] at h; simp [Result.bind] at h
        | panic => rw [hr] at h; simp [Result.bind] at h
        | ok l =>
          rw [hr] at h
          simp only [Result.bind, Result.ok.injEq] at h
          subst h
          obtain ⟨ih1, ih2⟩ := ih l hr
          constructor
          · intro s hs
            rcases List.mem_cons.1 hs with rfl | hs
            · exact ⟨rfl, rfl, rfl, q, List.mem_cons_self _ _, hi, ht⟩
            · obtain ⟨a, b, c, r, hr1, hr2⟩ := ih1 s hs
              exact ⟨a, b, c, r, List.mem_cons_of_mem _ hr1, hr2⟩
          · intro r hr1 X hX
            rcases List.mem_cons.1 hr1 with rfl | hr1
            · rw [hi] at hX
              exact ⟨_, List.mem_cons_self _ _, Option.some.inj hX⟩
            · obtain ⟨s, hs, hsX⟩ := ih2 r hr1 X hX
              exact ⟨s, List.mem_cons_of_mem _ hs, hsX⟩

theorem successfulSubscriptions_mem (toStore : List SiriSubscription)
    (statuses : List ResponseStatus) (S : List SiriSubscription)
    (h : SiriProxy.successfulSubscriptions toStore statuses = Result.ok S)
    (s : SiriSubscription) :
    s ∈ S ↔ s ∈ toStore ∧ ∃ st ∈ statuses, st.SubscriptionRef = some s.SubscriptionRef
      ∧ st.Status = some true := by
  induction statuses generalizing S with
  | nil =>
    simp only [SiriProxy.successfulSubscriptions, Result.ok.injEq] at h
    subst h
    simp
  | cons q qs ih =>
    rw [SiriProxy.successfulSubscriptions] at h
    cases hi : q.SubscriptionRef with
    | none => rw [hi] at h; simp at h
    | some ref =>
      cases ht : q.Status with
      | none => rw [hi, ht] at h; simp at h
      | some status =>
        rw [hi, ht] at h
        simp only at h
        cases hr : SiriProxy.successfulSubscriptions toStore qs with
        | error => rw [hr] at h; simp [Result.bind] at h
        | panic => rw [hr] at h; simp [Result.bind] at h
        | ok l =>
          rw [hr] at h
          simp only [Result.bind, Result.ok.injEq] at h
          subst h
          rw [List.mem_append, ih l hr, List.mem_filter]
          simp only [Bool.and_eq_true, decide_eq_true_eq, List.mem_cons, exists_eq_or_imp, hi, ht,
            Option.some.injEq]
          constructor
          · rintro (⟨h1, h2, h3⟩ | ⟨h1, h2⟩)
            · exact ⟨h1, Or.inl ⟨h2.symm, h3⟩⟩
            · exact ⟨h1, Or.inr h2⟩
          · rintro ⟨h1, ⟨h2, h3⟩ | h2⟩
            · exact Or.inl ⟨h1, h2.symm, h3⟩
            · exact Or.inr ⟨h1, h2⟩


theorem subscriptionsToStore_ok (ca R : String) (hb : Option Int)
    (reqs : List BaseSubscriptionRequest)
    (hreq : ∀ r ∈ reqs, r.SubscriptionIdentifier ≠ none ∧ r.InitialTerminationTime ≠ none) :
    ∃ L, SiriProxy.subscriptionsToStore ca R hb reqs = Result.ok L := by
  induction reqs with
  | nil => exact ⟨[], rfl⟩
  | cons q qs ih =>
    obtain ⟨l, hl⟩ := ih (fun r hr => hreq r (List.mem_cons_of_mem _ hr))
    obtain ⟨h1, h2⟩ := hreq q (List.mem_cons_self _ _)
    cases hi : q.SubscriptionIdentifier with
    | none => exact absurd hi h1
    | some ident =>
      cases ht : q.InitialTerminationTime with
      | none => exact absurd ht h2
      | some term =>
        rw [SiriProxy.subscriptionsToStore, hi, ht]
        simp only [hl, Result.bind]
        exact ⟨_, rfl⟩

theorem successfulSubscriptions_ok (toStore : List SiriSubscription)
    (statuses : List ResponseStatus)
    (hst : ∀ st ∈ statuses, st.SubscriptionRef ≠ none ∧ st.Status ≠ none) :
    ∃ S, SiriProxy.successfulSubscriptions toStore statuses = Result.ok S := by
  induction statuses with
  | nil => exact ⟨[], rfl⟩
  | cons q qs ih =>
    obtain ⟨l, hl⟩ := ih (fun r hr => hst r (List.mem_cons_of_mem _ hr))
    obtain ⟨h1, h2⟩ := hst q (List.mem_cons_self _ _)
    cases hi : q.SubscriptionRef with
    | none => exact absurd hi h1
    | some ref =>
      cases ht : q.Status with
      | none => exact absurd ht h2
      | some status =>
        rw [SiriProxy.successfulSubscriptions, hi, ht]
        simp only [hl, Result.bind]
        exact ⟨_, rfl⟩

theorem removeDuplicates_spec (l : List SiriSubscription) (seen : List String) :
    (∀ d ∈ SiriProxy.removeDuplicates seen l,
      d ∈ l ∧ d.RequestorRef ++ d.SubscriptionRef ∉ seen)
    ∧ ((SiriProxy.removeDuplicates seen l).map
        (fun d => d.RequestorRef ++ d.SubscriptionRef)).Nodup
    ∧ (∀ s ∈ l, s.RequestorRef ++ s.SubscriptionRef ∉ seen →
        ∃ d ∈ SiriProxy.removeDuplicates seen l,
          d.RequestorRef ++ d.SubscriptionRef = s.RequestorRef ++ s.SubscriptionRef) := by
  induction l generalizing seen with
  | nil =>
    exact ⟨fun d hd => absurd hd (List.not_mem_nil _), List.nodup_nil,
      fun s hs => absurd hs (List.not_mem_nil _)⟩
  | cons s rest ih =>
    by_cases hk : s.RequestorRef ++ s.SubscriptionRef ∈ seen
    · obtain ⟨i1, i2, i3⟩ := ih seen
      rw [SiriProxy.removeDuplicates, if_pos hk]
      refine ⟨fun d hd => ⟨List.mem_cons_of_mem _ (i1 d hd).1, (i1 d hd).2⟩, i2, ?_⟩
      intro x hx hxs
      rcases List.mem_cons.1 hx with rfl | hx
      · exact absurd hk hxs
      · exact i3 x hx hxs
    · obtain ⟨i1, i2, i3⟩ := ih ((s.RequestorRef ++ s.SubscriptionRef) :: seen)
      rw [SiriProxy.removeDuplicates, if_neg hk]
      refine ⟨?_, ?_, ?_⟩
      · intro d hd
        rcases List.mem_cons.1 hd with rfl | hd
        · exact ⟨List.mem_cons_self _ _, hk⟩
        · exact ⟨List.mem_cons_of_mem _ (i1 d hd).1,
            fun hm => (i1 d hd).2 (List.mem_cons_of_mem _ hm)⟩
      · rw [List.map_cons, List.nodup_cons]
        refine ⟨?_, i2⟩
        intro hm
        obtain ⟨d, hd, hdk⟩ := List.mem_map.1 hm
        exact (i1 d hd).2 (by rw [hdk]; exact List.mem_cons_self _ _)
      · intro x hx hxs
        rcases List.mem_cons.1 hx with rfl | hx
        · exact ⟨_, List.mem_cons_self _ _, rfl⟩
        · by_cases hxk : x.RequestorRef ++ x.SubscriptionRef
              = s.RequestorRef ++ s.SubscriptionRef
          · exact ⟨s, List.mem_cons_self _ _, hxk.symm⟩
          · obtain ⟨d, hd, hdk⟩ := i3 x hx (by
              intro hm
              rcases List.mem_cons.1 hm with h1 | h1
              · exact hxk h1
              · exact hxs h1)
            exact ⟨d, List.mem_cons_of_mem _ hd, hdk⟩

theorem string_append_cancel (R X Y : String) (h : R ++ X = R ++ Y) : X = Y := by
  have h1 := congrArg String.data h
  rw [String.data_append, String.data_append] at h1
  exact String.ext (List.append_cancel_left h1)

theorem isConfirmed_iff (reqs : List BaseSubscriptionRequest) (statuses : List ResponseStatus)
    (X : String) :
    isConfirmed reqs statuses X = true
      ↔ (∃ r ∈ reqs, r.SubscriptionIdentifier = some X)
        ∧ (∃ st ∈ statuses, st.SubscriptionRef = some X ∧ st.Status = some true) := by
  simp only [isConfirmed, Bool.and_eq_true, List.any_eq_true, decide_eq_true_eq]

theorem successful_key_iff (ca R : String) (hb : Option Int)
    (reqs : List BaseSubscriptionRequest) (statuses : List ResponseStatus)
    (L S : List SiriSubscription)
    (hL : SiriProxy.subscriptionsToStore ca R hb reqs = Result.ok L)
    (hS : SiriProxy.successfulSubscriptions L statuses = Result.ok S) (R1 X : String) :
    (∃ t ∈ S, R1 = t.RequestorRef ∧ X = t.SubscriptionRef)
      ↔ R1 = R ∧ isConfirmed reqs statuses X = true := by
  obtain ⟨a1, a2⟩ := subscriptionsToStore_mem ca R hb reqs L hL
  rw [isConfirmed_iff]
  constructor
  · rintro ⟨t, ht, h1, h2⟩
    obtain ⟨htL, st, hst, hst1, hst2⟩ := (successfulSubscriptions_mem L statuses S hS t).1 ht
    obtain ⟨hR, _, _, r, hr, hr1, _⟩ := a1 t htL
    subst h2
    exact ⟨h1.trans hR, ⟨r, hr, hr1⟩, ⟨st, hst, hst1, hst2⟩⟩
  · rintro ⟨h1, ⟨r, hr, hr1⟩, ⟨st, hst, hst1, hst2⟩⟩
    obtain ⟨t, htL, htX⟩ := a2 r hr X hr1
    refine ⟨t, (successfulSubscriptions_mem L statuses S hS t).2 ⟨htL, st, hst, ?_, hst2⟩, ?_,
      htX.symm⟩
    · rw [htX]; exact hst1
    · rw [h1]; exact ((a1 t htL).1).symm

theorem storeSubscriptions_result (stored : List SiriSubscription) (ca R : String)
    (hb : Option Int) (reqs : List BaseSubscriptionRequest) (statuses : List ResponseStatus)
    (hdist : (stored.map (fun s => (s.RequestorRef, s.SubscriptionRef))).Nodup)
    (hreq : ∀ r ∈ reqs, r.SubscriptionIdentifier ≠ none ∧ r.InitialTerminationTime ≠ none)
    (hst : ∀ st ∈ statuses, st.SubscriptionRef ≠ none ∧ st.Status ≠ none) :
    ∃ added,
      SiriProxy.storeSubscriptions stored ca R hb reqs statuses
        = Result.ok (stored.filter (fun s =>
            !(decide (s.RequestorRef = R) && isConfirmed reqs statuses s.SubscriptionRef))
          ++ added)
      ∧ (∀ s ∈ added, s.RequestorRef = R ∧ s.ConsumerAddress = ca ∧ s.HeartbeatInterval = hb
          ∧ ∃ r ∈ reqs, r.SubscriptionIdentifier = some s.SubscriptionRef
            ∧ r.InitialTerminationTime = some s.InitialTerminationTime)
      ∧ (∀ X, X ∈ added.map (fun s => s.SubscriptionRef) ↔ isConfirmed reqs statuses X = true)
      ∧ (added.map (fun s => s.SubscriptionRef)).Nodup
      ∧ ((stored.filter (fun s =>
            !(decide (s.RequestorRef = R) && isConfirmed reqs statuses s.SubscriptionRef))
          ++ added).map (fun s => (s.RequestorRef, s.SubscriptionRef))).Nodup := by
  obtain ⟨L, hL⟩ := subscriptionsToStore_ok ca R hb reqs hreq
  obtain ⟨S, hS⟩ := successfulSubscriptions_ok L statuses hst
  obtain ⟨a1, a2⟩ := subscriptionsToStore_mem ca R hb reqs L hL
  obtain ⟨c1, c2, c3⟩ := removeDuplicates_spec S []
  have hkey := successful_key_iff ca R hb reqs statuses L S hL hS
  have hmemS : ∀ d ∈ SiriProxy.removeDuplicates [] S, d ∈ L ∧ d.RequestorRef = R
      ∧ isConfirmed reqs statuses d.SubscriptionRef = true := by
    intro d hd
    have hdS := (c1 d hd).1
    have hdL := ((successfulSubscriptions_mem L statuses S hS d).1 hdS).1
    exact ⟨hdL, (a1 d hdL).1, ((hkey d.RequestorRef d.SubscriptionRef).1 ⟨d, hdS, rfl, rfl⟩).2⟩
  have hfilter : SiriProxy.removeUpdated stored S
      = stored.filter (fun s =>
          !(decide (s.RequestorRef = R) && isConfirmed reqs statuses s.SubscriptionRef)) := by
    unfold SiriProxy.removeUpdated
    apply List.filter_congr
    intro s _
    congr 1
    rw [Bool.eq_iff_iff]
    simp only [List.any_eq_true, Bool.and_eq_true, decide_eq_true_eq]
    exact hkey s.RequestorRef s.SubscriptionRef
  have hrefs : (List.map (fun s => s.SubscriptionRef) (SiriProxy.removeDuplicates [] S)).Nodup := by
    have e : (SiriProxy.removeDuplicates [] S).map
          (fun d => d.RequestorRef ++ d.SubscriptionRef)
        = ((SiriProxy.removeDuplicates [] S).map (fun s => s.SubscriptionRef)).map
            (fun X => R ++ X) := by
      rw [List.map_map]
      apply List.map_congr_left
      intro d hd
      show d.RequestorRef ++ d.SubscriptionRef = R ++ d.SubscriptionRef
      rw [(hmemS d hd).2.1]
    rw [e] at c2
    exact List.Nodup.of_map _ c2
  refine ⟨SiriProxy.removeDuplicates [] S, ?_, ?_, ?_, hrefs, ?_⟩
  · unfold SiriProxy.storeSubscriptions
    simp only [hL, hS, Result.bind, hfilter]
  · intro s hs
    exact a1 s (hmemS s hs).1
  · intro X
    constructor
    · intro hX
      obtain ⟨d, hd, rfl⟩ := List.mem_map.1 hX
      exact (hmemS d hd).2.2
    · intro hX
      obtain ⟨t, htS, _, htX⟩ := (hkey R X).2 ⟨rfl, hX⟩
      have htR : t.RequestorRef = R :=
        (a1 t ((successfulSubscriptions_mem L statuses S hS t).1 htS).1).1
      obtain ⟨d, hd, hdk⟩ := c3 t htS (List.not_mem_nil _)
      rw [(hmemS d hd).2.1, htR] at hdk
      exact List.mem_map.2 ⟨d, hd, (string_append_cancel R _ _ hdk).trans htX.symm⟩
  · rw [List.map_append, List.nodup_append]
    refine ⟨List.Nodup.sublist ((List.filter_sublist stored).map _) hdist, ?_, ?_⟩
    · have e : (SiriProxy.removeDuplicates [] S).map (fun s => s.SubscriptionRef)
          = ((SiriProxy.removeDuplicates [] S).map
              (fun s => (s.RequestorRef, s.SubscriptionRef))).map Prod.snd := by
        rw [List.map_map]
        rfl
      rw [e] at hrefs
      exact List.Nodup.of_map _ hrefs
    · rw [List.disjoint_left]
      intro p hp hp2
      obtain ⟨s, hs, rfl⟩ := List.mem_map.1 hp
      obtain ⟨d, hd, hdp⟩ := List.mem_map.1 hp2
      have hsf := (List.mem_filter.1 hs).2
      simp only [Prod.mk.injEq] at hdp
      obtain ⟨_, hdR, hdC⟩ := hmemS d hd
      rw [← hdp.1, ← hdp.2, hdR, hdC] at hsf
      simp at hsf


/-- C20: let no two stored subscriptions share `(RequestorRef,
SubscriptionRef)` (true of the empty store the proxy starts with and kept by
every exchange), and let the request and the response hold the fields the
handler requires. Then the exchange stores: every subscription stored before,
in order, except those of this requestor whose identifier is requested and
has a response status that is true; then exactly one subscription, built
from the request, for each requested identifier with a response status that is
true, and none for any other identifier. No two subscriptions stored
afterwards share `(RequestorRef, SubscriptionRef)`. -/
theorem storeSubscriptions_spec (stored : List SiriSubscription) (ca R : String)
    (hb : Option Int) (reqs : List BaseSubscriptionRequest) (statuses : List ResponseStatus)
    (hdist : (stored.map (fun s => (s.RequestorRef, s.SubscriptionRef))).Nodup)
    (hreq : ∀ r ∈ reqs, r.SubscriptionIdentifier ≠ none ∧ r.InitialTerminationTime ≠ none)
    (hst : ∀ st ∈ statuses, st.SubscriptionRef ≠ none ∧ st.Status ≠ none) :
    ∃ added,
      SiriProxy.storeSubscriptions stored ca R hb reqs statuses
        = Result.ok (stored.filter (fun s =>
            !(decide (s.RequestorRef = R) && isConfirmed reqs statuses s.SubscriptionRef))
          ++ added)
      ∧ (∀ s ∈ added, s.RequestorRef = R ∧ s.ConsumerAddress = ca ∧ s.HeartbeatInterval = hb
          ∧ ∃ r ∈ reqs, r.SubscriptionIdentifier = some s.SubscriptionRef
            ∧ r.InitialTerminationTime = some s.InitialTerminationTime)
      ∧ (∀ X, X ∈ added.map (fun s => s.SubscriptionRef) ↔ isConfirmed reqs statuses X = true)
      ∧ (added.map (fun s => s.SubscriptionRef)).Nodup
      ∧ ((stored.filter (fun s =>
            !(decide (s.RequestorRef = R) && isConfirmed reqs statuses s.SubscriptionRef))
          ++ added).map (fun s => (s.RequestorRef, s.SubscriptionRef))).Nodup :=
  storeSubscriptions_result stored ca R hb reqs statuses hdist hreq hst

/-- Witness of `storeSubscriptions_spec`: requestor R1 asks for the
subscriptions 1, 2 and 3 while subscription 1 of R1 and of R2 are stored; 1
and 3 are accepted. -/
theorem storeSubscriptions_spec_witness :
    ∃ added,
      SiriProxy.storeSubscriptions sampleStored "http://c" "R1" (some 30) sampleRequests
          sampleStatuses
        = Result.ok (sampleStored.filter (fun s =>
            !(decide (s.RequestorRef = "R1")
              && isConfirmed sampleRequests sampleStatuses s.SubscriptionRef))
          ++ added)
      ∧ (∀ s ∈ added, s.RequestorRef = "R1" ∧ s.ConsumerAddress = "http://c"
          ∧ s.HeartbeatInterval = some 30
          ∧ ∃ r ∈ sampleRequests, r.SubscriptionIdentifier = some s.SubscriptionRef
            ∧ r.InitialTerminationTime = some s.InitialTerminationTime)
      ∧ (∀ X, X ∈ added.map (fun s => s.SubscriptionRef)
          ↔ isConfirmed sampleRequests sampleStatuses X = true)
      ∧ (added.map (fun s => s.SubscriptionRef)).Nodup
      ∧ ((sampleStored.filter (fun s =>
            !(decide (s.RequestorRef = "R1")
              && isConfirmed sampleRequests sampleStatuses s.SubscriptionRef))
          ++ added).map (fun s => (s.RequestorRef, s.SubscriptionRef))).Nodup :=
  storeSubscriptions_spec sampleStored "http://c" "R1" (some 30) sampleRequests sampleStatuses
    (by decide) (by decide) (by decide)

/-- The store after the sample exchange: subscription 1 of R2 as before, then
the new subscriptions 1 and 3 of R1. -/
theorem storeSubscriptions_sample :
    SiriProxy.storeSubscriptions sampleStored "http://c" "R1" (some 30) sampleRequests
        sampleStatuses
      = Result.ok
          [{ ConsumerAddress := "http://other", HeartbeatInterval := none, RequestorRef := "R2",
             InitialTerminationTime := 10, SubscriptionRef := "1" },
           { ConsumerAddress := "http://c", HeartbeatInterval := some 30, RequestorRef := "R1",
             InitialTerminationTime := 20, SubscriptionRef := "1" },
           { ConsumerAddress := "http://c", HeartbeatInterval := some 30, RequestorRef := "R1",
             InitialTerminationTime := 20, SubscriptionRef := "3" }] := by
  decide


theorem heartbeat_get_delete (m : HeartbeatMap) (k j : String) :
    HeartbeatMap.get (HeartbeatMap.delete m k) j
      = if j = k then none else HeartbeatMap.get m j := by
  induction m with
  | nil => simp [HeartbeatMap.delete, HeartbeatMap.get]
  | cons e es ih =>
    by_cases hek : e.1 = k
    · have : HeartbeatMap.delete (e :: es) k = HeartbeatMap.delete es k := by
        simp [HeartbeatMap.delete, hek]
      rw [this, ih]
      by_cases hjk : j = k
      · simp [hjk]
      · have hej : ¬ e.1 = j := fun h => hjk (h.symm.trans hek)
        simp [hjk, HeartbeatMap.get, hej]
    · have : HeartbeatMap.delete (e :: es) k = e :: HeartbeatMap.delete es k := by
        simp [HeartbeatMap.delete, hek]
      rw [this]
      by_cases hej : e.1 = j
      · have hjk : ¬ j = k := fun h => hek (hej.trans h)
        simp [HeartbeatMap.get, hej, hjk]
      · simp only [HeartbeatMap.get, hej, if_false]
        exact ih

theorem heartbeat_get_set (m : HeartbeatMap) (k j : String) (v : SiriHeartbeatSubscription) :
    HeartbeatMap.get (HeartbeatMap.set m k v) j
      = if j = k then some v else HeartbeatMap.get m j := by
  unfold HeartbeatMap.set
  by_cases hjk : j = k
  · simp [HeartbeatMap.get, hjk]
  · have hkj : ¬ k = j := fun h => hjk h.symm
    simp only [HeartbeatMap.get, hkj, if_false, hjk]
    rw [heartbeat_get_delete, if_neg hjk]

/-- What the loop of `initialiseHeartbeatNotifications` leaves in
`latestTerminationTime` and `minimumFrequency`, given their values `latest`
and `minFreq` before it, when every subscription of the address has a
heartbeat interval. -/
theorem heartbeatParameters_spec (ca : String) (l : List SiriSubscription)
    (hint : ∀ sub ∈ l, sub.ConsumerAddress = ca → ∃ i, sub.HeartbeatInterval = some i)
    (latest minFreq : Option Int) (hboth : latest = none ↔ minFreq = none) :
    ∃ latest1 minFreq1,
      heartbeatParameters ca l latest minFreq = some (latest1, minFreq1)
      ∧ (latest1 = none ↔ minFreq1 = none)
      ∧ (latest1 = none ↔ latest = none ∧ ∀ sub ∈ l, sub.ConsumerAddress ≠ ca)
      ∧ (∀ t, latest1 = some t →
          (latest = some t ∨ ∃ sub ∈ l, sub.ConsumerAddress = ca ∧ sub.InitialTerminationTime = t)
          ∧ (∀ u, latest = some u → u ≤ t)
          ∧ ∀ sub ∈ l, sub.ConsumerAddress = ca → sub.InitialTerminationTime ≤ t)
      ∧ (∀ d, minFreq1 = some d →
          (minFreq = some d ∨ ∃ sub ∈ l, sub.ConsumerAddress = ca ∧ sub.HeartbeatInterval = some d)
          ∧ (∀ u, minFreq = some u → d ≤ u)
          ∧ ∀ sub ∈ l, sub.ConsumerAddress = ca → ∀ i, sub.HeartbeatInterval = some i → d ≤ i) := by
  induction l generalizing latest minFreq with
  | nil =>
    refine ⟨latest, minFreq, rfl, hboth, ?_, ?_, ?_⟩
    · simp
    · intro t ht
      refine ⟨Or.inl ht, ?_, ?_⟩
      · intro u hu
        rw [ht] at hu
        exact le_of_eq (Option.some.inj hu).symm
      · intro sub hsub
        exact absurd hsub (List.not_mem_nil _)
    · intro d hd
      refine ⟨Or.inl hd, ?_, ?_⟩
      · intro u hu
        rw [hd] at hu
        exact le_of_eq (Option.some.inj hu)
      · intro sub hsub
        exact absurd hsub (List.not_mem_nil _)
  | cons s rest ih =>
    have hint1 : ∀ sub ∈ rest, sub.ConsumerAddress = ca → ∃ i, sub.HeartbeatInterval = some i :=
      fun sub hsub => hint sub (List.mem_cons_of_mem _ hsub)
    by_cases hs : s.ConsumerAddress = ca
    · obtain ⟨i, hi⟩ := hint s (List.mem_cons_self _ _) hs
      simp only [heartbeatParameters, ne_eq, hs, not_true_eq_false, if_false]
      cases hl : latest with
      | none =>
        have hm : minFreq = none := hboth.1 hl
        rw [hm]
        simp only [hi]
        obtain ⟨l1, m1, he, hb, hn, ht, hd⟩ := ih hint1 (some s.InitialTerminationTime) (some i)
          (by simp)
        refine ⟨l1, m1, he, hb, ?_, ?_, ?_⟩
        · constructor
          · intro h
            exact absurd (hn.1 h).1 (by simp)
          · intro h
            exact absurd hs (h.2 s (List.mem_cons_self _ _))
        · intro t htt
          obtain ⟨h1, h2, h3⟩ := ht t htt
          refine ⟨Or.inr ?_, by simp, ?_⟩
          · rcases h1 with h1 | ⟨sub, hsub, hsc, hst⟩
            · exact ⟨s, List.mem_cons_self _ _, hs, Option.some.inj h1⟩
            · exact ⟨sub, List.mem_cons_of_mem _ hsub, hsc, hst⟩
          · intro sub hsub hsc
            rcases List.mem_cons.1 hsub with rfl | hsub
            · exact h2 _ rfl
            · exact h3 sub hsub hsc
        · intro d hdd
          obtain ⟨h1, h2, h3⟩ := hd d hdd
          refine ⟨Or.inr ?_, by simp, ?_⟩
          · rcases h1 with h1 | ⟨sub, hsub, hsc, hst⟩
            · exact ⟨s, List.mem_cons_self _ _, hs, by rw [hi, h1]⟩
            · exact ⟨sub, List.mem_cons_of_mem _ hsub, hsc, hst⟩
          · intro sub hsub hsc j hj
            rcases List.mem_cons.1 hsub with rfl | hsub
            · rw [hi] at hj
              rw [← Option.some.inj hj]
              exact h2 _ rfl
            · exact h3 sub hsub hsc j hj
      | some l0 =>
        obtain ⟨m0, hm0⟩ : ∃ m0, minFreq = some m0 := by
          cases hmf : minFreq with
          | none => exact absurd (hboth.2 hmf) (by rw [hl]; simp)
          | some m0 => exact ⟨m0, rfl⟩
        rw [hm0]
        simp only [hi]
        obtain ⟨l1, m1, he, hb, hn, ht, hd⟩ := ih hint1
          (if s.InitialTerminationTime > l0 then some s.InitialTerminationTime else some l0)
          (if i < m0 then some i else some m0)
          (by split_ifs <;> simp)
        refine ⟨l1, m1, he, hb, ?_, ?_, ?_⟩
        · constructor
          · intro h
            have := (hn.1 h).1
            split_ifs at this
          · intro h
            exact absurd h.1 (by simp)
        · intro t htt
          obtain ⟨h1, h2, h3⟩ := ht t htt
          refine ⟨?_, ?_, ?_⟩
          · rcases h1 with h1 | ⟨sub, hsub, hsc, hst⟩
            · split_ifs at h1 with hgt
              · exact Or.inr ⟨s, List.mem_cons_self _ _, hs, Option.some.inj h1⟩
              · exact Or.inl h1
            · exact Or.inr ⟨sub, List.mem_cons_of_mem _ hsub, hsc, hst⟩
          · intro u hu
            have hu0 : u = l0 := (Option.some.inj hu).symm
            by_cases hgt : s.InitialTerminationTime > l0
            · have := h2 s.InitialTerminationTime (by rw [if_pos hgt])
              omega
            · have := h2 l0 (by rw [if_neg hgt])
              omega
          · intro sub hsub hsc
            rcases List.mem_cons.1 hsub with rfl | hsub
            · by_cases hgt : sub.InitialTerminationTime > l0
              · exact h2 _ (by rw [if_pos hgt])
              · have := h2 l0 (by rw [if_neg hgt])
                omega
            · exact h3 sub hsub hsc
        · intro d hdd
          obtain ⟨h1, h2, h3⟩ := hd d hdd
          refine ⟨?_, ?_, ?_⟩
          · rcases h1 with h1 | ⟨sub, hsub, hsc, hst⟩
            · split_ifs at h1 with hlt
              · exact Or.inr ⟨s, List.mem_cons_self _ _, hs, by rw [hi, h1]⟩
              · exact Or.inl h1
            · exact Or.inr ⟨sub, List.mem_cons_of_mem _ hsub, hsc, hst⟩
          · intro u hu
            have hu0 : u = m0 := (Option.some.inj hu).symm
            by_cases hlt : i < m0
            · have := h2 i (by rw [if_pos hlt])
              omega
            · have := h2 m0 (by rw [if_neg hlt])
              omega
          · intro sub hsub hsc j hj
            rcases List.mem_cons.1 hsub with rfl | hsub
            · rw [hi] at hj
              have hji : j = i := (Option.some.inj hj).symm
              by_cases hlt : i < m0
              · have := h2 i (by rw [if_pos hlt])
                omega
              · have := h2 m0 (by rw [if_neg hlt])
                omega
            · exact h3 sub hsub hsc j hj
    · simp only [heartbeatParameters, ne_eq, hs, not_false_eq_true, if_true]
      obtain ⟨l1, m1, he, hb, hn, ht, hd⟩ := ih hint1 latest minFreq hboth
      refine ⟨l1, m1, he, hb, ?_, ?_, ?_⟩
      · rw [hn]
        constructor
        · rintro ⟨h1, h2⟩
          refine ⟨h1, fun sub hsub => ?_⟩
          rcases List.mem_cons.1 hsub with rfl | hsub
          · exact hs
          · exact h2 sub hsub
        · rintro ⟨h1, h2⟩
          exact ⟨h1, fun sub hsub => h2 sub (List.mem_cons_of_mem _ hsub)⟩
      · intro t htt
        obtain ⟨h1, h2, h3⟩ := ht t htt
        refine ⟨?_, h2, ?_⟩
        · rcases h1 with h1 | ⟨sub, hsub, hsc, hst⟩
          · exact Or.inl h1
          · exact Or.inr ⟨sub, List.mem_cons_of_mem _ hsub, hsc, hst⟩
        · intro sub hsub hsc
          rcases List.mem_cons.1 hsub with rfl | hsub
          · exact absurd hsc hs
          · exact h3 sub hsub hsc
      · intro d hdd
        obtain ⟨h1, h2, h3⟩ := hd d hdd
        refine ⟨?_, h2, ?_⟩
        · rcases h1 with h1 | ⟨sub, hsub, hsc, hst⟩
          · exact Or.inl h1
          · exact Or.inr ⟨sub, List.mem_cons_of_mem _ hsub, hsc, hst⟩
        · intro sub hsub hsc
          rcases List.mem_cons.1 hsub with rfl | hsub
          · exact absurd hsc hs
          · exact h3 sub hsub hsc


theorem initialiseHeartbeatNotifications_entry (defaultInterval : Option Int) (now : Int)
    (s : ProxyState) (ca : String)
    (hex : ∃ sub ∈ s.Subscriptions, sub.ConsumerAddress = ca)
    (hpos : ∀ sub ∈ s.Subscriptions, sub.ConsumerAddress = ca →
      ∃ i, sub.HeartbeatInterval = some i ∧ 0 < i) :
    ∃ entry,
      SiriProxy.initialiseHeartbeatNotifications defaultInterval now s ca
        = ({ s with HeartbeatSubscriptions :=
              HeartbeatMap.set (HeartbeatMap.delete s.HeartbeatSubscriptions ca) ca entry }, true)
      ∧ (∃ sub ∈ s.Subscriptions, sub.ConsumerAddress = ca
          ∧ sub.HeartbeatInterval = some entry.Interval)
      ∧ (∀ sub ∈ s.Subscriptions, sub.ConsumerAddress = ca →
          ∀ i, sub.HeartbeatInterval = some i → entry.Interval ≤ i)
      ∧ (∃ sub ∈ s.Subscriptions, sub.ConsumerAddress = ca
          ∧ sub.InitialTerminationTime = entry.TerminationTime)
      ∧ (∀ sub ∈ s.Subscriptions, sub.ConsumerAddress = ca →
          sub.InitialTerminationTime ≤ entry.TerminationTime) := by
  obtain ⟨l1, m1, he, hb, hn, ht, hd⟩ := heartbeatParameters_spec ca s.Subscriptions
    (fun sub hsub hc => (hpos sub hsub hc).imp (fun _ h => h.1)) none none (by simp)
  obtain ⟨sub0, hsub0, hc0⟩ := hex
  have hl1 : l1 ≠ none := fun h => (hn.1 h).2 sub0 hsub0 hc0
  obtain ⟨t, rfl⟩ := Option.ne_none_iff_exists'.1 hl1
  have hm1 : m1 ≠ none := fun h => absurd (hb.2 h) (by simp)
  obtain ⟨d, rfl⟩ := Option.ne_none_iff_exists'.1 hm1
  obtain ⟨t1, t2, t3⟩ := ht t rfl
  obtain ⟨d1, d2, d3⟩ := hd d rfl
  have t1' : ∃ sub ∈ s.Subscriptions, sub.ConsumerAddress = ca ∧ sub.InitialTerminationTime = t := by
    rcases t1 with h | h
    · exact absurd h (by simp)
    · exact h
  have d1' : ∃ sub ∈ s.Subscriptions, sub.ConsumerAddress = ca ∧ sub.HeartbeatInterval = some d := by
    rcases d1 with h | h
    · exact absurd h (by simp)
    · exact h
  have hdpos : ¬ d ≤ 0 := by
    obtain ⟨sub, hsub, hc, hi⟩ := d1'
    obtain ⟨i, hi2, hi3⟩ := hpos sub hsub hc
    rw [hi] at hi2
    have := Option.some.inj hi2
    omega
  refine ⟨{ Interval := d, TerminationTime := t }, ?_, d1', d3, t1', t3⟩
  unfold SiriProxy.initialiseHeartbeatNotifications
  simp only [he, Option.getD_some, hdpos, if_false]

/-- C21: when at least one stored subscription has the consumer address and
the subscriptions of that address carry positive heartbeat intervals,
`initialiseHeartbeatNotifications` completes and stores for the address an
entry whose interval is the minimum heartbeat interval over the stored
subscriptions of the address and whose termination time is the latest initial
termination time over them. -/
theorem initialiseHeartbeatNotifications_spec (defaultInterval : Option Int) (now : Int)
    (s : ProxyState) (ca : String)
    (hex : ∃ sub ∈ s.Subscriptions, sub.ConsumerAddress = ca)
    (hpos : ∀ sub ∈ s.Subscriptions, sub.ConsumerAddress = ca →
      ∃ i, sub.HeartbeatInterval = some i ∧ 0 < i) :
    ∃ entry,
      (SiriProxy.initialiseHeartbeatNotifications defaultInterval now s ca).2 = true
      ∧ HeartbeatMap.get
          (SiriProxy.initialiseHeartbeatNotifications defaultInterval now s ca).1.HeartbeatSubscriptions
          ca = some entry
      ∧ (SiriProxy.initialiseHeartbeatNotifications defaultInterval now s ca).1.Subscriptions
          = s.Subscriptions
      ∧ (∃ sub ∈ s.Subscriptions, sub.ConsumerAddress = ca
          ∧ sub.HeartbeatInterval = some entry.Interval)
      ∧ (∀ sub ∈ s.Subscriptions, sub.ConsumerAddress = ca →
          ∀ i, sub.HeartbeatInterval = some i → entry.Interval ≤ i)
      ∧ (∃ sub ∈ s.Subscriptions, sub.ConsumerAddress = ca
          ∧ sub.InitialTerminationTime = entry.TerminationTime)
      ∧ (∀ sub ∈ s.Subscriptions, sub.ConsumerAddress = ca →
          sub.InitialTerminationTime ≤ entry.TerminationTime) := by
  obtain ⟨entry, he, h1, h2, h3, h4⟩ :=
    initialiseHeartbeatNotifications_entry defaultInterval now s ca hex hpos
  refine ⟨entry, ?_, ?_, ?_, h1, h2, h3, h4⟩
  · rw [he]
  · rw [he]
    show HeartbeatMap.get (HeartbeatMap.set _ ca entry) ca = some entry
    rw [heartbeat_get_set, if_pos rfl]
  · rw [he]

/-- Two subscriptions of one consumer address with intervals 60 and 30 and
termination times 20 and 50, and one of another address. -/
theorem initialiseHeartbeatNotifications_spec_witness :
    ∃ entry,
      (SiriProxy.initialiseHeartbeatNotifications (some 300) 5 sampleProxyState "http://c").2
        = true
      ∧ HeartbeatMap.get
          (SiriProxy.initialiseHeartbeatNotifications (some 300) 5 sampleProxyState
            "http://c").1.HeartbeatSubscriptions "http://c" = some entry
      ∧ (SiriProxy.initialiseHeartbeatNotifications (some 300) 5 sampleProxyState
            "http://c").1.Subscriptions = sampleProxyState.Subscriptions
      ∧ (∃ sub ∈ sampleProxyState.Subscriptions, sub.ConsumerAddress = "http://c"
          ∧ sub.HeartbeatInterval = some entry.Interval)
      ∧ (∀ sub ∈ sampleProxyState.Subscriptions, sub.ConsumerAddress = "http://c" →
          ∀ i, sub.HeartbeatInterval = some i → entry.Interval ≤ i)
      ∧ (∃ sub ∈ sampleProxyState.Subscriptions, sub.ConsumerAddress = "http://c"
          ∧ sub.InitialTerminationTime = entry.TerminationTime)
      ∧ (∀ sub ∈ sampleProxyState.Subscriptions, sub.ConsumerAddress = "http://c" →
          sub.InitialTerminationTime ≤ entry.TerminationTime) :=
  initialiseHeartbeatNotifications_spec (some 300) 5 sampleProxyState "http://c"
    (by decide) (by decide)

/-- The entry set up for the sample state: interval 30, termination time 50. -/
theorem initialiseHeartbeatNotifications_sample :
    HeartbeatMap.get
        (SiriProxy.initialiseHeartbeatNotifications (some 300) 5 sampleProxyState
          "http://c").1.HeartbeatSubscriptions "http://c"
      = some { Interval := 30, TerminationTime := 50 } := by
  decide


theorem removeListed_eq (R : String) (l : List String) (subs : List SiriSubscription) :
    removeListed R (l.map some) subs
      = (subs.filter (fun sub =>
          !(decide (sub.RequestorRef = R) && decide (sub.SubscriptionRef ∈ l))), true) := by
  induction l generalizing subs with
  | nil => simp [removeListed]
  | cons x xs ih =>
    rw [List.map_cons, removeListed, ih, List.filter_filter]
    congr 1
    apply List.filter_congr
    intro sub _
    by_cases h1 : sub.RequestorRef = R <;> by_cases h2 : sub.SubscriptionRef = x <;>
      by_cases h3 : sub.SubscriptionRef ∈ xs <;> simp [h1, h2, h3]

theorem removeListed_sublist (R : String) (refs : List (Option String))
    (subs : List SiriSubscription) : (removeListed R refs subs).1.Sublist subs := by
  induction refs generalizing subs with
  | nil => exact List.Sublist.refl _
  | cons x xs ih =>
    cases x with
    | none => exact List.Sublist.refl _
    | some r =>
      rw [removeListed]
      exact (ih _).trans (List.filter_sublist _)

/-- C23, counterexample: the stored subscriptions are 1 and 2 of requestor R1
and 1 of requestor R2. A request of R1 with `All` set to false and the
subscription reference 1 removes both subscriptions of R1, not only
subscription 1. -/
theorem terminate_all_false_removes_all :
    (SiriProxy.removeSubscription id
        { Subscriptions :=
            [{ ConsumerAddress := "http://c", HeartbeatInterval := some 60, RequestorRef := "R1",
               InitialTerminationTime := 20, SubscriptionRef := "1" },
             { ConsumerAddress := "http://c", HeartbeatInterval := some 60, RequestorRef := "R1",
               InitialTerminationTime := 20, SubscriptionRef := "2" },
             { ConsumerAddress := "http://d", HeartbeatInterval := some 60, RequestorRef := "R2",
               InitialTerminationTime := 20, SubscriptionRef := "1" }]
          HeartbeatSubscriptions := [] }
        (some "R1") (some false) (some [some "1"])).1.Subscriptions
      = [{ ConsumerAddress := "http://d", HeartbeatInterval := some 60, RequestorRef := "R2",
           InitialTerminationTime := 20, SubscriptionRef := "1" }] := by
  decide

/-- C23, amended: for a terminate-subscription request with a `RequestorRef`,
when `All` is present, whatever its value, the stored subscriptions of the
requestor are removed and the call succeeds; when `All` is absent and
subscription references are listed, the stored subscriptions of the
requestor with one of the listed references are removed; when neither is
present the call fails and nothing is removed. The subscriptions that remain
are the others, in their order. -/
theorem removeSubscription_spec (rangeOrder : HeartbeatMap → HeartbeatMap) (s : ProxyState)
    (R : String) :
    (∀ (b : Bool) (refs : Option (List (Option String))),
      SiriProxy.removeSubscription rangeOrder s (some R) (some b) refs
        = ({ s with Subscriptions :=
              s.Subscriptions.filter (fun sub => decide (sub.RequestorRef ≠ R)) }, Result.ok ()))
    ∧ (∀ l : List String,
        (SiriProxy.removeSubscription rangeOrder s (some R) none (some (l.map some))).1.Subscriptions
          = s.Subscriptions.filter (fun sub =>
              !(decide (sub.RequestorRef = R) && decide (sub.SubscriptionRef ∈ l))))
    ∧ SiriProxy.removeSubscription rangeOrder s (some R) none none = (s, Result.error) := by
  refine ⟨fun b refs => rfl, fun l => ?_, rfl⟩
  unfold SiriProxy.removeSubscription
  simp only [removeListed_eq, if_true]


theorem initialiseHeartbeatNotifications_sets (d : Int) (hd : 0 < d) (now : Int)
    (s : ProxyState) (ca : String)
    (hpos : ∀ sub ∈ s.Subscriptions, sub.ConsumerAddress = ca →
      ∃ i, sub.HeartbeatInterval = some i ∧ 0 < i) :
    ∃ entry,
      SiriProxy.initialiseHeartbeatNotifications (some d) now s ca
        = ({ s with HeartbeatSubscriptions :=
              HeartbeatMap.set (HeartbeatMap.delete s.HeartbeatSubscriptions ca) ca entry },
            true) := by
  obtain ⟨l1, m1, he, _, _, _, hdm⟩ := heartbeatParameters_spec ca s.Subscriptions
    (fun sub hsub hc => (hpos sub hsub hc).imp (fun _ h => h.1)) none none (by simp)
  unfold SiriProxy.initialiseHeartbeatNotifications
  simp only [he]
  cases m1 with
  | none =>
    simp only [not_le.2 hd, if_false]
    exact ⟨_, rfl⟩
  | some m =>
    obtain ⟨h1, _, _⟩ := hdm m rfl
    have hm : ¬ m ≤ 0 := by
      rcases h1 with h | ⟨sub, hsub, hc, hi⟩
      · exact absurd h (by simp)
      · obtain ⟨i, hi2, hi3⟩ := hpos sub hsub hc
        rw [hi] at hi2
        have := Option.some.inj hi2
        omega
    simp only [hm, if_false]
    exact ⟨_, rfl⟩

theorem storeSubscriptions_mem (stored : List SiriSubscription) (ca R : String)
    (hb : Option Int) (reqs : List BaseSubscriptionRequest) (statuses : List ResponseStatus)
    (stored1 : List SiriSubscription)
    (h : SiriProxy.storeSubscriptions stored ca R hb reqs statuses = Result.ok stored1) :
    ∀ x ∈ stored1, x ∈ stored ∨ (x.ConsumerAddress = ca ∧ x.HeartbeatInterval = hb) := by
  unfold SiriProxy.storeSubscriptions at h
  cases hL : SiriProxy.subscriptionsToStore ca R hb reqs with
  | error => rw [hL] at h; simp [Result.bind] at h
  | panic => rw [hL] at h; simp [Result.bind] at h
  | ok L =>
    rw [hL] at h
    simp only [Result.bind] at h
    cases hS : SiriProxy.successfulSubscriptions L statuses with
    | error => rw [hS] at h; simp at h
    | panic => rw [hS] at h; simp at h
    | ok S =>
      rw [hS] at h
      simp only [Result.ok.injEq] at h
      subst h
      intro x hx
      rcases List.mem_append.1 hx with hx | hx
      · exact Or.inl (List.mem_filter.1 hx).1
      · have hxS := ((removeDuplicates_spec S []).1 x hx).1
        have hxL := ((successfulSubscriptions_mem L statuses S hS x).1 hxS).1
        obtain ⟨_, h2, h3, _⟩ := (subscriptionsToStore_mem ca R hb reqs L hL).1 x hxL
        exact Or.inr ⟨h2, h3⟩

theorem removeRedundantHeartbeats_get (subs : List SiriSubscription)
    (visit : List (String × SiriHeartbeatSubscription)) (hm : HeartbeatMap) (x : String)
    (hx : ∃ sub ∈ subs, sub.ConsumerAddress = x) :
    HeartbeatMap.get (removeRedundantHeartbeats subs visit hm).1 x = HeartbeatMap.get hm x := by
  induction visit generalizing hm with
  | nil => rfl
  | cons e es ih =>
    obtain ⟨k, v⟩ := e
    rw [removeRedundantHeartbeats]
    cases hf : subs.find? (fun sub => decide (k = sub.ConsumerAddress)) with
    | none =>
      simp only
      rw [ih, heartbeat_get_delete]
      have hxk : ¬ x = k := by
        intro hxk
        obtain ⟨sub, hsub, hc⟩ := hx
        have := List.find?_eq_none.1 hf sub hsub
        simp only [decide_eq_true_eq] at this
        exact this (hxk.symm.trans hc.symm)
      rw [if_neg hxk]
    | some found =>
      simp only
      cases found.HeartbeatInterval with
      | none => rfl
      | some _ => exact ih hm

theorem covered_of_sublist (s : ProxyState) (subs : List SiriSubscription)
    (hs : s.Covered) (hsub : ∀ x ∈ subs, x ∈ s.Subscriptions) :
    ProxyState.Covered { s with Subscriptions := subs } :=
  fun x hx => hs x (hsub x hx)

theorem covered_step (d : Int) (hd : 0 < d) (rangeOrder : HeartbeatMap → HeartbeatMap)
    (s : ProxyState) (e : ProxyEvent) (hs : s.Covered) (he : e.isRequest = true) :
    (SiriProxy.step (some d) rangeOrder s e).Covered := by
  cases e with
  | timerExpiry ca => exact absurd he (by simp [ProxyEvent.isRequest])
  | terminate requestorRef all refs =>
    show (SiriProxy.removeSubscription rangeOrder s requestorRef all refs).1.Covered
    unfold SiriProxy.removeSubscription
    cases requestorRef with
    | none => exact hs
    | some R =>
      cases all with
      | some b => exact covered_of_sublist s _ hs (fun x hx => (List.mem_filter.1 hx).1)
      | none =>
        cases refs with
        | none => exact hs
        | some l =>
          have hsl := removeListed_sublist R l s.Subscriptions
          simp only
          by_cases hok : (removeListed R l s.Subscriptions).2 = true
          · rw [if_pos hok]
            intro x hx
            have hxs : x ∈ s.Subscriptions := hsl.subset hx
            refine ⟨(hs x hxs).1, ?_⟩
            show HeartbeatMap.get (removeRedundantHeartbeats _ _ _).1 _ ≠ none
            rw [removeRedundantHeartbeats_get _ _ _ _ ⟨x, hx, rfl⟩]
            exact (hs x hxs).2
          · rw [if_neg hok]
            exact covered_of_sublist s _ hs (fun x hx => hsl.subset hx)
  | exchange now ca R requested reqs statuses =>
    show (SiriProxy.subscriptionExchange (some d) now s ca R requested reqs statuses).Covered
    unfold SiriProxy.subscriptionExchange
    obtain ⟨j, hj, hjpos⟩ : ∃ j, heartbeatIntervalOf requested (some d) = some j ∧ 0 < j := by
      cases requested with
      | none => exact ⟨d, rfl, hd⟩
      | some i => exact ⟨i, rfl, by simpa [ProxyEvent.isRequest] using he⟩
    rw [hj]
    cases hst : SiriProxy.storeSubscriptions s.Subscriptions ca R (some j) reqs statuses with
    | error => exact hs
    | panic => exact hs
    | ok stored =>
      simp only
      have hmem := storeSubscriptions_mem s.Subscriptions ca R (some j) reqs statuses stored hst
      have hint : ∀ sub ∈ stored, ∃ i, sub.HeartbeatInterval = some i ∧ 0 < i := by
        intro sub hsub
        rcases hmem sub hsub with h | h
        · exact (hs sub h).1
        · exact ⟨j, h.2, hjpos⟩
      obtain ⟨entry, hentry⟩ := initialiseHeartbeatNotifications_sets d hd now
        { s with Subscriptions := stored } ca (fun sub hsub _ => hint sub hsub)
      rw [hentry]
      intro sub hsub
      refine ⟨hint sub hsub, ?_⟩
      show HeartbeatMap.get (HeartbeatMap.set _ ca entry) sub.ConsumerAddress ≠ none
      rw [heartbeat_get_set]
      by_cases hc : sub.ConsumerAddress = ca
      · rw [if_pos hc]; simp
      · rw [if_neg hc, heartbeat_get_delete, if_neg hc]
        rcases hmem sub hsub with h | h
        · exact (hs sub h).2
        · exact absurd h.1 hc

theorem covered_foldl (d : Int) (hd : 0 < d) (rangeOrder : HeartbeatMap → HeartbeatMap)
    (events : List ProxyEvent) (s : ProxyState) (hs : s.Covered)
    (hev : ∀ e ∈ events, e.isRequest = true) :
    (events.foldl (SiriProxy.step (some d) rangeOrder) s).Covered := by
  induction events generalizing s with
  | nil => exact hs
  | cons e es ih =>
    rw [List.foldl_cons]
    exact ih _ (covered_step d hd rangeOrder s e hs (hev e (List.mem_cons_self _ _)))
      (fun x hx => hev x (List.mem_cons_of_mem _ hx))

/-- C22, counterexample: a subscription exchange stores two subscriptions of
the consumer address `http://c` and sets up its heartbeat entry; when the
timer of the entry fires, the entry is deleted and the subscriptions stay. The
state reached has subscriptions of `http://c` and no heartbeat entry for
it. -/
theorem timer_expiry_leaves_subscriptions :
    (SiriProxy.run (some 300) id
        [ProxyEvent.exchange 5 "http://c" "R1" (some 60) sampleRequests sampleStatuses,
         ProxyEvent.timerExpiry "http://c"]).Subscriptions
      = [{ ConsumerAddress := "http://c", HeartbeatInterval := some 60, RequestorRef := "R1",
           InitialTerminationTime := 20, SubscriptionRef := "1" },
         { ConsumerAddress := "http://c", HeartbeatInterval := some 60, RequestorRef := "R1",
           InitialTerminationTime := 20, SubscriptionRef := "3" }]
    ∧ HeartbeatMap.get
        (SiriProxy.run (some 300) id
          [ProxyEvent.exchange 5 "http://c" "R1" (some 60) sampleRequests sampleStatuses,
           ProxyEvent.timerExpiry "http://c"]).HeartbeatSubscriptions "http://c" = none := by
  refine ⟨by decide, by decide⟩

/-- C22, amended: in every state reached from the empty state through
subscription exchanges and terminate-subscription requests, with positive
heartbeat intervals (the default one and those of the requests), every
consumer address of a stored subscription has a heartbeat entry. -/
theorem heartbeat_entry_of_subscription (d : Int) (hd : 0 < d)
    (rangeOrder : HeartbeatMap → HeartbeatMap) (events : List ProxyEvent)
    (hev : ∀ e ∈ events, e.isRequest = true) :
    ∀ sub ∈ (SiriProxy.run (some d) rangeOrder events).Subscriptions,
      HeartbeatMap.get (SiriProxy.run (some d) rangeOrder events).HeartbeatSubscriptions
        sub.ConsumerAddress ≠ none :=
  fun sub hsub =>
    (covered_foldl d hd rangeOrder events { Subscriptions := [], HeartbeatSubscriptions := [] }
      (fun _ hx => absurd hx (List.not_mem_nil _)) hev sub hsub).2

/-- Witness of `heartbeat_entry_of_subscription`: an exchange that stores the
subscriptions 1 and 3 of R1, then a request of R1 to terminate
subscription 1; subscription 3 stays stored and its address has an entry. -/
theorem heartbeat_entry_of_subscription_witness :
    ({ ConsumerAddress := "http://c", HeartbeatInterval := some 60, RequestorRef := "R1",
       InitialTerminationTime := 20, SubscriptionRef := "3" } : SiriSubscription)
      ∈ (SiriProxy.run (some 300) id
        [ProxyEvent.exchange 5 "http://c" "R1" (some 60) sampleRequests sampleStatuses,
         ProxyEvent.terminate (some "R1") none (some [some "1"])]).Subscriptions
    ∧ HeartbeatMap.get (SiriProxy.run (some 300) id
        [ProxyEvent.exchange 5 "http://c" "R1" (some 60) sampleRequests sampleStatuses,
         ProxyEvent.terminate (some "R1") none (some [some "1"])]).HeartbeatSubscriptions
        "http://c" ≠ none :=
  ⟨by decide,
    heartbeat_entry_of_subscription 300 (by decide) id
      [ProxyEvent.exchange 5 "http://c" "R1" (some 60) sampleRequests sampleStatuses,
       ProxyEvent.terminate (some "R1") none (some [some "1"])] (by decide)
      { ConsumerAddress := "http://c", HeartbeatInterval := some 60, RequestorRef := "R1",
        InitialTerminationTime := 20, SubscriptionRef := "3" } (by decide)⟩

/-- The converse fails as well: a terminate-subscription request with `All`
returns before the heartbeat entries are looked at, so the entry of an
address outlives its last subscription. -/
theorem terminate_all_keeps_heartbeat_entry :
    SiriProxy.run (some 300) id
        [ProxyEvent.exchange 5 "http://c" "R1" (some 60) sampleRequests sampleStatuses,
         ProxyEvent.terminate (some "R1") (some true) none]
      = { Subscriptions := []
          HeartbeatSubscriptions := [("http://c", { Interval := 60, TerminationTime := 20 })] } := by
  decide


theorem getStand_iff (d : Departure) (stand : String) :
    d.GetStand = some stand
      ↔ ∃ s1 s2, StandStopPattern (d.LocationAtcocode.data.map goToUpper) s1 s2
          ∧ stand = if s1 = '0' then String.mk [s2] else String.mk [s1, s2] := by
  unfold Departure.GetStand
  generalize d.LocationAtcocode.data.map goToUpper = code
  constructor
  · intro h
    split at h
    · rename_i c a b g1 g2 s1 s2 n
      split at h
      · rename_i hc
        simp only [Bool.and_eq_true, Bool.or_eq_true, decide_eq_true_eq] at hc
        obtain ⟨⟨⟨⟨⟨⟨hc1, hc2⟩, hc3⟩, hg⟩, hs1⟩, hs2⟩, hn⟩ := hc
        refine ⟨s1, s2, ⟨c, a, b, n, [g1, g2], ?_, ?_, hc1, hc2, hc3, hs1, hs2, hn⟩, ?_⟩
        · rcases hg with (⟨rfl, rfl⟩ | ⟨rfl, rfl⟩) | ⟨rfl, rfl⟩ <;> simp
        · rfl
        · split at h
          · rename_i h0
            rw [if_pos h0]
            exact (Option.some.inj h).symm
          · rename_i h0
            rw [if_neg h0]
            exact (Option.some.inj h).symm
      · exact absurd h (by simp)
    · exact absurd h (by simp)
  · rintro ⟨s1, s2, ⟨c, a, b, n, g, hg, rfl, hc1, hc2, hc3, hs1, hs2, hn⟩, rfl⟩
    simp only [List.mem_cons, List.mem_singleton, List.not_mem_nil, or_false] at hg
    rcases hg with rfl | rfl | rfl
    · simp only [List.cons_append, List.nil_append, hc1, hc2, hc3, hs1, hs2, hn]
      by_cases h0 : s1 = '0' <;> simp [h0]
    · simp only [List.cons_append, List.nil_append, hc1, hc2, hc3, hs1, hs2, hn]
      by_cases h0 : s1 = '0' <;> simp [h0]
    · simp only [List.cons_append, List.nil_append, hc1, hc2, hc3, hs1, hs2, hn]
      by_cases h0 : s1 = '0' <;> simp [h0]

/-- C24, counterexample: the location code 1800bnin0c1 does not match the
stand-stop pattern, whose classes hold upper-case letters only, yet `GetStand`
returns the stand C for it: the code is converted to upper case first. -/
theorem getStand_of_lower_case :
    (sampleAt "1800bnin0c1").GetStand = some "C"
    ∧ ¬ ∃ s1 s2, StandStopPattern (sampleAt "1800bnin0c1").LocationAtcocode.data s1 s2 := by
  refine ⟨by decide, ?_⟩
  rintro ⟨s1, s2, c, a, b, n, g, _, h, _, ha, _⟩
  have h4 := congrArg (fun l => l.get? 4) h
  simp only [sampleAt, List.cons_append, List.nil_append] at h4
  have : a = 'b' := by
    simpa using h4.symm
  rw [this] at ha
  exact absurd ha (by decide)

/-- C24, amended: `GetStand` returns a stand iff the location code, converted
to upper case, matches the stand-stop pattern; the stand is then the two
characters of the second group, or only the second of them when the first is
`0`, so it has one or two characters. -/
theorem GetStand_spec (d : Departure) :
    (∀ stand, d.GetStand = some stand
      ↔ ∃ s1 s2, StandStopPattern (d.LocationAtcocode.data.map goToUpper) s1 s2
          ∧ stand = if s1 = '0' then String.mk [s2] else String.mk [s1, s2])
    ∧ (d.GetStand = none
      ↔ ¬ ∃ s1 s2, StandStopPattern (d.LocationAtcocode.data.map goToUpper) s1 s2)
    ∧ (∀ stand, d.GetStand = some stand → stand.length = 1 ∨ stand.length = 2) := by
  refine ⟨getStand_iff d, ?_, ?_⟩
  · constructor
    · rintro h ⟨s1, s2, hp⟩
      have := (getStand_iff d _).2 ⟨s1, s2, hp, rfl⟩
      rw [h] at this
      exact absurd this (by simp)
    · intro h
      cases hg : d.GetStand with
      | none => rfl
      | some stand =>
        obtain ⟨s1, s2, hp, _⟩ := (getStand_iff d stand).1 hg
        exact absurd ⟨s1, s2, hp⟩ h
  · intro stand h
    obtain ⟨s1, s2, _, rfl⟩ := (getStand_iff d stand).1 h
    by_cases h0 : s1 = '0'
    · left; rw [if_pos h0]; rfl
    · right; rw [if_neg h0]; rfl

/-- The stands of the sample codes: A for 1800BNIN0A1, 14 for 1800TCBS141,
none for the stop 1800NE43431. -/
theorem GetStand_samples :
    (sampleAt "1800BNIN0A1").GetStand = some "A"
    ∧ (sampleAt "1800TCBS141").GetStand = some "14"
    ∧ (sampleAt "1800NE43431").GetStand = none := by
  refine ⟨by decide, by decide, by decide⟩


theorem destinationTexts_ok (locations : List ServiceLocation)
    (h : ∀ l ∈ locations, l.LocationName ≠ none) :
    RailIngester.destinationTexts locations
      = Result.ok (locations.map (fun l => destinationText (l.LocationName.getD "") l.Via)) := by
  induction locations with
  | nil => rfl
  | cons x xs ih =>
    have hx := h x (List.mem_cons_self _ _)
    obtain ⟨name, hname⟩ := Option.ne_none_iff_exists'.1 hx
    rw [RailIngester.destinationTexts, hname]
    simp only [ih (fun l hl => h l (List.mem_cons_of_mem _ hl)), Result.bind, List.map_cons,
      hname, Option.getD_some, destinationText]
    by_cases hv : x.Via = ""
    · simp [hv]
    · simp [hv]

theorem destinationTexts_error_iff (locations : List ServiceLocation) :
    RailIngester.destinationTexts locations = Result.error
      ↔ ∃ l ∈ locations, l.LocationName = none := by
  induction locations with
  | nil => simp [RailIngester.destinationTexts]
  | cons x xs ih =>
    rw [RailIngester.destinationTexts]
    cases hname : x.LocationName with
    | none =>
      simp only [true_iff]
      exact ⟨x, List.mem_cons_self _ _, hname⟩
    | some name =>
      simp only
      cases hr : RailIngester.destinationTexts xs with
      | ok ds =>
        rw [hr] at ih
        simp only [Result.bind]
        constructor
        · intro h
          exact absurd h (by simp)
        · rintro ⟨l, hl, hln⟩
          rcases List.mem_cons.1 hl with rfl | hl
          · rw [hname] at hln; exact absurd hln (by simp)
          · exact absurd (ih.2 ⟨l, hl, hln⟩) (by simp)
      | error =>
        rw [hr] at ih
        simp only [Result.bind, true_iff]
        obtain ⟨l, hl, hln⟩ := ih.1 rfl
        exact ⟨l, List.mem_cons_of_mem _ hl, hln⟩
      | panic =>
        rw [hr] at ih
        simp only [Result.bind]
        constructor
        · intro h
          exact absurd h (by simp)
        · rintro ⟨l, hl, hln⟩
          rcases List.mem_cons.1 hl with rfl | hl
          · rw [hname] at hln; exact absurd hln (by simp)
          · exact absurd (ih.2 ⟨l, hl, hln⟩) (by simp)

/-- C25: for destination locations that all carry a name, `convertDestination`
returns the texts of the locations joined with " + " in input order, the text
of a location being its name, followed by a single space and its `Via` text
when that is not empty; for any list it returns an error iff some location
has no name. -/
theorem convertDestination_spec (locations : List ServiceLocation) :
    ((∀ l ∈ locations, l.LocationName ≠ none) →
      RailIngester.convertDestination locations
        = Result.ok (String.intercalate " + "
            (locations.map (fun l => destinationText (l.LocationName.getD "") l.Via))))
    ∧ (RailIngester.convertDestination locations = Result.error
        ↔ ∃ l ∈ locations, l.LocationName = none) := by
  constructor
  · intro h
    unfold RailIngester.convertDestination
    rw [destinationTexts_ok locations h]
    rfl
  · unfold RailIngester.convertDestination
    rw [← destinationTexts_error_iff]
    cases RailIngester.destinationTexts locations <;> simp [Result.bind]

/-- Witness of `convertDestination_spec`: two destinations, the second with a
`Via` text. -/
theorem convertDestination_spec_witness :
    RailIngester.convertDestination
        [{ LocationName := some "Leeds", Via := "" },
         { LocationName := some "York", Via := "via Selby" }]
      = Result.ok "Leeds + York via Selby" :=
  ((convertDestination_spec
      [{ LocationName := some "Leeds", Via := "" },
       { LocationName := some "York", Via := "via Selby" }]).1 (by decide)).trans (by decide)


theorem take_set_self {α : Type} (l : List α) (i : Nat) (a : α) :
    (l.set i a).take i = l.take i := by
  induction l generalizing i with
  | nil => simp
  | cons x xs ih =>
    cases i with
    | zero => simp
    | succ k => simp [List.set, ih]

theorem filterLoop_eq (keep : MonitoredStopVisit → Bool)
    (hkeep : ∀ v, keep v = (OptisPoller.hasDepartureTime v.MonitoredVehicleJourney.MonitoredCall
          && !OptisPoller.erroneousRecord v.MonitoredVehicleJourney
          && !OptisPoller.cancelledJourney v.MonitoredVehicleJourney))
    (orig : List MonitoredStopVisit) (fuel j i : Nat) (arr : List MonitoredStopVisit)
    (hfuel : j + fuel = orig.length) (hlen : arr.length = orig.length)
    (hrest : arr.drop j = orig.drop j) (hij : i ≤ j)
    (hkept : arr.take i = (orig.take j).filter keep) :
    OptisPoller.filterLoop fuel j i arr = orig.filter keep := by
  induction fuel generalizing j i arr with
  | zero =>
    rw [OptisPoller.filterLoop, hkept, List.take_of_length_le (by omega)]
  | succ f ih =>
    have hj : j < orig.length := by omega
    have hja : j < arr.length := by omega
    have hget : arr.get? j = some (orig.get ⟨j, hj⟩) := by
      have h1 : (arr.drop j).head? = (orig.drop j).head? := by rw [hrest]
      rw [List.head?_drop, List.head?_drop] at h1
      rw [List.get?_eq_getElem?, h1, List.getElem?_eq_getElem hj]
      rfl
    have htake : orig.take (j + 1) = orig.take j ++ [orig.get ⟨j, hj⟩] := by
      rw [List.take_succ, List.getElem?_eq_getElem hj]
      rfl
    rw [OptisPoller.filterLoop, hget]
    simp only [← hkeep]
    have hi : i = ((orig.take j).filter keep).length := by
      rw [← hkept, List.length_take]; omega
    by_cases hk : keep (orig.get ⟨j, hj⟩) = true
    · rw [if_pos hk]
      apply ih (j + 1) (i + 1) _ (by omega) (by rw [List.length_set]; exact hlen)
      · rw [List.drop_set_of_lt _ _ (by omega), ← List.drop_drop, ← List.drop_drop, hrest]
      · omega
      · rw [htake, List.filter_append, ← hkept]
        simp only [List.filter_cons, hk, if_true, List.filter_nil]
        have hia : i < arr.length := by omega
        rw [List.take_succ, take_set_self, List.getElem?_set_self hia]
        rfl
    · rw [if_neg hk]
      apply ih (j + 1) i _ (by omega) hlen
      · rw [← List.drop_drop, ← List.drop_drop, hrest]
      · omega
      · have hk1 : keep (orig.get ⟨j, hj⟩) = false := by simpa using hk
        rw [htake, List.filter_append, ← hkept]
        simp only [List.filter_cons, hk1, List.filter_nil, Bool.false_eq_true, if_false,
          List.append_nil]

/-- C26: the filter of the poller keeps, in their original order, exactly the
visits for which the aimed or the expected departure time is set, the aimed
departure time of the monitored call is not before the aimed departure time at
the origin, and the departure status of the monitored call is not
"cancelled". -/
theorem OptisPoller_filter_spec (visits : List MonitoredStopVisit) :
    OptisPoller.filter visits = visits.filter (fun v => decide (keptBySpec v)) := by
  unfold OptisPoller.filter
  apply filterLoop_eq _ _ visits visits.length 0 0 visits (by omega) rfl rfl (le_refl 0)
  · simp
  · intro v
    rw [Bool.eq_iff_iff]
    simp only [keptBySpec, OptisPoller.hasDepartureTime, OptisPoller.erroneousRecord,
      OptisPoller.cancelledJourney, decide_eq_true_eq, Bool.and_eq_true, Bool.or_eq_true,
      Bool.not_eq_true', decide_eq_false_iff_not]
    tauto

/-- The filter on four sample visits: the second has no departure time, the
third is aimed before the departure at the origin, the fourth is cancelled. -/
theorem OptisPoller_filter_sample :
    OptisPoller.filter
        [sampleVisit "a" (some 200) none "onTime",
         sampleVisit "b" none none "onTime",
         sampleVisit "c" (some 50) (some 300) "onTime",
         sampleVisit "d" (some 200) (some 300) "cancelled",
         sampleVisit "e" (some 400) (some 450) "delayed"]
      = [sampleVisit "a" (some 200) none "onTime",
         sampleVisit "e" (some 400) (some 450) "delayed"] := by
  decide


/-- C27: the buses J1 with service number 012 and J2 with service number 12
are due at the same time; both times parse and both service numbers match the
grammar. `Less` is true in both directions, so it is not asymmetric, and the
two departures, which differ in service number and in journeyRef, are not
ordered by exactly one of `Less(a, b)` and `Less(b, a)`. -/
theorem ByDepartureTime_Less_both_directions :
    ((sampleBus "J1" "2019-05-20T12:10:00+01:00" "012" "D").DepartureTime sampleParse).isSome
      = true
    ∧ ((sampleBus "J2" "2019-05-20T12:10:00+01:00" "12" "D").DepartureTime sampleParse).isSome
      = true
    ∧ grammarMatching (sampleBus "J1" "2019-05-20T12:10:00+01:00" "012" "D")
    ∧ grammarMatching (sampleBus "J2" "2019-05-20T12:10:00+01:00" "12" "D")
    ∧ ByDepartureTime.Less sampleParse
        (sampleBus "J1" "2019-05-20T12:10:00+01:00" "012" "D")
        (sampleBus "J2" "2019-05-20T12:10:00+01:00" "12" "D") = some true
    ∧ ByDepartureTime.Less sampleParse
        (sampleBus "J2" "2019-05-20T12:10:00+01:00" "12" "D")
        (sampleBus "J1" "2019-05-20T12:10:00+01:00" "012" "D") = some true := by
  refine ⟨by decide, by decide, by decide, by decide, by decide, by decide⟩

theorem insertLeft_isSome (less : Departure → Departure → Option Bool) (x : Departure)
    (done : List Departure) (h : ∀ y ∈ done, less x y ≠ none) :
    ∃ r, insertLeft less x done = some r := by
  induction done with
  | nil => exact ⟨[x], rfl⟩
  | cons y ys ih =>
    rw [insertLeft]
    cases hl : less x y with
    | none => exact absurd hl (h y (List.mem_cons_self _ _))
    | some b =>
      cases b with
      | true =>
        obtain ⟨r, hr⟩ := ih (fun z hz => h z (List.mem_cons_of_mem _ hz))
        exact ⟨y :: r, by simp [hr]⟩
      | false => exact ⟨_, rfl⟩

theorem insertionSortLoop_isSome (less : Departure → Departure → Option Bool)
    (done todo : List Departure)
    (h : ∀ x ∈ done ++ todo, ∀ y ∈ done ++ todo, less x y ≠ none) :
    ∃ r, insertionSortLoop less done todo = some r := by
  induction todo generalizing done with
  | nil => exact ⟨_, rfl⟩
  | cons x xs ih =>
    obtain ⟨done1, h1⟩ := insertLeft_isSome less x done
      (fun y hy => h x (by simp) y (by simp [hy]))
    rw [insertionSortLoop, h1]
    have hp := insertLeft_perm less x done done1 h1
    have hmem : ∀ z, z ∈ done1 ++ xs → z ∈ done ++ x :: xs := by
      intro z hz
      rcases List.mem_append.1 hz with hz | hz
      · rcases List.mem_cons.1 (hp.subset hz) with rfl | hz
        · simp
        · simp [hz]
      · simp [hz]
    exact ih done1 (fun a ha b hb => h a (hmem a ha) b (hmem b hb))

theorem removeExpiredDepartures_isOk (parse : String → Option Time) (now : Time)
    (l : List Departure) (h : ∀ d ∈ l, (d.DepartureTime parse).isSome = true) :
    ∃ kept, Ingester.removeExpiredDepartures parse now l = Result.ok kept := by
  induction l with
  | nil => exact ⟨[], rfl⟩
  | cons d ds ih =>
    obtain ⟨k, hk⟩ := ih (fun x hx => h x (List.mem_cons_of_mem _ hx))
    have hd := h d (List.mem_cons_self _ _)
    unfold Departure.DepartureTime at hd
    rw [Ingester.removeExpiredDepartures]
    cases he : d.ExpectedDepartureTime with
    | some e =>
      simp only [he] at hd
      cases hp : parse e with
      | none => simp [hp] at hd
      | some t =>
        simp only [hp, hk, Result.bind]
        by_cases hb : ¬ t.Before now = true
        · rw [if_pos hb]; exact ⟨_, rfl⟩
        · rw [if_neg hb]; exact ⟨_, rfl⟩
    | none =>
      simp only [he] at hd
      cases hp : parse d.AimedDepartureTime with
      | none => simp [hp] at hd
      | some t =>
        simp only [hp, hk, Result.bind]
        by_cases hb : ¬ t.Before now = true
        · rw [if_pos hb]; exact ⟨_, rfl⟩
        · rw [if_neg hb]; exact ⟨_, rfl⟩

theorem ByDepartureTime_Less_isSome (parse : String → Option Time) (a b : Departure)
    (ha : (a.DepartureTime parse).isSome = true) (hb : (b.DepartureTime parse).isSome = true)
    (hga : grammarMatching a) (hgb : grammarMatching b) :
    ∃ r, ByDepartureTime.Less parse a b = some r := by
  unfold ByDepartureTime.Less
  cases hta : a.DepartureTime parse with
  | none => rw [hta] at ha; simp at ha
  | some ta =>
    cases htb : b.DepartureTime parse with
    | none => rw [htb] at hb; simp at hb
    | some tb =>
      simp only
      split_ifs
      · obtain ⟨r, hr⟩ := lessByServiceNumber_isSome a b hga hgb
        rw [hr]
        cases r <;> exact ⟨_, rfl⟩
      · exact ⟨_, rfl⟩

/-- C28, counterexample: two buses due at the same time with the service
numbers X-1 and 2. The times parse, but X-1 does not match the grammar, so
`Less` panics in `GetServiceNumberParts`, and an ingest of the two
departures panics in its sort. -/
theorem Less_panics_on_odd_service_number :
    ((sampleBus "J1" "2019-05-20T12:10:00+01:00" "X-1" "D").DepartureTime sampleParse).isSome
      = true
    ∧ ((sampleBus "J2" "2019-05-20T12:10:00+01:00" "2" "D").DepartureTime sampleParse).isSome
      = true
    ∧ ByDepartureTime.Less sampleParse
        (sampleBus "J1" "2019-05-20T12:10:00+01:00" "X-1" "D")
        (sampleBus "J2" "2019-05-20T12:10:00+01:00" "2" "D") = none
    ∧ Ingester.ingestLocation sampleParse id (sampleNow 0) [] newWithOddNumbers
      = Result.panic := by
  refine ⟨by decide, by decide, by decide, by decide⟩

/-- C28, amended: for every pair of departures with parseable departure times
whose service numbers match the grammar of `GetServiceNumberParts`,
`ByDepartureTime.Less` returns a result; and when this holds of all cached and
new departures, `ingestLocation` returns its sorted list: the sort does not
abort the ingest. -/
theorem Less_returns_on_grammar (parse : String → Option Time) :
    (∀ a b : Departure, (a.DepartureTime parse).isSome = true →
      (b.DepartureTime parse).isSome = true → grammarMatching a → grammarMatching b →
      ∃ r, ByDepartureTime.Less parse a b = some r)
    ∧ (∀ (rangeOrder : List Departure → List Departure) (now : Time) (C N : List Departure),
        (∀ l, (rangeOrder l).Perm l) →
        (∀ d ∈ C ++ N, (d.DepartureTime parse).isSome = true ∧ grammarMatching d) →
        ∃ l, Ingester.ingestLocation parse rangeOrder now C N = Result.ok l) := by
  refine ⟨ByDepartureTime_Less_isSome parse, ?_⟩
  intro rangeOrder now C N hOrder hall
  have hmerged : ∀ d ∈ combineCachedAndNewDepartures rangeOrder C N,
      (d.DepartureTime parse).isSome = true ∧ grammarMatching d :=
    fun d hd => hall d (mem_combine rangeOrder hOrder C N d hd)
  obtain ⟨kept, hkept⟩ := removeExpiredDepartures_isOk parse now _ (fun d hd => (hmerged d hd).1)
  have hsub := Ingester.removeExpiredDepartures_sublist parse now _ kept hkept
  obtain ⟨sorted, hsorted⟩ := insertionSortLoop_isSome (ByDepartureTime.Less parse) [] kept
    (fun x hx y hy => by
      have hx1 := hmerged x (hsub.subset (by simpa using hx))
      have hy1 := hmerged y (hsub.subset (by simpa using hy))
      obtain ⟨r, hr⟩ := ByDepartureTime_Less_isSome parse x y hx1.1 hy1.1 hx1.2 hy1.2
      rw [hr]
      simp)
  refine ⟨sorted, ?_⟩
  unfold Ingester.ingestLocation
  simp only [hkept, Result.bind]
  have : sortSort (ByDepartureTime.Less parse) kept = some sorted := hsorted
  rw [this]

/-- Witness of `Less_returns_on_grammar`: the buses 012 and 12 due at the
same time. -/
theorem Less_returns_on_grammar_witness :
    ∃ r, ByDepartureTime.Less sampleParse
        (sampleBus "J1" "2019-05-20T12:10:00+01:00" "012" "D")
        (sampleBus "J2" "2019-05-20T12:10:00+01:00" "12" "D") = some r :=
  (Less_returns_on_grammar sampleParse).1
    (sampleBus "J1" "2019-05-20T12:10:00+01:00" "012" "D")
    (sampleBus "J2" "2019-05-20T12:10:00+01:00" "12" "D")
    (by decide) (by decide) (by decide) (by decide)


/-- C29: for every train departure without `departureStatus`, whatever its
times and whatever `now`, `IsExpired` does not return: it dereferences the
absent status. -/
theorem IsExpired_train_without_status (parse : String → Option Time) (d : Departure)
    (now : Time) (htrain : d.JourneyType = Train) (hstatus : d.DepartureStatus = none) :
    d.IsExpired parse now = none := by
  unfold Departure.IsExpired
  cases d.DepartureTime parse with
  | none => rfl
  | some p => simp only [htrain, hstatus, if_true]

/-- Witness of `IsExpired_train_without_status`: a train due 12:10 without
status, at 12:00; its time parses. -/
theorem IsExpired_train_without_status_witness :
    ((sampleTrain "S1" "2019-05-20T12:10:00+01:00" none).DepartureTime sampleParse).isSome = true
    ∧ (sampleTrain "S1" "2019-05-20T12:10:00+01:00" none).IsExpired sampleParse (sampleNow 0)
      = none :=
  ⟨by decide, IsExpired_train_without_status sampleParse
    (sampleTrain "S1" "2019-05-20T12:10:00+01:00" none) (sampleNow 0) rfl rfl⟩

theorem dropWhile_head_not (p : Departure → Bool) (l : List Departure) (d : Departure)
    (h : (l.dropWhile p).head? = some d) : p d = false := by
  induction l with
  | nil => simp at h
  | cons x xs ih =>
    rw [List.dropWhile_cons] at h
    by_cases hx : p x = true
    · rw [if_pos hx] at h
      exact ih h
    · rw [if_neg hx] at h
      simp only [List.head?_cons, Option.some.injEq] at h
      rw [← h]
      simpa using hx

theorem backfill_eq_dropWhile_take (parse : String → Option Time) (now : Time)
    (L : List Departure) (top : Int) (htop : 0 < top)
    (hdef : ∀ d ∈ L, (d.IsExpired parse now).isSome = true)
    (fuel : Nat) (hfuel : L.length + 2 ≤ fuel) :
    Presenter.backfill parse now L top fuel [] 0 top
      = some (Result.ok
          ((L.dropWhile (fun d => d.IsExpired parse now == some true)).take top.toNat)) := by
  obtain ⟨T, rfl⟩ : ∃ T : Nat, top = (T : Int) := ⟨top.toNat, by omega⟩
  have hT : 0 < T := by omega
  have hsplit : L.takeWhile (fun d => d.IsExpired parse now == some true)
      ++ L.dropWhile (fun d => d.IsExpired parse now == some true) = L :=
    List.takeWhile_append_dropWhile _ _
  have hP : ∀ d ∈ L.takeWhile (fun d => d.IsExpired parse now == some true),
      d.IsExpired parse now = some true := by
    intro d hd
    have := List.mem_takeWhile_imp hd
    simpa using this
  have hR : ∀ d, (L.dropWhile (fun d => d.IsExpired parse now == some true)).head? = some d →
      d.IsExpired parse now = some false := by
    intro d hd
    have h1 := dropWhile_head_not _ L d hd
    have hmem : d ∈ L := (List.dropWhile_sublist _).subset (List.mem_of_mem_head? hd)
    have h2 := hdef d hmem
    cases hv : d.IsExpired parse now with
    | none => rw [hv] at h2; simp at h2
    | some b =>
      cases b with
      | false => rfl
      | true => rw [hv] at h1; simp at h1
  have hlen : (L.takeWhile (fun d => d.IsExpired parse now == some true)).length ≤ L.length :=
    (List.takeWhile_sublist _).length_le
  have hb := Presenter.backfill_result parse now
    (L.takeWhile (fun d => d.IsExpired parse now == some true))
    (L.dropWhile (fun d => d.IsExpired parse now == some true)) T hT hP hR fuel 0
    (Nat.zero_le _) (by omega)
  rw [hsplit] at hb
  simpa using hb

/-- C30: for every cached list `L` on whose entries `IsExpired` returns and
every `top > 0`, the backfill loop of the presenter terminates (within
`length L + 2` iterations), and the departures it holds on exit are the first
`top` entries, or all if there are fewer, of `L` without its longest run of
expired entries at the head. -/
theorem backfill_spec (parse : String → Option Time) (now : Time)
    (L : List Departure) (top : Int) (htop : 0 < top)
    (hdef : ∀ d ∈ L, (d.IsExpired parse now).isSome = true) :
    ∀ fuel, L.length + 2 ≤ fuel →
      Presenter.backfill parse now L top fuel [] 0 top
        = some (Result.ok
            ((L.dropWhile (fun d => d.IsExpired parse now == some true)).take top.toNat)) :=
  fun fuel hfuel => backfill_eq_dropWhile_take parse now L top htop hdef fuel hfuel

/-- Witness of `backfill_spec`: two buses that have gone, then three that
have not, asked for at 12:15 with `top = 2`; the loop reads the list three
times. -/
theorem backfill_spec_witness :
    Presenter.backfill sampleParse (sampleNow 900) sampleCachedBuses 2 7 [] 0 2
      = some (Result.ok
          ((sampleCachedBuses.dropWhile
            (fun d => d.IsExpired sampleParse (sampleNow 900) == some true)).take
              (2 : Int).toNat)) :=
  backfill_spec sampleParse (sampleNow 900) sampleCachedBuses 2 (by decide)
    (by set_option maxRecDepth 100000 in decide) 7 (by decide)

/-- The departures held on exit for the sample list: the buses due 12:20 and
12:30. -/
theorem backfill_sample :
    Presenter.backfill sampleParse (sampleNow 900) sampleCachedBuses 2 7 [] 0 2
      = some (Result.ok
          [sampleBus "J3" "2019-05-20T12:20:00+01:00" "3" "Leigh",
           sampleBus "J4" "2019-05-20T12:30:00+01:00" "4" "Bury"]) := by
  set_option maxRecDepth 100000 in decide

end DepServices
